import Mathlib

/-!
# The tag-field registry of ctags (`main/field.c`)

A shallow embedding of the field registry and of the render dispatcher of
`main/field.c`, followed by theorems about it.

Conventions of the embedding.

* C strings are `String`s (one `Char` per byte, no embedded NUL); a possibly
  NULL `const char *` is an `Option String`.
* Function pointers stored in a `fieldDefinition` are names (constructors of
  `fieldRenderer`, `containsAnyCharFn`, `valueAvailableFn`) that the dispatch
  functions interpret; functions contributed by a parser are `parser n`.
* The module's static variables form the `Registry` that every operation takes
  and returns.  `fieldObjects` holds the initialised slots of the C array, so
  `fieldObjectUsed` is its length.
* A registry entry holds the address of its definition object, as in the
  source.  The address is `defAddr`; next to it the entry records, as `fdef`,
  the object at that address as it is at the moment.  A write through an
  address (`writeDefinition`) therefore changes `fdef` in every entry that
  holds the address, so entries that share one object always show the same
  object.  An element of a static table is addressed by its table and index, an
  object of a parser by the value the parser hands to `defineField`, which
  includes a number (`addr`) that tells apart objects of equal content.  Nobody
  but `field.c` is taken to write to a registered object.
* `Assert` is modelled as enabled: a failing assertion is `Failure.assertion`;
  a read or write outside the initialised slots is `Failure.invalidAccess`.
-/

namespace Field

/-! ## Constants of the headers -/

/-- Modelled from the spec: `langType` is `int` (types.h, absent); here the "auto" value. -/
def LANG_AUTO : Int := -1

/-- Modelled from the spec: the "no owner" language of the built-in fields (types.h, absent). -/
def LANG_IGNORE : Int := -2

/-- Modelled from the spec: the sentinel id for "field unknown" (field.h, absent). -/
def FIELD_UNKNOWN : Int := -1

/-- Modelled from the spec: the "no letter" sentinel of field.h (absent), the NUL character. -/
def NUL_FIELD_LETTER : Char := Char.ofNat 0

/-- The placeholder shown for a field without letter. -/
def FIELD_NULL_LETTER_CHAR : Char := '-'

/-- The placeholder text of an absent value. -/
def FIELD_NULL_LETTER_STRING : String := "-"

/-- Modelled from the spec: the sentinel index "no extra value" (entry.h, absent). -/
def NO_PARSER_FIELD : Int := -1

/-- Modelled from the spec: the constant namespace prefix of qualified names (ctags.h, absent). -/
def CTAGS_FIELD_PREFIX : String := "UCTAGS"

/-- Modelled from the spec: data-type flag STRING of field.h (absent). -/
def FIELDTYPE_STRING : Nat := 1

/-- Modelled from the spec: data-type flag INTEGER of field.h (absent). -/
def FIELDTYPE_INTEGER : Nat := 2

/-- Modelled from the spec: data-type flag BOOLEAN of field.h (absent). -/
def FIELDTYPE_BOOL : Nat := 4

/-- The ways an operation can fail instead of returning. -/
inductive Failure where
  | assertion
  | invalidAccess
  deriving DecidableEq, Repr

/-! ## Function pointers -/

/-- The renderers a definition can point to. -/
inductive fieldRenderer where
  | renderFieldName
  | renderFieldNameNoEscape
  | renderFieldInput
  | renderFieldInputNoEscape
  | renderFieldCompactInputLine
  | renderFieldSignature
  | renderFieldSignatureNoEscape
  | renderFieldScope
  | renderFieldScopeNoEscape
  | renderFieldTyperef
  | renderFieldInherits
  | renderFieldKindName
  | renderFieldLineNumber
  | renderFieldLanguage
  | renderFieldAccess
  | renderFieldKindLetter
  | renderFieldImplementation
  | renderFieldFile
  | renderFieldPattern
  | renderFieldRoles
  | renderFieldRefMarker
  | renderFieldExtras
  | renderFieldXpath
  | renderFieldScopeKindName
  | renderFieldEnd
  | renderFieldEpoch
  | defaultRenderer
  | parser (n : Nat)
  deriving DecidableEq, Repr

/-- The "contains any char" predicates a definition can point to. -/
inductive containsAnyCharFn where
  | doesContainAnyCharInName
  | doesContainAnyCharInInput
  | doesContainAnyCharInFieldScope
  | doesContainAnyCharInSignature
  | defaultDoesContainAnyChar
  | parser (n : Nat)
  deriving DecidableEq, Repr

/-- The availability predicates a definition can point to. -/
inductive valueAvailableFn where
  | isTyperefFieldAvailable
  | isFileFieldAvailable
  | isInheritsFieldAvailable
  | isAccessFieldAvailable
  | isImplementationFieldAvailable
  | isSignatureFieldAvailable
  | isExtrasFieldAvailable
  | isXpathFieldAvailable
  | isEndFieldAvailable
  | isEpochAvailable
  | parser (n : Nat)
  deriving DecidableEq, Repr

/-! ## Data model -/

/-- Modelled from the spec: `struct sFieldDefinition` (field.h, absent), with the
members `field.c` reads and writes.  `addr` is no member: it is a number that
tells apart two definition objects of a parser that have the same content. -/
structure fieldDefinition where
  letter : Char
  name : Option String
  description : String
  enabled : Bool
  render : Option fieldRenderer
  renderNoEscaping : Option fieldRenderer
  doesContainAnyChar : Option containsAnyCharFn
  isValueAvailable : Option valueAvailableFn
  dataType : Nat
  ftype : Nat
  addr : Nat
  deriving DecidableEq, Repr

/-- The value of a `fieldDefinition *`: the address of element `i` of one of the
three static tables, or the address of a definition object of a parser, which
is named by the value the parser hands to `defineField`. -/
inductive defAddress where
  | fixed (i : Nat)
  | exuberant (i : Nat)
  | universal (i : Nat)
  | parser (d : fieldDefinition)
  deriving DecidableEq, Repr

/-- The registry entry `struct sFieldObject`.  The member `def` is `defAddr`, the
address held, together with `fdef`, the object at that address as it is now.
The scratch buffer is cleared before every use and so carries no state. -/
structure fieldObject where
  defAddr : defAddress
  fdef : fieldDefinition
  nameWithPrefix : Option String
  language : Int
  sibling : Int
  deriving DecidableEq, Repr

/-- The static state of `field.c`: `fieldObjects` (`none` is NULL, otherwise the
initialised slots), `fieldObjectAllocated`, and the function-static flag
`initialized` of `getFieldTypeForNameAndLanguage`. -/
structure Registry where
  fieldObjects : Option (List fieldObject)
  fieldObjectAllocated : Nat
  initialized : Bool
  deriving DecidableEq, Repr

/-- The state at program start. -/
def Registry.start : Registry :=
  { fieldObjects := none, fieldObjectAllocated := 0, initialized := false }

/-- The initialised slots of the array. -/
def Registry.objs (r : Registry) : List fieldObject :=
  match r.fieldObjects with
  | none => []
  | some l => l

/-- The static counter `fieldObjectUsed`. -/
def Registry.fieldObjectUsed (r : Registry) : Nat := r.objs.length

/-! ## The static tables -/

/-- A table entry; `ftype` is zero until `initFieldObjects` assigns it. -/
def mkDef (letter : Char) (name : Option String) (description : String) (enabled : Bool)
    (render : fieldRenderer) (renderNoEscaping : Option fieldRenderer)
    (doesContainAnyChar : Option containsAnyCharFn)
    (isValueAvailable : Option valueAvailableFn) (dataType : Nat) : fieldDefinition :=
  { letter := letter, name := name, description := description, enabled := enabled,
    render := some render, renderNoEscaping := renderNoEscaping,
    doesContainAnyChar := doesContainAnyChar, isValueAvailable := isValueAvailable,
    dataType := dataType, ftype := 0, addr := 0 }

/-- The table `fieldDefinitionsFixed`. -/
def fieldDefinitionsFixed : List fieldDefinition :=
  [ mkDef 'N' (some "name") "tag name" true
      .renderFieldName (some .renderFieldNameNoEscape) (some .doesContainAnyCharInName)
      none FIELDTYPE_STRING,
    mkDef 'F' (some "input") "input file" true
      .renderFieldInput (some .renderFieldInputNoEscape) (some .doesContainAnyCharInInput)
      none FIELDTYPE_STRING,
    mkDef 'P' (some "pattern") "pattern" true
      .renderFieldPattern none none none (FIELDTYPE_STRING ||| FIELDTYPE_BOOL) ]

/-- The table `fieldDefinitionsExuberant`. -/
def fieldDefinitionsExuberant : List fieldDefinition :=
  [ mkDef 'C' (some "compact") "compact input line (used only in xref output)" false
      .renderFieldCompactInputLine none none none FIELDTYPE_STRING,
    mkDef 'a' (some "access") "Access (or export) of class members" false
      .renderFieldAccess none none (some .isAccessFieldAvailable) FIELDTYPE_STRING,
    mkDef 'f' (some "file") "File-restricted scoping" true
      .renderFieldFile none none (some .isFileFieldAvailable) FIELDTYPE_BOOL,
    mkDef 'i' (some "inherits") "Inheritance information" false
      .renderFieldInherits none none (some .isInheritsFieldAvailable)
      (FIELDTYPE_STRING ||| FIELDTYPE_BOOL),
    mkDef 'K' none "Kind of tag in long-name form" false
      .renderFieldKindName none none none FIELDTYPE_STRING,
    mkDef 'k' none "Kind of tag in one-letter form" true
      .renderFieldKindLetter none none none FIELDTYPE_STRING,
    mkDef 'l' (some "language") "Language of input file containing tag" false
      .renderFieldLanguage none none none FIELDTYPE_STRING,
    mkDef 'm' (some "implementation") "Implementation information" false
      .renderFieldImplementation none none (some .isImplementationFieldAvailable)
      FIELDTYPE_STRING,
    mkDef 'n' (some "line") "Line number of tag definition" false
      .renderFieldLineNumber none none none FIELDTYPE_INTEGER,
    mkDef 'S' (some "signature") "Signature of routine (e.g. prototype or parameter list)" false
      .renderFieldSignature (some .renderFieldSignatureNoEscape)
      (some .doesContainAnyCharInSignature) (some .isSignatureFieldAvailable) FIELDTYPE_STRING,
    mkDef 's' none
      "[tags output] scope (kind:name) of tag definition, [xref and json output] name of scope"
      true
      .renderFieldScope (some .renderFieldScopeNoEscape) (some .doesContainAnyCharInFieldScope)
      none FIELDTYPE_STRING,
    mkDef 't' (some "typeref") "Type and name of a variable or typedef" true
      .renderFieldTyperef none none (some .isTyperefFieldAvailable) FIELDTYPE_STRING,
    mkDef 'z' (some "kind")
      "[tags output] prepend \"kind:\" to k/ (or K/) field output, [xref and json output] kind in long-name form"
      false
      .renderFieldKindName none none none FIELDTYPE_STRING ]

/-- The table `fieldDefinitionsUniversal`. -/
def fieldDefinitionsUniversal : List fieldDefinition :=
  [ mkDef 'r' (some "roles") "Roles" false
      .renderFieldRoles none none none FIELDTYPE_STRING,
    mkDef 'R' none "Marker (R or D) representing whether tag is definition or reference" false
      .renderFieldRefMarker none none none FIELDTYPE_STRING,
    mkDef 'Z' (some "scope")
      "[tags output] prepend \"scope:\" key to s/scope field output, [xref and json output] the same as s/ field"
      false
      .renderFieldScope (some .renderFieldScopeNoEscape) (some .doesContainAnyCharInFieldScope)
      none FIELDTYPE_STRING,
    mkDef 'E' (some "extras") "Extra tag type information" false
      .renderFieldExtras none none (some .isExtrasFieldAvailable) FIELDTYPE_STRING,
    mkDef 'x' (some "xpath") "xpath for the tag" false
      .renderFieldXpath none none (some .isXpathFieldAvailable) FIELDTYPE_STRING,
    mkDef 'p' (some "scopeKind")
      "[tags output] no effect, [xref and json output] kind of scope in long-name form"
      false
      .renderFieldScopeKindName none none none FIELDTYPE_STRING,
    mkDef 'e' (some "end") "end lines of various items" false
      .renderFieldEnd none none (some .isEndFieldAvailable) FIELDTYPE_INTEGER,
    mkDef 'T' (some "epoch")
      "the last modified time of the input file (only for F/file kind tag)"
      true
      .renderFieldEpoch none none (some .isEpochAvailable) FIELDTYPE_INTEGER ]

/-! ## Initialisation -/

/-- The body of the first two loops of `initFieldObjects`: the entry for table
entry `d` at index `i` of the table whose addresses are `table`, with the bare
name as `nameWithPrefix`. -/
def initObjectBare (table : Nat → defAddress) (used i : Nat) (d : fieldDefinition) :
    fieldObject :=
  { defAddr := table i,
    fdef := { d with ftype := i + used },
    nameWithPrefix := d.name,
    language := LANG_IGNORE,
    sibling := FIELD_UNKNOWN }

/-- The body of the third loop of `initFieldObjects`: as before, but a present
name gets the prefix. -/
def initObjectPrefixed (table : Nat → defAddress) (used i : Nat) (d : fieldDefinition) :
    fieldObject :=
  { defAddr := table i,
    fdef := { d with ftype := i + used },
    nameWithPrefix :=
      match d.name with
      | some n => some (CTAGS_FIELD_PREFIX ++ n)
      | none => none,
    language := LANG_IGNORE,
    sibling := FIELD_UNKNOWN }

/-- One `for` loop of `initFieldObjects` over a table, from table index `i` on. -/
def initLoop (body : Nat → Nat → fieldDefinition → fieldObject) (used : Nat) :
    Nat → List fieldDefinition → List fieldObject
  | _, [] => []
  | i, d :: ds => body used i d :: initLoop body used (i + 1) ds

/-- The function `initFieldObjects`. -/
def initFieldObjects (r : Registry) : Except Failure Registry :=
  if r.fieldObjects.isSome then .error .assertion
  else
    let allocated := fieldDefinitionsFixed.length + fieldDefinitionsExuberant.length
      + fieldDefinitionsUniversal.length
    let used0 := 0
    let objs1 := initLoop (initObjectBare .fixed) used0 0 fieldDefinitionsFixed
    let used1 := used0 + fieldDefinitionsFixed.length
    let objs2 := objs1 ++ initLoop (initObjectBare .exuberant) used1 0 fieldDefinitionsExuberant
    let used2 := used1 + fieldDefinitionsExuberant.length
    let objs3 := objs2 ++ initLoop (initObjectPrefixed .universal) used2 0 fieldDefinitionsUniversal
    let used3 := used2 + fieldDefinitionsUniversal.length
    if allocated = used3 then
      .ok { r with fieldObjects := some objs3, fieldObjectAllocated := allocated }
    else .error .assertion

/-- The function `countFields`. -/
def countFields (r : Registry) : Int := (r.fieldObjectUsed : Int)

/-- The function `getFieldObject`: the range assertion, then the entry. -/
def getFieldObject (r : Registry) (type : Int) : Except Failure fieldObject :=
  if 0 ≤ type ∧ type.toNat < r.fieldObjectUsed then
    match r.objs[type.toNat]? with
    | some fobj => .ok fobj
    | none => .error .invalidAccess
  else .error .assertion

/-- The unchecked access `fieldObjects + type`, read. -/
def fieldObjectAt (r : Registry) (type : Int) : Except Failure fieldObject :=
  if 0 ≤ type then
    match r.objs[type.toNat]? with
    | some fobj => .ok fobj
    | none => .error .invalidAccess
  else .error .invalidAccess

/-! ## Lookup -/

/-- The loop of `getFieldTypeForOption`, from index `i` on. -/
def getFieldTypeForOptionLoop (letter : Char) : List fieldObject → Nat → Int
  | [], _ => FIELD_UNKNOWN
  | fobj :: rest, i =>
    if fobj.fdef.letter = letter then (i : Int)
    else getFieldTypeForOptionLoop letter rest (i + 1)

/-- The function `getFieldTypeForOption`. -/
def getFieldTypeForOption (r : Registry) (letter : Char) : Int :=
  getFieldTypeForOptionLoop letter r.objs 0

/-- The loop of `getFieldTypeForNameAndLanguage`, from index `i` on. -/
def getFieldTypeForNameAndLanguageLoop (fieldName : String) (language : Int) :
    List fieldObject → Nat → Int
  | [], _ => FIELD_UNKNOWN
  | fobj :: rest, i =>
    if fobj.fdef.name = some fieldName
        ∧ (language = LANG_AUTO ∨ fobj.language = language) then (i : Int)
    else getFieldTypeForNameAndLanguageLoop fieldName language rest (i + 1)

/-- The function `getFieldTypeForNameAndLanguage`.  The parser initialisation of
parse.c is the parameter `initializeParser`, a transformer of the registry. -/
def getFieldTypeForNameAndLanguage (initializeParser : Int → Registry → Registry)
    (r : Registry) (fieldName : Option String) (language : Int) : Int × Registry :=
  match fieldName with
  | none => (FIELD_UNKNOWN, r)
  | some fieldName =>
    let r1 :=
      if language = LANG_AUTO ∧ r.initialized = false then
        initializeParser LANG_AUTO { r with initialized := true }
      else if language ≠ LANG_IGNORE ∧ r.initialized = false then
        initializeParser language r
      else r
    (getFieldTypeForNameAndLanguageLoop fieldName language r1.objs 0, r1)

/-- The function `getFieldTypeForName`. -/
def getFieldTypeForName (initializeParser : Int → Registry → Registry)
    (r : Registry) (name : Option String) : Int × Registry :=
  getFieldTypeForNameAndLanguage initializeParser r name LANG_IGNORE

/-- Modelled from the spec: a parser initialisation (parse.c, absent) that
registers nothing and leaves the registry as it is. -/
def noParserInit : Int → Registry → Registry := fun _ r => r

/-! ## Registration -/

/-- The function `nextSiblingField`: an unchecked read of the entry. -/
def nextSiblingField (r : Registry) (type : Int) : Except Failure Int :=
  match fieldObjectAt r type with
  | .ok fobj => .ok fobj.sibling
  | .error e => .error e

/-- The loop of `updateSiblingField`, with the loop variable at `i`. -/
def updateSiblingFieldLoop (type : Nat) (name : String) :
    Nat → List fieldObject → Except Failure (List fieldObject)
  | 0, objs => .ok objs
  | i + 1, objs =>
    match objs[i]? with
    | none => .error .invalidAccess
    | some fobj =>
      if fobj.fdef.name = some name then
        if fobj.sibling = FIELD_UNKNOWN then
          .ok (objs.set i { fobj with sibling := (type : Int) })
        else .error .assertion
      else updateSiblingFieldLoop type name i objs

/-- The function `updateSiblingField`. -/
def updateSiblingField (type : Nat) (name : String) (objs : List fieldObject) :
    Except Failure (List fieldObject) :=
  updateSiblingFieldLoop type name type objs

/-- The function `isalpha` of the C locale. -/
def isalpha (c : Char) : Bool := c.isAlpha

/-- The definition as `defineField` leaves it: the letter reset, the id
assigned, the default renderer installed when none is given, and the data type
defaulted. -/
def defineFieldDefinition (d : fieldDefinition) (ftype : Nat) : fieldDefinition :=
  let d1 := { d with letter := NUL_FIELD_LETTER }
  let d2 := { d1 with ftype := ftype }
  let d3 :=
    if d2.render = none then
      { d2 with render := some .defaultRenderer, renderNoEscaping := none,
                doesContainAnyChar := none }
    else d2
  if d3.dataType = 0 then { d3 with dataType := FIELDTYPE_STRING } else d3

/-- A write to the definition object at the address `a`, which leaves the
object as `d`: every entry that holds the address shows the object as written. -/
def writeDefinition (a : defAddress) (d : fieldDefinition) (objs : List fieldObject) :
    List fieldObject :=
  objs.map fun f => if f.defAddr = a then { f with fdef := d } else f

/-- The definition object a parser hands in, as it is when `defineField` reads
it: as the entries that hold its address record it, and as handed in when no
entry holds its address yet. -/
def currentDefinition (objs : List fieldObject) (d : fieldDefinition) : fieldDefinition :=
  match objs.find? (fun f => decide (f.defAddr = .parser d)) with
  | some f => f.fdef
  | none => d

/-- The entry `defineField` writes at the slot `fieldObjects + fieldObjectUsed`
for an object handed in for the first time. -/
def defineFieldObject (d : fieldDefinition) (name : String) (ftype : Nat) (language : Int) :
    fieldObject :=
  { defAddr := .parser d,
    fdef := defineFieldDefinition d ftype,
    nameWithPrefix := some (CTAGS_FIELD_PREFIX ++ name),
    language := language,
    sibling := FIELD_UNKNOWN }

/-- The function `defineField`.  It returns the id and the new registry.  The
function reads the object `def` points to and writes `letter`, `ftype`,
`render`, `renderNoEscaping`, `doesContainAnyChar` and `dataType` to it, so every
entry that holds the address shows the object as it is left; the new entry
holds the address too. -/
def defineField (r : Registry) (d : Option fieldDefinition) (language : Int) :
    Except Failure (Int × Registry) :=
  match d with
  | none => .error .assertion
  | some d =>
    let cur := currentDefinition r.objs d
    match cur.name with
    | none => .error .assertion
    | some name =>
      if name.data.all isalpha then
        match r.fieldObjects with
        | none => .error .invalidAccess
        | some objs =>
          let allocated :=
            if objs.length = r.fieldObjectAllocated then r.fieldObjectAllocated * 2
            else r.fieldObjectAllocated
          let ftype := objs.length
          let written := defineFieldDefinition cur ftype
          let fobj : fieldObject :=
            { defineFieldObject d name ftype language with fdef := written }
          match updateSiblingField ftype name
              (writeDefinition (.parser d) written objs ++ [fobj]) with
          | .error e => .error e
          | .ok objs1 =>
            .ok ((ftype : Int),
                 { r with fieldObjects := some objs1, fieldObjectAllocated := allocated })
      else .error .assertion

/-- The walk along the sibling links: from `id`, `nextSiblingField` is applied
until it yields `FIELD_UNKNOWN`; the result is the list of the ids visited, or
`none` when a read fails or the walk is not over after `fuel` reads. -/
def siblingChain (r : Registry) : Nat → Int → Option (List Int)
  | 0, _ => none
  | fuel + 1, id =>
    if id = FIELD_UNKNOWN then some []
    else
      match nextSiblingField r id with
      | .ok next => (siblingChain r fuel next).map (fun ids => id :: ids)
      | .error _ => none

/-! ## Tags and the collaborators of the renderers -/

/-- Modelled from the spec: the member `extensionFields` of a tag (entry.h,
absent), with the members `field.c` reads; `typeRef0` and `typeRef1` are the two
parts of the type reference. -/
structure extensionFieldsInfo where
  access : Option String
  implementation : Option String
  inheritance : Option String
  signature : Option String
  typeRef0 : Option String
  typeRef1 : Option String
  endLine : Nat
  epoch : Int
  roleBits : Nat
  xpath : Option String
  deriving DecidableEq, Repr

/-- Modelled from the spec: an extra-field slot of a tag, `tagField` of entry.h
(absent): the field id and the raw text value. -/
structure tagField where
  ftype : Int
  value : String
  deriving DecidableEq, Repr

/-- Modelled from the spec: the tag record `tagEntryInfo` (entry.h, absent), with
the members `field.c` reads.  `parserFields` is the list of the extra-field
slots in use, `extra` the bytes of the extras bit field. -/
structure tagEntryInfo where
  name : String
  inputFileName : String
  sourceFileName : Option String
  lineNumber : Nat
  sourceLineNumberDifference : Int
  langType : Int
  sourceLangType : Int
  kindIndex : Int
  isFileScope : Bool
  isPseudoTag : Bool
  isFileEntry : Bool
  pattern : Option String
  extensionFields : extensionFieldsInfo
  extra : List Nat
  extraDynamic : Bool
  parserFields : List tagField
  deriving DecidableEq, Repr

/-- The member `usedParserFields`, the number of slots in use. -/
def tagEntryInfo.usedParserFields (tag : tagEntryInfo) : Nat := tag.parserFields.length

/-- Modelled from the spec: `getParserFieldForIndex` (entry.c, absent): the slot
for a non-negative index below the count, NULL otherwise. -/
def getParserFieldForIndex (tag : tagEntryInfo) (index : Int) : Option tagField :=
  if 0 ≤ index then tag.parserFields[index.toNat]? else none

/-- What `field.c` takes from the rest of the program: the options it reads,
the functions of other modules it calls, and the renderers and predicates that
parsers contribute. -/
structure Env where
  lineDirectives : Bool
  putFieldPrefix : Bool
  haveLibxml : Bool
  escape : String → String
  getTagScopeInformation : tagEntryInfo → Option String × Option String
  getTagKindName : tagEntryInfo → Option String
  getTagKindLetter : tagEntryInfo → Char
  getLanguageName : Int → Option String
  readLineFromBypassForTag : tagEntryInfo → Option String
  makePatternString : tagEntryInfo → String
  countLanguageRoles : Int → Int → Nat
  isLanguageRoleEnabled : Int → Int → Nat → Bool
  roleName : tagEntryInfo → Nat → String
  countXtags : Nat
  getXtagName : Nat → Option String
  isTagExtraBitMarked : tagEntryInfo → Nat → Bool
  parserRenderer : Nat → tagEntryInfo → Option String → String → Except Failure (Option String)
  parserContainsAnyChar : Nat → tagEntryInfo → Option String → String → Except Failure Bool
  parserValueAvailable : Nat → tagEntryInfo → Bool

/-- Modelled from the spec: the name of the definition role (kind.h, absent). -/
def ROLE_DEFINITION_NAME : String := "def"

/-- The macro `WITH_DEFUALT_VALUE`. -/
def WITH_DEFUALT_VALUE (str : Option String) : String :=
  match str with
  | some s => s
  | none => FIELD_NULL_LETTER_STRING

/-- Modelled from the spec: `vStringCatSWithEscaping` (vstring.c, absent) appends
to the buffer the escaped form of `s`; the escaping itself is `env.escape`. -/
def vStringCatSWithEscaping (env : Env) (b : String) (s : String) : String :=
  b ++ env.escape s

/-- The function `strpbrk` on lists of characters: the suffix of `s` that starts
at the first character occurring in `accept`. -/
def strpbrkList (accept : List Char) : List Char → Option (List Char)
  | [] => none
  | c :: cs => if c ∈ accept then some (c :: cs) else strpbrkList accept cs

/-- The function `strpbrk`. -/
def strpbrk (s : String) (accept : String) : Option String :=
  (strpbrkList accept.data s.data).map String.mk

/-- The function `isspace` of the C locale. -/
def isspace (c : Char) : Bool := c = ' ' || (9 ≤ c.toNat && c.toNat ≤ 13)

/-! ## Renderers -/

/-- The function `renderAsIs`. -/
def renderAsIs (_b : String) (s : Option String) : Except Failure (Option String) := .ok s

/-- The function `renderEscapedString`. -/
def renderEscapedString (env : Env) (s : String) (_tag : tagEntryInfo) (b : String) :
    Except Failure (Option String) :=
  .ok (some (vStringCatSWithEscaping env b s))

/-- The function `renderEscapedName`.  The diagnostic about an unexpected byte
goes to the verbose log only, which is not part of the model. -/
def renderEscapedName (env : Env) (isTagName : Bool) (s : String) (tag : tagEntryInfo)
    (b : String) : Except Failure (Option String) :=
  match s.data with
  | c :: rest =>
    if isTagName ∧ tag.isPseudoTag = false ∧ (c = ' ' ∨ c = '!') then
      if c = ' ' then renderEscapedString env (String.mk rest) tag (b ++ "\\x20")
      else renderEscapedString env (String.mk rest) tag (b ++ "\\x21")
    else renderEscapedString env s tag b
  | [] => renderEscapedString env s tag b

/-- The function `renderFieldName`. -/
def renderFieldName (env : Env) (tag : tagEntryInfo) (_value : Option String) (b : String) :
    Except Failure (Option String) :=
  renderEscapedName env true tag.name tag b

/-- The function `renderFieldNameNoEscape`. -/
def renderFieldNameNoEscape (tag : tagEntryInfo) (_value : Option String) (b : String) :
    Except Failure (Option String) :=
  renderAsIs b (some tag.name)

/-- The function `doesContainAnyCharInName`. -/
def doesContainAnyCharInName (tag : tagEntryInfo) (_value : Option String) (chars : String) :
    Bool :=
  (strpbrk tag.name chars).isSome

/-- The file name the input renderers use: `sourceFileName` under line
directives when present, `inputFileName` otherwise. -/
def inputFile (env : Env) (tag : tagEntryInfo) : String :=
  match tag.sourceFileName with
  | some f => if env.lineDirectives then f else tag.inputFileName
  | none => tag.inputFileName

/-- The function `renderFieldInput`. -/
def renderFieldInput (env : Env) (tag : tagEntryInfo) (_value : Option String) (b : String) :
    Except Failure (Option String) :=
  renderEscapedString env (inputFile env tag) tag b

/-- The function `renderFieldInputNoEscape`. -/
def renderFieldInputNoEscape (env : Env) (tag : tagEntryInfo) (_value : Option String)
    (b : String) : Except Failure (Option String) :=
  renderAsIs b (some (inputFile env tag))

/-- The function `doesContainAnyCharInInput`. -/
def doesContainAnyCharInInput (env : Env) (tag : tagEntryInfo) (_value : Option String)
    (chars : String) : Bool :=
  (strpbrk (inputFile env tag) chars).isSome

/-- The function `renderFieldSignature`. -/
def renderFieldSignature (env : Env) (tag : tagEntryInfo) (_value : Option String)
    (b : String) : Except Failure (Option String) :=
  renderEscapedString env (WITH_DEFUALT_VALUE tag.extensionFields.signature) tag b

/-- The function `renderFieldSignatureNoEscape`. -/
def renderFieldSignatureNoEscape (tag : tagEntryInfo) (_value : Option String) (b : String) :
    Except Failure (Option String) :=
  renderAsIs b (some (WITH_DEFUALT_VALUE tag.extensionFields.signature))

/-- The function `doesContainAnyCharInSignature`. -/
def doesContainAnyCharInSignature (tag : tagEntryInfo) (_value : Option String)
    (chars : String) : Bool :=
  match tag.extensionFields.signature with
  | some sig => (strpbrk sig chars).isSome
  | none => false

/-- The function `renderFieldScope`. -/
def renderFieldScope (env : Env) (tag : tagEntryInfo) (_value : Option String) (b : String) :
    Except Failure (Option String) :=
  match (env.getTagScopeInformation tag).2 with
  | some scope => renderEscapedName env false scope tag b
  | none => .ok none

/-- The function `renderFieldScopeNoEscape`. -/
def renderFieldScopeNoEscape (env : Env) (tag : tagEntryInfo) (_value : Option String)
    (b : String) : Except Failure (Option String) :=
  match (env.getTagScopeInformation tag).2 with
  | some scope => renderAsIs b (some scope)
  | none => .ok none

/-- The function `doesContainAnyCharInFieldScope`. -/
def doesContainAnyCharInFieldScope (env : Env) (tag : tagEntryInfo) (_value : Option String)
    (chars : String) : Bool :=
  match (env.getTagScopeInformation tag).2 with
  | some scope => (strpbrk scope chars).isSome
  | none => false

/-- The function `renderFieldInherits`. -/
def renderFieldInherits (env : Env) (tag : tagEntryInfo) (_value : Option String)
    (b : String) : Except Failure (Option String) :=
  renderEscapedString env (WITH_DEFUALT_VALUE tag.extensionFields.inheritance) tag b

/-- The function `renderFieldTyperef`. -/
def renderFieldTyperef (env : Env) (tag : tagEntryInfo) (_value : Option String) (b : String) :
    Except Failure (Option String) :=
  if tag.extensionFields.typeRef0 = none ∧ tag.extensionFields.typeRef1 = none then
    renderAsIs b (some FIELD_NULL_LETTER_STRING)
  else
    let b1 := b ++ WITH_DEFUALT_VALUE tag.extensionFields.typeRef0
    let b2 := b1.push ':'
    renderEscapedName env false (WITH_DEFUALT_VALUE tag.extensionFields.typeRef1) tag b2

/-- The function `defaultDoesContainAnyChar`; a NULL value cannot be scanned. -/
def defaultDoesContainAnyChar (_tag : tagEntryInfo) (value : Option String) (chars : String) :
    Except Failure Bool :=
  match value with
  | some v => .ok (strpbrk v chars).isSome
  | none => .error .invalidAccess

/-- The inner `while` of `renderCompactInputLine`: the characters after `p`
once the repeating white space is consumed. -/
def consumeWhiteSpace : List Char → List Char
  | [] => []
  | next :: rest =>
    if isspace next ∧ next ≠ '\n' then consumeWhiteSpace rest else next :: rest

/-- The character `*(p + 1)`, NUL at the end of the string. -/
def peekChar : List Char → Char
  | [] => Char.ofNat 0
  | c :: _ => c

/-- The `for` loop of `renderCompactInputLine` with `p` at the head of the
list; every round consumes a character, so `fuel` bounds the rounds. -/
def renderCompactInputLineLoop : Nat → List Char → Bool → String → String
  | 0, _, _, b => b
  | _ + 1, [], _, b => b
  | fuel + 1, c :: rest, lineStarted, b =>
    if c = '\n' ∨ c = Char.ofNat 0 then b
    else if lineStarted ∨ isspace c = false then
      if isspace c then
        let rest1 := consumeWhiteSpace rest
        let c1 := ' '
        if c1 ≠ '\r' ∨ peekChar rest1 ≠ '\n' then
          renderCompactInputLineLoop fuel rest1 true (b.push c1)
        else renderCompactInputLineLoop fuel rest1 true b
      else
        if c ≠ '\r' ∨ peekChar rest ≠ '\n' then
          renderCompactInputLineLoop fuel rest true (b.push c)
        else renderCompactInputLineLoop fuel rest true b
    else renderCompactInputLineLoop fuel rest lineStarted b

/-- The function `renderCompactInputLine`. -/
def renderCompactInputLine (b : String) (line : String) : String :=
  renderCompactInputLineLoop line.length line.data false b

/-- The function `renderFieldKindName`. -/
def renderFieldKindName (env : Env) (tag : tagEntryInfo) (_value : Option String)
    (b : String) : Except Failure (Option String) :=
  renderAsIs b (env.getTagKindName tag)

/-- The function `renderFieldCompactInputLine`. -/
def renderFieldCompactInputLine (env : Env) (tag : tagEntryInfo) (_value : Option String)
    (b : String) : Except Failure (Option String) :=
  if tag.isPseudoTag then
    match tag.pattern with
    | some pat => .ok (some pat)
    | none => .error .assertion
  else
    match env.readLineFromBypassForTag tag with
    | some line => .ok (some (renderCompactInputLine b line))
    | none => .ok (some "")

/-- The value of an integer as a `long` of 64 bits in two's complement. -/
def toLong (x : Int) : Int := (x + 2 ^ 63) % 2 ^ 64 - 2 ^ 63

/-- The function `renderFieldLineNumber`.  The line number is converted to
`long` and printed with `%ld`; the sum with the line difference is taken as a
`long` again (it wraps where C leaves the overflow undefined). -/
def renderFieldLineNumber (env : Env) (tag : tagEntryInfo) (_value : Option String)
    (b : String) : Except Failure (Option String) :=
  let ln : Int := toLong tag.lineNumber
  let ln1 :=
    if env.lineDirectives ∧ tag.sourceLineNumberDifference ≠ 0 then
      toLong (ln + tag.sourceLineNumberDifference)
    else ln
  .ok (some (b ++ toString ln1))

/-- The function `renderRoleByIndex`, on the pair of the buffer and the number of
roles written. -/
def renderRoleByIndex (env : Env) (tag : tagEntryInfo) (roleIndex : Nat)
    (data : String × Nat) : String × Nat :=
  if env.isLanguageRoleEnabled tag.langType tag.kindIndex roleIndex = false then data
  else
    let b1 := if 0 < data.2 then data.1.push ',' else data.1
    (b1 ++ env.roleName tag roleIndex, data.2 + 1)

/-- The loop of `foreachRoleBits` over the role indices in `indices`. -/
def foreachRoleBitsLoop (env : Env) (tag : tagEntryInfo) (rbits : Nat) :
    List Nat → String × Nat → String × Nat
  | [], data => data
  | roleIndex :: rest, data =>
    if (rbits >>> roleIndex) % 2 = 1 then
      foreachRoleBitsLoop env tag rbits rest (renderRoleByIndex env tag roleIndex data)
    else foreachRoleBitsLoop env tag rbits rest data

/-- The function `renderFieldRoles`. -/
def renderFieldRoles (env : Env) (tag : tagEntryInfo) (_value : Option String) (b : String) :
    Except Failure (Option String) :=
  let rbits := tag.extensionFields.roleBits
  if rbits = 0 then .ok (some (b ++ ROLE_DEFINITION_NAME))
  else
    let roleCount := env.countLanguageRoles tag.langType tag.kindIndex
    .ok (some (foreachRoleBitsLoop env tag rbits (List.range roleCount) (b, 0)).1)

/-- The function `renderFieldLanguage`. -/
def renderFieldLanguage (env : Env) (tag : tagEntryInfo) (_value : Option String)
    (b : String) : Except Failure (Option String) :=
  if env.lineDirectives ∧ tag.sourceLangType ≠ LANG_IGNORE then
    renderAsIs b (some (WITH_DEFUALT_VALUE (env.getLanguageName tag.sourceLangType)))
  else if tag.langType ≠ LANG_IGNORE then
    renderAsIs b (some (WITH_DEFUALT_VALUE (env.getLanguageName tag.langType)))
  else .error .assertion

/-- The function `renderFieldAccess`. -/
def renderFieldAccess (tag : tagEntryInfo) (_value : Option String) (b : String) :
    Except Failure (Option String) :=
  renderAsIs b (some (WITH_DEFUALT_VALUE tag.extensionFields.access))

/-- The text of the two-byte buffer `c` whose first byte is `c0`. -/
def charBuffer (c0 : Char) : String :=
  if c0 = Char.ofNat 0 then "" else String.singleton c0

/-- The function `renderFieldKindLetter`. -/
def renderFieldKindLetter (env : Env) (tag : tagEntryInfo) (_value : Option String)
    (b : String) : Except Failure (Option String) :=
  renderAsIs b (some (charBuffer (env.getTagKindLetter tag)))

/-- The function `renderFieldImplementation`. -/
def renderFieldImplementation (tag : tagEntryInfo) (_value : Option String) (b : String) :
    Except Failure (Option String) :=
  renderAsIs b (some (WITH_DEFUALT_VALUE tag.extensionFields.implementation))

/-- The function `renderFieldFile`. -/
def renderFieldFile (tag : tagEntryInfo) (_value : Option String) (b : String) :
    Except Failure (Option String) :=
  renderAsIs b (some (if tag.isFileScope then "file" else FIELD_NULL_LETTER_STRING))

/-- The function `renderFieldPattern`. -/
def renderFieldPattern (env : Env) (tag : tagEntryInfo) (_value : Option String)
    (b : String) : Except Failure (Option String) :=
  if tag.isFileEntry then .ok none
  else
    match tag.pattern with
    | some pat => .ok (some (b ++ pat))
    | none => .ok (some (b ++ env.makePatternString tag))

/-- The function `renderFieldRefMarker`. -/
def renderFieldRefMarker (tag : tagEntryInfo) (_value : Option String) (b : String) :
    Except Failure (Option String) :=
  renderAsIs b (some (charBuffer (if tag.extensionFields.roleBits ≠ 0 then 'R' else 'D')))

/-- The loop of `renderFieldExtras` over the xtag indices in `indices`, on the
pair of the buffer and `hasExtra`. -/
def renderFieldExtrasLoop (env : Env) (tag : tagEntryInfo) :
    List Nat → String × Bool → String × Bool
  | [], data => data
  | i :: rest, data =>
    match env.getXtagName i with
    | none => renderFieldExtrasLoop env tag rest data
    | some name =>
      if env.isTagExtraBitMarked tag i then
        let b1 := if data.2 then data.1.push ',' else data.1
        renderFieldExtrasLoop env tag rest (b1 ++ name, true)
      else renderFieldExtrasLoop env tag rest data

/-- The function `renderFieldExtras`. -/
def renderFieldExtras (env : Env) (tag : tagEntryInfo) (_value : Option String) (b : String) :
    Except Failure (Option String) :=
  let data := renderFieldExtrasLoop env tag (List.range env.countXtags) (b, false)
  if data.2 then .ok (some data.1) else .ok none

/-- The function `renderFieldXpath`; `env.haveLibxml` is `HAVE_LIBXML`. -/
def renderFieldXpath (env : Env) (tag : tagEntryInfo) (_value : Option String) (b : String) :
    Except Failure (Option String) :=
  if env.haveLibxml then
    match tag.extensionFields.xpath with
    | some xpath => renderEscapedString env xpath tag b
    | none => .ok none
  else .ok none

/-- The function `renderFieldScopeKindName`. -/
def renderFieldScopeKindName (env : Env) (tag : tagEntryInfo) (_value : Option String)
    (b : String) : Except Failure (Option String) :=
  match (env.getTagScopeInformation tag).1 with
  | some kind => renderAsIs b (some kind)
  | none => .ok none

/-- The function `renderFieldEnd`. -/
def renderFieldEnd (tag : tagEntryInfo) (_value : Option String) (b : String) :
    Except Failure (Option String) :=
  if tag.extensionFields.endLine ≠ 0 then
    renderAsIs b (some (toString tag.extensionFields.endLine))
  else .ok none

/-- The function `renderFieldEpoch`: `snprintf` writes at least one digit, so
its result is positive. -/
def renderFieldEpoch (tag : tagEntryInfo) (_value : Option String) (b : String) :
    Except Failure (Option String) :=
  if 0 < (toString tag.extensionFields.epoch).length then
    renderAsIs b (some (toString tag.extensionFields.epoch))
  else .ok none

/-- The function `defaultRenderer`; a NULL value cannot be read. -/
def defaultRenderer (env : Env) (tag : tagEntryInfo) (value : Option String) (b : String) :
    Except Failure (Option String) :=
  match value with
  | some v => renderEscapedString env v tag b
  | none => .error .invalidAccess

/-! ## The render dispatcher -/

/-- The call `rfn (tag, value, buffer)` through a renderer pointer. -/
def callRenderer (env : Env) (rfn : fieldRenderer) (tag : tagEntryInfo)
    (value : Option String) (b : String) : Except Failure (Option String) :=
  match rfn with
  | .renderFieldName => renderFieldName env tag value b
  | .renderFieldNameNoEscape => renderFieldNameNoEscape tag value b
  | .renderFieldInput => renderFieldInput env tag value b
  | .renderFieldInputNoEscape => renderFieldInputNoEscape env tag value b
  | .renderFieldCompactInputLine => renderFieldCompactInputLine env tag value b
  | .renderFieldSignature => renderFieldSignature env tag value b
  | .renderFieldSignatureNoEscape => renderFieldSignatureNoEscape tag value b
  | .renderFieldScope => renderFieldScope env tag value b
  | .renderFieldScopeNoEscape => renderFieldScopeNoEscape env tag value b
  | .renderFieldTyperef => renderFieldTyperef env tag value b
  | .renderFieldInherits => renderFieldInherits env tag value b
  | .renderFieldKindName => renderFieldKindName env tag value b
  | .renderFieldLineNumber => renderFieldLineNumber env tag value b
  | .renderFieldLanguage => renderFieldLanguage env tag value b
  | .renderFieldAccess => renderFieldAccess tag value b
  | .renderFieldKindLetter => renderFieldKindLetter env tag value b
  | .renderFieldImplementation => renderFieldImplementation tag value b
  | .renderFieldFile => renderFieldFile tag value b
  | .renderFieldPattern => renderFieldPattern env tag value b
  | .renderFieldRoles => renderFieldRoles env tag value b
  | .renderFieldRefMarker => renderFieldRefMarker tag value b
  | .renderFieldExtras => renderFieldExtras env tag value b
  | .renderFieldXpath => renderFieldXpath env tag value b
  | .renderFieldScopeKindName => renderFieldScopeKindName env tag value b
  | .renderFieldEnd => renderFieldEnd tag value b
  | .renderFieldEpoch => renderFieldEpoch tag value b
  | .defaultRenderer => defaultRenderer env tag value b
  | .parser n => env.parserRenderer n tag value b

/-- The call through a "contains any char" pointer. -/
def callContainsAnyChar (env : Env) (fn : containsAnyCharFn) (tag : tagEntryInfo)
    (value : Option String) (chars : String) : Except Failure Bool :=
  match fn with
  | .doesContainAnyCharInName => .ok (doesContainAnyCharInName tag value chars)
  | .doesContainAnyCharInInput => .ok (doesContainAnyCharInInput env tag value chars)
  | .doesContainAnyCharInFieldScope => .ok (doesContainAnyCharInFieldScope env tag value chars)
  | .doesContainAnyCharInSignature => .ok (doesContainAnyCharInSignature tag value chars)
  | .defaultDoesContainAnyChar => defaultDoesContainAnyChar tag value chars
  | .parser n => env.parserContainsAnyChar n tag value chars

/-- The conversion `(unsigned int) index`. -/
def toUnsigned (index : Int) : Nat := (index % 4294967296).toNat

/-- The value handed to a renderer or predicate: the raw value of the slot for a
non-negative index, NULL otherwise. -/
def parserFieldValue (tag : tagEntryInfo) (index : Int) : Except Failure (Option String) :=
  if 0 ≤ index then
    match getParserFieldForIndex tag index with
    | some f => .ok (some f.value)
    | none => .error .invalidAccess
  else .ok none

/-- The function `renderFieldCommon`; the buffer handed to the renderer is the
cleared buffer of the entry. -/
def renderFieldCommon (env : Env) (r : Registry) (type : Int) (tag : Option tagEntryInfo)
    (index : Int) (noEscaping : Bool) : Except Failure (Option String) :=
  match tag with
  | none => .error .assertion
  | some tag =>
    if index < 0 ∨ toUnsigned index < tag.usedParserFields then
      match parserFieldValue tag index with
      | .error e => .error e
      | .ok value =>
        match fieldObjectAt r type with
        | .error e => .error e
        | .ok fobj =>
          let rfn := if noEscaping then fobj.fdef.renderNoEscaping else fobj.fdef.render
          match rfn with
          | none => .error .assertion
          | some rfn => callRenderer env rfn tag value ""
    else .error .assertion

/-- The function `renderField`. -/
def renderField (env : Env) (r : Registry) (type : Int) (tag : Option tagEntryInfo)
    (index : Int) : Except Failure (Option String) :=
  renderFieldCommon env r type tag index false

/-- The function `renderFieldNoEscaping`. -/
def renderFieldNoEscaping (env : Env) (r : Registry) (type : Int) (tag : Option tagEntryInfo)
    (index : Int) : Except Failure (Option String) :=
  renderFieldCommon env r type tag index true

/-- The function `doesFieldHaveTabOrNewlineChar`.  The entry is read first (in
the initialiser of `doesContainAnyChar`); `fn` is `none` where the function
returns false without calling a predicate. -/
def doesFieldHaveTabOrNewlineChar (env : Env) (r : Registry) (type : Int)
    (tag : Option tagEntryInfo) (index : Int) : Except Failure Bool :=
  match fieldObjectAt r type with
  | .error e => .error e
  | .ok fobj =>
    match tag with
    | none => .error .assertion
    | some tag =>
      if index = NO_PARSER_FIELD ∨ toUnsigned index < tag.usedParserFields then
        let fn : Option containsAnyCharFn :=
          match fobj.fdef.doesContainAnyChar with
          | none => if index = NO_PARSER_FIELD then none else some .defaultDoesContainAnyChar
          | some fn => some fn
        match fn with
        | none => .ok false
        | some fn =>
          match parserFieldValue tag index with
          | .error e => .error e
          | .ok value => callContainsAnyChar env fn tag value "\t\n"
      else .error .assertion

/-! ## Availability and id-keyed accessors -/

/-- Modelled from the spec: the kind index of the file kind (kind.h, absent). -/
def KIND_FILE_INDEX : Int := -2

/-- The function `isTyperefFieldAvailable`. -/
def isTyperefFieldAvailable (tag : tagEntryInfo) : Bool :=
  tag.extensionFields.typeRef0.isSome && tag.extensionFields.typeRef1.isSome

/-- The function `isFileFieldAvailable`. -/
def isFileFieldAvailable (tag : tagEntryInfo) : Bool := tag.isFileScope

/-- The function `isInheritsFieldAvailable`. -/
def isInheritsFieldAvailable (tag : tagEntryInfo) : Bool :=
  tag.extensionFields.inheritance.isSome

/-- The function `isAccessFieldAvailable`. -/
def isAccessFieldAvailable (tag : tagEntryInfo) : Bool := tag.extensionFields.access.isSome

/-- The function `isImplementationFieldAvailable`. -/
def isImplementationFieldAvailable (tag : tagEntryInfo) : Bool :=
  tag.extensionFields.implementation.isSome

/-- The function `isSignatureFieldAvailable`. -/
def isSignatureFieldAvailable (tag : tagEntryInfo) : Bool :=
  tag.extensionFields.signature.isSome

/-- The function `isExtrasFieldAvailable`: the dynamic extras are present, or a
byte of the member `extra` is not zero. -/
def isExtrasFieldAvailable (tag : tagEntryInfo) : Bool :=
  if tag.extraDynamic then true else tag.extra.any (fun byte => byte != 0)

/-- The function `isXpathFieldAvailable`; `env.haveLibxml` is `HAVE_LIBXML`. -/
def isXpathFieldAvailable (env : Env) (tag : tagEntryInfo) : Bool :=
  if env.haveLibxml then tag.extensionFields.xpath.isSome else false

/-- The function `isEndFieldAvailable`. -/
def isEndFieldAvailable (tag : tagEntryInfo) : Bool := tag.extensionFields.endLine != 0

/-- The function `isEpochAvailable`. -/
def isEpochAvailable (tag : tagEntryInfo) : Bool := tag.kindIndex == KIND_FILE_INDEX

/-- The call through an availability pointer. -/
def callValueAvailable (env : Env) (fn : valueAvailableFn) (tag : tagEntryInfo) : Bool :=
  match fn with
  | .isTyperefFieldAvailable => isTyperefFieldAvailable tag
  | .isFileFieldAvailable => isFileFieldAvailable tag
  | .isInheritsFieldAvailable => isInheritsFieldAvailable tag
  | .isAccessFieldAvailable => isAccessFieldAvailable tag
  | .isImplementationFieldAvailable => isImplementationFieldAvailable tag
  | .isSignatureFieldAvailable => isSignatureFieldAvailable tag
  | .isExtrasFieldAvailable => isExtrasFieldAvailable tag
  | .isXpathFieldAvailable => isXpathFieldAvailable env tag
  | .isEndFieldAvailable => isEndFieldAvailable tag
  | .isEpochAvailable => isEpochAvailable tag
  | .parser n => env.parserValueAvailable n tag

/-- The function `doesFieldHaveValue`; a predicate reads the tag, so a NULL tag
cannot be handed to one. -/
def doesFieldHaveValue (env : Env) (r : Registry) (type : Int) (tag : Option tagEntryInfo) :
    Except Failure Bool :=
  match getFieldObject r type with
  | .error e => .error e
  | .ok fobj =>
    match fobj.fdef.isValueAvailable with
    | some fn =>
      match tag with
      | some tag => .ok (callValueAvailable env fn tag)
      | none => .error .invalidAccess
    | none => .ok true

/-- The function `getFieldLetter`. -/
def getFieldLetter (r : Registry) (type : Int) : Except Failure Char :=
  match getFieldObject r type with
  | .error e => .error e
  | .ok fobj =>
    .ok (if fobj.fdef.letter = Char.ofNat 0 then FIELD_NULL_LETTER_CHAR else fobj.fdef.letter)

/-- The function `doesFieldHaveRenderer`. -/
def doesFieldHaveRenderer (r : Registry) (type : Int) (noEscaping : Bool) :
    Except Failure Bool :=
  match getFieldObject r type with
  | .error e => .error e
  | .ok fobj =>
    if noEscaping then .ok fobj.fdef.renderNoEscaping.isSome
    else .ok fobj.fdef.render.isSome

/-- Modelled from the spec: the id of the last built-in field, `FIELD_EPOCH`
(field.h, absent). -/
def FIELD_BUILTIN_LAST : Int := 23

/-- The function `getFieldDescription`. -/
def getFieldDescription (r : Registry) (type : Int) : Except Failure String :=
  match getFieldObject r type with
  | .error e => .error e
  | .ok fobj => .ok fobj.fdef.description

/-- The function `getFieldName`; `env.putFieldPrefix` is `Option.putFieldPrefix`. -/
def getFieldName (env : Env) (r : Registry) (type : Int) : Except Failure (Option String) :=
  match getFieldObject r type with
  | .error e => .error e
  | .ok fobj => if env.putFieldPrefix then .ok fobj.nameWithPrefix else .ok fobj.fdef.name

/-- The function `isFieldEnabled`. -/
def isFieldEnabled (r : Registry) (type : Int) : Except Failure Bool :=
  match getFieldObject r type with
  | .error e => .error e
  | .ok fobj => .ok fobj.fdef.enabled

/-- The function `isCommonField`. -/
def isCommonField (type : Int) : Bool := if FIELD_BUILTIN_LAST < type then false else true

/-- The function `getFieldOwner`. -/
def getFieldOwner (r : Registry) (type : Int) : Except Failure Int :=
  match getFieldObject r type with
  | .error e => .error e
  | .ok fobj => .ok fobj.language

/-- The function `getFieldDataType`. -/
def getFieldDataType (r : Registry) (type : Int) : Except Failure Nat :=
  match getFieldObject r type with
  | .error e => .error e
  | .ok fobj => .ok fobj.fdef.dataType

/-- The function `enableField`: the old flag and the registry after the write
of `enabled` to the definition object of the entry.  The two `verbose` calls
write to the log only, which is not part of the model. -/
def enableField (r : Registry) (type : Int) (state : Bool) : Except Failure (Bool × Registry) :=
  match getFieldObject r type with
  | .error e => .error e
  | .ok fobj =>
    let old := fobj.fdef.enabled
    let objs1 := writeDefinition fobj.defAddr { fobj.fdef with enabled := state } r.objs
    .ok (old, { r with fieldObjects := some objs1 })

/-- A registration request: the definition passed and the owning language. -/
abbrev Request := fieldDefinition × Int

/-- A sequence of `defineField` calls, each of which has to succeed; the result
is the list of returned ids and the final registry. -/
def defineFields : Registry → List Request → Except Failure (List Int × Registry)
  | r, [] => .ok ([], r)
  | r, (d, language) :: rest =>
    match defineField r (some d) language with
    | .error e => .error e
    | .ok (id, r1) =>
      match defineFields r1 rest with
      | .error e => .error e
      | .ok (ids, r2) => .ok (id :: ids, r2)

/-- The registry states reached by `initFieldObjects` at program start followed
by successful `defineField` calls. -/
inductive Reachable : Registry → Prop where
  | init {r : Registry} : initFieldObjects Registry.start = .ok r → Reachable r
  | define {r r1 : Registry} {d : fieldDefinition} {language id : Int} :
      Reachable r → defineField r (some d) language = .ok (id, r1) → Reachable r1

/-! ## Auxiliary notions for the proofs -/

/-- The entry at index `k` is the last one below `i` that carries `name`. -/
def LastNamed (objs : List fieldObject) (name : String) (i k : Nat) (f : fieldObject) : Prop :=
  k < i ∧ f.fdef.name = some name ∧
    ∀ m g, k < m → m < i → objs[m]? = some g → g.fdef.name ≠ some name

/-- The common shape of the two lookup loops: the index of the first entry
satisfying `p`, counted from `i`. -/
def findFrom (p : fieldObject → Bool) : List fieldObject → Nat → Int
  | [], _ => FIELD_UNKNOWN
  | f :: rest, i => if p f then (i : Int) else findFrom p rest (i + 1)

/-- The test of the loop of `getFieldTypeForNameAndLanguage`. -/
def nameMatches (fieldName : String) (language : Int) (f : fieldObject) : Bool :=
  decide (f.fdef.name = some fieldName ∧ (language = LANG_AUTO ∨ f.language = language))

/-- The index of the next entry after `k` that carries the name of `f`. -/
def nextNamed (objs : List fieldObject) (k : Nat) (f : fieldObject) : Int :=
  match f.fdef.name with
  | none => FIELD_UNKNOWN
  | some n => findFrom (nameMatches n LANG_AUTO) (objs.drop (k + 1)) (k + 1)

/-- The entries `initFieldObjects` creates. -/
def builtinObjects : List fieldObject :=
  initLoop (initObjectBare .fixed) 0 0 fieldDefinitionsFixed
    ++ initLoop (initObjectBare .exuberant) 3 0 fieldDefinitionsExuberant
    ++ initLoop (initObjectPrefixed .universal) 16 0 fieldDefinitionsUniversal

/-- The entry `f` with another sibling link and another id recorded in its
definition object. -/
abbrev relinked (f : fieldObject) (s : Int) (t : Nat) : fieldObject :=
  { f with fdef := { f.fdef with ftype := t }, sibling := s }

/-- The address is one of an element of the static tables. -/
def isTableAddress : defAddress → Bool
  | .parser _ => false
  | _ => true

/-- The invariant of the registry states reached from program start: the
built-in entries are in place (up to their sibling links), every later entry
holds the address of an object of a parser and shows it as `defineField` leaves
it, the last entry that holds an address records its own index as id, and every
sibling link is the index of the next entry of the same name. -/
structure Inv (r : Registry) : Prop where
  objs_some : r.fieldObjects = some r.objs
  flag : r.initialized = false
  builtin : ∀ (k : Nat) (f : fieldObject), builtinObjects[k]? = some f →
    ∃ s, r.objs[k]? = some { f with sibling := s }
  dynamic : ∀ (k : Nat) (f : fieldObject), 24 ≤ k → r.objs[k]? = some f →
    f.fdef.letter = NUL_FIELD_LETTER ∧ f.fdef.render ≠ none ∧
      ∃ n, f.fdef.name = some n ∧ n.data.all isalpha = true
  origin : ∀ (k : Nat) (f : fieldObject), 24 ≤ k → r.objs[k]? = some f →
    ∃ (d : fieldDefinition) (t : Nat),
      f.defAddr = .parser d ∧ f.fdef = defineFieldDefinition d t
  shared : ∀ (j k : Nat) (f g : fieldObject), r.objs[j]? = some f → r.objs[k]? = some g →
    f.defAddr = g.defAddr → f.fdef = g.fdef
  ftype : ∀ (k : Nat) (f : fieldObject), r.objs[k]? = some f →
    (∀ (m : Nat) (g : fieldObject), k < m → r.objs[m]? = some g → g.defAddr ≠ f.defAddr) →
    f.fdef.ftype = k
  sibling : ∀ (k : Nat) (f : fieldObject), r.objs[k]? = some f →
    f.sibling = nextNamed r.objs k f

/-- What a successful `defineField` does to the registry `r`, giving `r1`. -/
structure DefineStep (r : Registry) (d : fieldDefinition) (language : Int) (name : String)
    (r1 : Registry) : Prop where
  objs_some : r1.fieldObjects = some r1.objs
  flag : r1.initialized = r.initialized
  length : r1.objs.length = r.objs.length + 1
  last : r1.objs[r.objs.length]? = some (defineFieldObject d name r.objs.length language)
  old : ∀ (k : Nat) (f : fieldObject), r.objs[k]? = some f →
    ∃ s t, r1.objs[k]? = some (relinked f s t) ∧
      (LastNamed r.objs name r.objs.length k f → s = (r.objs.length : Int)) ∧
      (¬ LastNamed r.objs name r.objs.length k f → s = f.sibling) ∧
      (f.defAddr = .parser d → t = r.objs.length) ∧
      (f.defAddr ≠ .parser d → t = f.fdef.ftype)

/-- The registry `initFieldObjects` produces at program start. -/
def builtinRegistry : Registry :=
  { fieldObjects := some builtinObjects, fieldObjectAllocated := 24, initialized := false }

/-- The result of a run that succeeded (the second argument otherwise). -/
def okOr {α : Type} (x : Except Failure α) (fallback : α) : α :=
  match x with
  | .ok a => a
  | .error _ => fallback

/-- A definition as a parser hands it to `defineField`: a name and a
description, everything else left to `defineField`. -/
def parserDef (name : String) (description : String) : fieldDefinition :=
  { letter := 'x', name := some name, description := description, enabled := false,
    render := none, renderNoEscaping := none, doesContainAnyChar := none,
    isValueAvailable := none, dataType := 0, ftype := 0, addr := 0 }

/-- Three registrations of the name "note" by the languages 3, 5 and 7. -/
def noteRequests : List Request :=
  [(parserDef "note" "a note", 3), (parserDef "note" "a remark", 5),
   (parserDef "note" "an annotation", 7)]

/-- The ids returned and the registry reached by `noteRequests` after
`initFieldObjects`. -/
def noteRun : List Int × Registry :=
  okOr (defineFields builtinRegistry noteRequests) ([], Registry.start)

/-- The test of the reference lookup, in the words of the spec: the entry with
id `i` has the name and, unless the language argument is the all-languages
value, its owning language equals the argument. -/
def lookupByNameMatches (objs : List fieldObject) (name : String) (language : Int)
    (i : Nat) : Bool :=
  match objs[i]? with
  | some f => f.fdef.name == some name && (language == LANG_AUTO || f.language == language)
  | none => false

/-- The reference definition of the lookup by name, in the words of the spec:
the lowest id whose field passes the test; `FIELD_UNKNOWN` when the name is
absent or no such field exists. -/
def lookupByName (objs : List fieldObject) (name : Option String) (language : Int) : Int :=
  match name with
  | none => FIELD_UNKNOWN
  | some n =>
    match (List.range objs.length).find? (lookupByNameMatches objs n language) with
    | some i => (i : Int)
    | none => FIELD_UNKNOWN

/-- Every entry of `r` is still in `r1` at its index, up to its sibling link
and the id recorded in its definition object. -/
def Extends (r r1 : Registry) : Prop :=
  ∀ (k : Nat) (f : fieldObject), r.objs[k]? = some f →
    ∃ s t, r1.objs[k]? = some (relinked f s t)

/-- A parser definition that reuses the name of the built-in field "name". -/
def shadowDef : fieldDefinition := parserDef "name" "name as a parser sees it"

/-- The id returned and the registry reached when `shadowDef` is registered
with `LANG_AUTO` as owning language right after `initFieldObjects`. -/
def shadowRun : Int × Registry :=
  okOr (defineField builtinRegistry (some shadowDef) LANG_AUTO) (FIELD_UNKNOWN, Registry.start)

/-- The ids returned and the registry reached when "note" is registered for the
language 3, "kind" for the language 5 and "note" for the language 7, right after
`initFieldObjects`. -/
def mixedRun : List Int × Registry :=
  okOr (defineFields builtinRegistry
    [(parserDef "note" "a note", 3), (parserDef "kind" "a kind", 5),
     (parserDef "note" "an annotation", 7)])
    ([], Registry.start)

/-- The indices, counted from `i`, of the entries that carry the name `n`. -/
def namedFrom (n : String) : List fieldObject → Nat → List Int
  | [], _ => []
  | f :: rest, i =>
    if f.fdef.name = some n then (i : Int) :: namedFrom n rest (i + 1)
    else namedFrom n rest (i + 1)

/-- Modelled from the spec: an escaping as the spec describes it, every byte
below 0x20 and the delete byte replaced by a printable escape sequence, here a
backslash, `x` and the two hexadecimal digits; used for sample evaluations. -/
def escapeSample (s : String) : String :=
  String.join (s.data.map fun c =>
    if c.toNat < 32 ∨ c.toNat = 127 then
      "\\x" ++ String.singleton (Nat.digitChar (c.toNat / 16))
        ++ String.singleton (Nat.digitChar (c.toNat % 16))
    else String.singleton c)

/-- A sample of the collaborators: no line directives, the sample escaping, a
scope taken from nowhere, and parsers that contribute nothing. -/
def sampleEnv : Env :=
  { lineDirectives := false, putFieldPrefix := false, haveLibxml := false,
    escape := escapeSample,
    getTagScopeInformation := fun _ => (none, none),
    getTagKindName := fun _ => some "function",
    getTagKindLetter := fun _ => 'f',
    getLanguageName := fun _ => some "C",
    readLineFromBypassForTag := fun _ => none,
    makePatternString := fun _ => "/^$/",
    countLanguageRoles := fun _ _ => 0,
    isLanguageRoleEnabled := fun _ _ _ => false,
    roleName := fun _ _ => "",
    countXtags := 0,
    getXtagName := fun _ => none,
    isTagExtraBitMarked := fun _ _ => false,
    parserRenderer := fun _ _ _ _ => .ok none,
    parserContainsAnyChar := fun _ _ _ _ => .ok false,
    parserValueAvailable := fun _ _ => true }

/-- A tag with the given name and pseudo-tag flag, one extra-field slot and no
extension attributes. -/
def sampleTag (name : String) (isPseudoTag : Bool) (slot : String) : tagEntryInfo :=
  { name := name, inputFileName := "main.c", sourceFileName := none, lineNumber := 1,
    sourceLineNumberDifference := 0, langType := 0, sourceLangType := LANG_IGNORE,
    kindIndex := 0, isFileScope := false, isPseudoTag := isPseudoTag, isFileEntry := false,
    pattern := none,
    extensionFields :=
      { access := none, implementation := none, inheritance := none, signature := none,
        typeRef0 := none, typeRef1 := none, endLine := 0, epoch := 0, roleBits := 0,
        xpath := none },
    extra := [], extraDynamic := false,
    parserFields := [{ ftype := 24, value := slot }] }

/-- The text contains a tab or a newline. -/
def hasTabOrNewline (s : String) : Prop := ∃ c ∈ s.data, c = '\t' ∨ c = '\n'

/-- The entry of the built-in field pattern (id 2) after `initFieldObjects`. -/
def patternObject : fieldObject :=
  initObjectBare .fixed 0 2
    (mkDef 'P' (some "pattern") "pattern" true
      .renderFieldPattern none none none (FIELDTYPE_STRING ||| FIELDTYPE_BOOL))

/-- The ids returned and the registry reached when a definition with the empty
name is registered for the language 3 right after `initFieldObjects`. -/
def emptyNameRun : List Int × Registry :=
  okOr (defineFields builtinRegistry [(parserDef "" "a field without name text", 3)])
    ([], Registry.start)

/-- The ids returned and the registry reached when "note" is registered twice
for the language 3 right after `initFieldObjects`. -/
def twiceRun : List Int × Registry :=
  okOr (defineFields builtinRegistry
    [(parserDef "note" "a note", 3), (parserDef "note" "a note again", 3)])
    ([], Registry.start)

/-- No two entries with a name share both the name and the owning language. -/
def UniquePairs (objs : List fieldObject) : Prop :=
  ∀ (j k : Nat) (f g : fieldObject), objs[j]? = some f → objs[k]? = some g →
    f.fdef.name ≠ none → f.fdef.name = g.fdef.name → f.language = g.language → j = k

/-- The characters of a line up to, but not including, the first newline; the
line ends at its terminating NUL. -/
def upToNewline (line : List Char) : List Char :=
  line.takeWhile fun c => c ≠ '\n' && c ≠ Char.ofNat 0

/-- Every maximal run of whitespace replaced by a single space, all other
characters kept in order: a whitespace character that is followed by another
one is left out, and the last one of a run is written as a space. -/
def collapseRuns : List Char → List Char
  | [] => []
  | [c] => if isspace c then [' '] else [c]
  | c :: d :: rest =>
    if isspace c then
      if isspace d then collapseRuns (d :: rest) else ' ' :: collapseRuns (d :: rest)
    else c :: collapseRuns (d :: rest)

/-- The compact form of a line in the words of the specification: the line up
to the first newline, its leading whitespace removed, and every run of
whitespace that remains replaced by a single space. -/
def compactLine (line : List Char) : List Char :=
  collapseRuns ((upToNewline line).dropWhile isspace)

/-- Modelled from the spec: the text that stands for "none" in a listing (the
macro `RSV_NONE` of a header that is absent); the comparison of rows uses it
only as one fixed text. -/
def RSV_NONE : String := "NONE"

/-- The function `strcmp` of the C library on lists of characters (bytes
compared as unsigned values).  The standard fixes only the sign of the result;
the model returns -1, 0 or 1. -/
def strcmpList : List Char → List Char → Int
  | [], [] => 0
  | [], _ :: _ => -1
  | _ :: _, [] => 1
  | c :: cs, d :: ds =>
    if c = d then strcmpList cs ds
    else if c.toNat < d.toNat then -1 else 1

/-- The function `strcmp` of the C library. -/
def strcmp (s1 s2 : String) : Int := strcmpList s1.data s2.data

/-- Modelled from the spec: a row of the listing table (colprint.c, absent), one
text per column in the order `FIELD_COL_LETTER`, ..., `FIELD_COL_DESCRIPTION`;
`colprintLineGetColumn (line, FIELD_COL_X)` is the projection to the column. -/
structure colprintLine where
  letter : String
  name : String
  enabled : String
  language : String
  jstype : String
  fixed : String
  description : String
  deriving DecidableEq, Repr

/-- The value `~0U` of an `unsigned int`. -/
def NO_INDEX : Nat := 2 ^ 32 - 1

/-- The `for` loop of `fieldColprintCompareLines` over the fixed table, from the
table index `i` on; a NULL name in the table cannot be compared. -/
def fieldColprintCompareLinesLoop (a_name b_name : String) :
    List fieldDefinition → Nat → Nat → Nat → Except Failure (Nat × Nat)
  | [], _, a_index, b_index => .ok (a_index, b_index)
  | d :: rest, i, a_index, b_index =>
    match d.name with
    | none => .error .invalidAccess
    | some ref_name =>
      let a_index1 := if strcmp a_name ref_name = 0 then i else a_index
      let b_index1 := if strcmp b_name ref_name = 0 then i else b_index
      if a_index1 ≠ NO_INDEX ∨ b_index1 ≠ NO_INDEX then .ok (a_index1, b_index1)
      else fieldColprintCompareLinesLoop a_name b_name rest (i + 1) a_index1 b_index1

/-- The function `fieldColprintCompareLines`. -/
def fieldColprintCompareLines (a b : colprintLine) : Except Failure Int :=
  let a_fixed := a.fixed
  let b_fixed := b.fixed
  let a_language := a.language
  let b_language := b.language
  if strcmp a_fixed "yes" = 0 ∧ strcmp b_fixed "yes" = 0 then
    match fieldColprintCompareLinesLoop a.name b.name fieldDefinitionsFixed 0 NO_INDEX NO_INDEX with
    | .error e => .error e
    | .ok (a_index, b_index) =>
      if a_index < b_index then .ok (-1)
      else if a_index = b_index then .ok 0
      else .ok 1
  else if strcmp a_fixed "yes" = 0 ∧ strcmp b_fixed "yes" ≠ 0 then .ok (-1)
  else if strcmp a_fixed "yes" ≠ 0 ∧ strcmp b_fixed "yes" = 0 then .ok 1
  else if strcmp a_language RSV_NONE = 0 ∧ strcmp b_language RSV_NONE ≠ 0 then .ok (-1)
  else if strcmp a_language RSV_NONE ≠ 0 ∧ strcmp b_language RSV_NONE = 0 then .ok 1
  else if strcmp a_language RSV_NONE ≠ 0 ∧ strcmp b_language RSV_NONE ≠ 0 then
    let r := strcmp a_language b_language
    if r ≠ 0 then .ok r
    else .ok (strcmp a.name b.name)
  else .ok (strcmp a.letter b.letter)

/-- The position of a name in the fixed table (the length of the table for a
name that is not in it). -/
def fixedPosition (name : String) : Nat :=
  (fieldDefinitionsFixed.map fun d => d.name).indexOf (some name)

/-- The listing order in the words of the specification: row `a` comes before
row `b`.  A row flagged fixed precedes one that is not; two fixed rows go by the
position of their name in the fixed table; of two rows that are not fixed, one
without owning language precedes one that has a language, two rows with a
language go by language name and then by field name, and two rows without
language go by letter.  Texts are ordered as `String`s are. -/
def rowPrecedes (a b : colprintLine) : Prop :=
  if a.fixed = "yes" ∧ b.fixed = "yes" then fixedPosition a.name < fixedPosition b.name
  else if a.fixed = "yes" then True
  else if b.fixed = "yes" then False
  else if a.language = RSV_NONE ∧ b.language ≠ RSV_NONE then True
  else if a.language ≠ RSV_NONE ∧ b.language = RSV_NONE then False
  else if a.language ≠ RSV_NONE ∧ b.language ≠ RSV_NONE then
    a.language < b.language ∨ (a.language = b.language ∧ a.name < b.name)
  else a.letter < b.letter

instance (a b : colprintLine) : Decidable (rowPrecedes a b) := by
  unfold rowPrecedes
  infer_instance

/-- A sample row of the listing: a field that is not fixed. -/
def sampleRow (letter name language : String) : colprintLine :=
  { letter := letter, name := name, enabled := "yes", language := language,
    jstype := "s--", fixed := "no", description := "" }

/-- A sample row of the listing: a fixed field. -/
def fixedRow (letter name : String) : colprintLine :=
  { letter := letter, name := name, enabled := "yes", language := RSV_NONE,
    jstype := "s--", fixed := "yes", description := "" }

/-- A sequence of `enableField` calls, each given as the id and the state. -/
def enableFields (r : Registry) : List (Int × Bool) → Except Failure Registry
  | [] => .ok r
  | (type, state) :: rest =>
    match enableField r type state with
    | .error e => .error e
    | .ok (_, r1) => enableFields r1 rest

/-- The entry with its enabled flag cleared: what an entry is apart from its
enablement. -/
def withoutEnablement (f : fieldObject) : fieldObject :=
  { f with fdef := { f.fdef with enabled := false } }

/-- The entries agree on the objects they share: two entries that hold the same
address show the same definition.  `initFieldObjects`, `defineField` and
`enableField` keep the entries so. -/
def Coherent (objs : List fieldObject) : Prop :=
  ∀ f ∈ objs, ∀ g ∈ objs, f.defAddr = g.defAddr → f.fdef = g.fdef

/-- The entry after the enabled flag is written through the address `a`. -/
def withEnabled (a : defAddress) (state : Bool) (f : fieldObject) : fieldObject :=
  if f.defAddr = a then { f with fdef := { f.fdef with enabled := state } } else f

/-- One definition object of a parser handed to `defineField` twice, for the
languages 3 and 5. -/
def sharedRequests : List Request :=
  [(parserDef "note" "a note", 3), (parserDef "note" "a note", 5)]

/-- The ids returned and the registry reached by `sharedRequests` after
`initFieldObjects`. -/
def sharedRun : List Int × Registry :=
  okOr (defineFields builtinRegistry sharedRequests) ([], Registry.start)

/-! ## Theorems -/

theorem initFieldObjects_start : initFieldObjects Registry.start = .ok builtinRegistry := rfl

theorem builtinObjects_length : builtinObjects.length = 24 := rfl

theorem builtinObjects_ftype :
    ∀ k (h : k < builtinObjects.length), (builtinObjects[k]).fdef.ftype = k := by
  decide

theorem builtinObjects_sibling :
    ∀ k (h : k < builtinObjects.length),
      (builtinObjects[k]).sibling = nextNamed builtinObjects k builtinObjects[k] := by
  decide

theorem updateSiblingFieldLoop_spec (type : Nat) (name : String) :
    ∀ (i : Nat) (objs : List fieldObject), i ≤ objs.length →
      (∀ k f, objs[k]? = some f → LastNamed objs name i k f → f.sibling = FIELD_UNKNOWN) →
      ∃ objs1, updateSiblingFieldLoop type name i objs = .ok objs1 ∧
        objs1.length = objs.length ∧
        ∀ k f, objs[k]? = some f →
          ∃ s, objs1[k]? = some { f with sibling := s } ∧
            (LastNamed objs name i k f → s = (type : Int)) ∧
            (¬ LastNamed objs name i k f → s = f.sibling) := by
  intro i
  induction i with
  | zero =>
    intro objs _ _
    refine ⟨objs, rfl, rfl, ?_⟩
    intro k f hk
    refine ⟨f.sibling, hk, ?_, fun _ => rfl⟩
    intro h
    exact absurd h.1 (Nat.not_lt_zero k)
  | succ i ih =>
    intro objs hlen hsib
    have hi : i < objs.length := hlen
    have hget : objs[i]? = some objs[i] := List.getElem?_eq_getElem hi
    by_cases hname : objs[i].fdef.name = some name
    · have hlast : LastNamed objs name (i + 1) i objs[i] :=
        ⟨Nat.lt_succ_self i, hname, fun m g h1 h2 _ => absurd h2 (by omega)⟩
      have hunk := hsib i objs[i] hget hlast
      refine ⟨objs.set i { objs[i] with sibling := (type : Int) }, ?_, by simp, ?_⟩
      · simp [updateSiblingFieldLoop, hget, hname, hunk]
      · intro k f hk
        by_cases hki : k = i
        · subst hki
          have hf : f = objs[k] := by
            rw [hget] at hk
            exact (Option.some.inj hk).symm
          subst hf
          refine ⟨(type : Int), by simp [hi], fun _ => rfl, fun h => absurd hlast h⟩
        · refine ⟨f.sibling, ?_, ?_, fun _ => rfl⟩
          · rw [List.getElem?_set_ne (Ne.symm hki)]
            exact hk
          · intro h
            exfalso
            have hk1 : k < i := by
              have := h.1
              omega
            exact h.2.2 i objs[i] hk1 (Nat.lt_succ_self i) hget hname
    · have hstep : ∀ k f, objs[k]? = some f →
          (LastNamed objs name (i + 1) k f ↔ LastNamed objs name i k f) := by
        intro k f hk
        constructor
        · intro h
          have hki : k ≠ i := by
            intro hki
            subst hki
            rw [hget] at hk
            have hf := Option.some.inj hk
            subst hf
            exact hname h.2.1
          refine ⟨by have := h.1; omega, h.2.1, fun m g h1 h2 hg => h.2.2 m g h1 (by omega) hg⟩
        · intro h
          refine ⟨by have := h.1; omega, h.2.1, ?_⟩
          intro m g h1 h2 hg
          by_cases hmi : m = i
          · subst hmi
            rw [hget] at hg
            have hf := Option.some.inj hg
            subst hf
            exact hname
          · exact h.2.2 m g h1 (by omega) hg
      obtain ⟨objs1, hrun, hl, hall⟩ := ih objs (Nat.le_of_lt hi)
        (fun k f hk h => hsib k f hk ((hstep k f hk).2 h))
      refine ⟨objs1, ?_, hl, ?_⟩
      · simp [updateSiblingFieldLoop, hget, hname, hrun]
      · intro k f hk
        obtain ⟨s, h1, h2, h3⟩ := hall k f hk
        exact ⟨s, h1, fun h => h2 ((hstep k f hk).1 h), fun h => h3 (fun h4 => h ((hstep k f hk).2 h4))⟩

/-! ### The lookup loops -/

theorem getFieldTypeForOptionLoop_eq (letter : Char) :
    ∀ (l : List fieldObject) (i : Nat),
      getFieldTypeForOptionLoop letter l i
        = findFrom (fun f => decide (f.fdef.letter = letter)) l i := by
  intro l
  induction l with
  | nil => intro i; rfl
  | cons f rest ih =>
    intro i
    simp only [getFieldTypeForOptionLoop, findFrom, ih, decide_eq_true_eq]

theorem getFieldTypeForNameAndLanguageLoop_eq (fieldName : String) (language : Int) :
    ∀ (l : List fieldObject) (i : Nat),
      getFieldTypeForNameAndLanguageLoop fieldName language l i
        = findFrom (nameMatches fieldName language) l i := by
  intro l
  induction l with
  | nil => intro i; rfl
  | cons f rest ih =>
    intro i
    simp only [getFieldTypeForNameAndLanguageLoop, findFrom, ih, nameMatches, decide_eq_true_eq]

theorem findFrom_eq_unknown_iff (p : fieldObject → Bool) :
    ∀ (l : List fieldObject) (i : Nat),
      findFrom p l i = FIELD_UNKNOWN ↔ ∀ f ∈ l, p f = false := by
  intro l
  induction l with
  | nil => intro i; simp [findFrom]
  | cons f rest ih =>
    intro i
    by_cases hp : p f = true
    · simp [findFrom, hp, FIELD_UNKNOWN]
    · simp [findFrom, hp, ih]

theorem findFrom_first (p : fieldObject → Bool) :
    ∀ (l : List fieldObject) (i k : Nat) (f : fieldObject),
      l[k]? = some f → p f = true → (∀ j g, j < k → l[j]? = some g → p g = false) →
      findFrom p l i = ((i + k : Nat) : Int) := by
  intro l
  induction l with
  | nil => intro i k f h; simp at h
  | cons g rest ih =>
    intro i k f hk hp hmin
    cases k with
    | zero =>
      simp at hk
      subst hk
      simp [findFrom, hp]
    | succ k =>
      have hg : p g = false := hmin 0 g (Nat.succ_pos k) (by simp)
      simp only [List.getElem?_cons_succ] at hk
      have := ih (i + 1) k f hk hp (fun j g1 hj hg1 => hmin (j + 1) g1 (by omega) (by simpa using hg1))
      simp [findFrom, hg, this]
      omega

theorem findFrom_found (p : fieldObject → Bool) :
    ∀ (l : List fieldObject) (i : Nat), findFrom p l i ≠ FIELD_UNKNOWN →
      ∃ k f, findFrom p l i = ((i + k : Nat) : Int) ∧ l[k]? = some f ∧ p f = true ∧
        ∀ j g, j < k → l[j]? = some g → p g = false := by
  intro l
  induction l with
  | nil => intro i h; simp [findFrom] at h
  | cons g rest ih =>
    intro i h
    by_cases hp : p g = true
    · refine ⟨0, g, by simp [findFrom, hp], by simp, hp, ?_⟩
      intro j g1 hj
      omega
    · have hp1 : p g = false := by simpa using hp
      have hrest : findFrom p rest (i + 1) ≠ FIELD_UNKNOWN := by
        simpa [findFrom, hp1] using h
      obtain ⟨k, f, h1, h2, h3, h4⟩ := ih (i + 1) hrest
      refine ⟨k + 1, f, ?_, by simpa using h2, h3, ?_⟩
      · simp [findFrom, hp1, h1]
        omega
      · intro j g1 hj hg1
        cases j with
        | zero =>
          simp at hg1
          subst hg1
          exact hp1
        | succ j =>
          exact h4 j g1 (by omega) (by simpa using hg1)

theorem findFrom_append (p : fieldObject → Bool) :
    ∀ (l l1 : List fieldObject) (i : Nat),
      findFrom p (l ++ l1) i
        = if findFrom p l i = FIELD_UNKNOWN then findFrom p l1 (i + l.length)
          else findFrom p l i := by
  intro l
  induction l with
  | nil => intro l1 i; simp [findFrom]
  | cons g rest ih =>
    intro l1 i
    by_cases hp : p g = true
    · have : ¬ ((i : Int) = FIELD_UNKNOWN) := by
        simp [FIELD_UNKNOWN]
      simp [findFrom, hp, this]
    · have hp1 : p g = false := by simpa using hp
      have hlen : i + 1 + rest.length = i + (rest.length + 1) := by omega
      have := ih l1 (i + 1)
      rw [hlen] at this
      simpa [findFrom, hp1] using this

theorem findFrom_congr (p : fieldObject → Bool) :
    ∀ (l l1 : List fieldObject) (i : Nat), l.map p = l1.map p →
      findFrom p l i = findFrom p l1 i := by
  intro l
  induction l with
  | nil =>
    intro l1 i h
    cases l1 with
    | nil => rfl
    | cons a b => simp at h
  | cons g rest ih =>
    intro l1 i h
    cases l1 with
    | nil => simp at h
    | cons a b =>
      simp only [List.map_cons, List.cons.injEq] at h
      simp [findFrom, h.1, ih b (i + 1) h.2]

/-! ### One registration -/

theorem lastNamed_append (objs : List fieldObject) (g : fieldObject) (name : String)
    (k : Nat) (f : fieldObject) :
    LastNamed (objs ++ [g]) name objs.length k f ↔ LastNamed objs name objs.length k f := by
  unfold LastNamed
  constructor
  · rintro ⟨h1, h2, h3⟩
    refine ⟨h1, h2, fun m g1 hm1 hm2 hg => h3 m g1 hm1 hm2 ?_⟩
    rw [List.getElem?_append_left hm2]
    exact hg
  · rintro ⟨h1, h2, h3⟩
    refine ⟨h1, h2, fun m g1 hm1 hm2 hg => h3 m g1 hm1 hm2 ?_⟩
    rw [List.getElem?_append_left hm2] at hg
    exact hg

theorem lastNamed_sibling (objs : List fieldObject) (name : String) (k : Nat) (f : fieldObject)
    (_hk : objs[k]? = some f) (hsib : f.sibling = nextNamed objs k f)
    (h : LastNamed objs name objs.length k f) : f.sibling = FIELD_UNKNOWN := by
  rw [hsib]
  unfold nextNamed
  rw [h.2.1]
  simp only
  rw [findFrom_eq_unknown_iff]
  intro g hg
  obtain ⟨m, hm, hgm⟩ := List.getElem_of_mem hg
  have hm1 : m < objs.length - (k + 1) := by simpa using hm
  have hidx : objs[k + 1 + m]? = some g := by
    rw [← hgm, List.getElem_drop]
    exact List.getElem?_eq_getElem (by omega)
  have := h.2.2 (k + 1 + m) g (by omega) (by omega) hidx
  simp [nameMatches, this]

theorem defineFieldDefinition_name (d : fieldDefinition) (ftype : Nat) :
    (defineFieldDefinition d ftype).name = d.name := by
  unfold defineFieldDefinition
  simp only
  split_ifs <;> rfl

theorem defineFieldDefinition_letter (d : fieldDefinition) (ftype : Nat) :
    (defineFieldDefinition d ftype).letter = NUL_FIELD_LETTER := by
  unfold defineFieldDefinition
  simp only
  split_ifs <;> rfl

theorem defineFieldDefinition_ftype (d : fieldDefinition) (ftype : Nat) :
    (defineFieldDefinition d ftype).ftype = ftype := by
  unfold defineFieldDefinition
  simp only
  split_ifs <;> rfl

theorem defineFieldDefinition_render (d : fieldDefinition) (ftype : Nat) :
    (defineFieldDefinition d ftype).render ≠ none := by
  unfold defineFieldDefinition
  simp only
  split_ifs with h1 h2 h3 <;> simp_all

/-- Writing another id to an object that `defineField` has left gives the object
as `defineField` leaves it with that id. -/
theorem defineFieldDefinition_with_ftype (d : fieldDefinition) (t n : Nat) :
    { defineFieldDefinition d t with ftype := n } = defineFieldDefinition d n := by
  unfold defineFieldDefinition
  simp only
  split_ifs <;> rfl

/-- A second pass of `defineField` over an object changes the id only. -/
theorem defineFieldDefinition_idem (d : fieldDefinition) (t n : Nat) :
    defineFieldDefinition (defineFieldDefinition d t) n = defineFieldDefinition d n := by
  have hft : FIELDTYPE_STRING ≠ 0 := by decide
  unfold defineFieldDefinition
  simp only
  by_cases h1 : d.render = none <;> by_cases h2 : d.dataType = 0 <;>
    simp [h1, h2, hft]

theorem builtinObjects_table_address :
    ∀ k (h : k < builtinObjects.length), isTableAddress (builtinObjects[k]).defAddr = true := by
  decide

theorem builtinObjects_address_inj :
    ∀ j (hj : j < builtinObjects.length) k (hk : k < builtinObjects.length),
      (builtinObjects[j]).defAddr = (builtinObjects[k]).defAddr → j = k := by
  decide

theorem writeDefinition_getElem? (a : defAddress) (w : fieldDefinition)
    (objs : List fieldObject) (k : Nat) (f : fieldObject) (hk : objs[k]? = some f) :
    (writeDefinition a w objs)[k]? = some (if f.defAddr = a then { f with fdef := w } else f) := by
  unfold writeDefinition
  rw [List.getElem?_map, hk]
  rfl

theorem writeDefinition_length (a : defAddress) (w : fieldDefinition)
    (objs : List fieldObject) : (writeDefinition a w objs).length = objs.length := by
  unfold writeDefinition
  exact List.length_map _ _

theorem lastNamed_congr (objs objs0 : List fieldObject) (name : String) (i k : Nat)
    (f f0 : fieldObject) (hf : f0.fdef.name = f.fdef.name)
    (hall : ∀ (m : Nat) (g0 : fieldObject), objs0[m]? = some g0 →
      ∃ g : fieldObject, objs[m]? = some g ∧ g.fdef.name = g0.fdef.name)
    (hall1 : ∀ (m : Nat) (g : fieldObject), objs[m]? = some g →
      ∃ g0 : fieldObject, objs0[m]? = some g0 ∧ g0.fdef.name = g.fdef.name) :
    LastNamed objs0 name i k f0 ↔ LastNamed objs name i k f := by
  unfold LastNamed
  constructor
  · rintro ⟨h1, h2, h3⟩
    refine ⟨h1, by rw [← hf]; exact h2, ?_⟩
    intro m g hm1 hm2 hg
    obtain ⟨g0, hg0, hn⟩ := hall1 m g hg
    rw [← hn]
    exact h3 m g0 hm1 hm2 hg0
  · rintro ⟨h1, h2, h3⟩
    refine ⟨h1, by rw [hf]; exact h2, ?_⟩
    intro m g0 hm1 hm2 hg0
    obtain ⟨g, hg, hn⟩ := hall m g0 hg0
    rw [← hn]
    exact h3 m g hm1 hm2 hg

/-- In a registry that satisfies the invariant an entry that holds the address
of an object of a parser is none of the first 24. -/
theorem Inv.parser_address_ge {r : Registry} (hinv : Inv r) (k : Nat) (f : fieldObject)
    (d : fieldDefinition) (hk : r.objs[k]? = some f) (ha : f.defAddr = .parser d) : 24 ≤ k := by
  by_contra hcon
  have hlt : k < builtinObjects.length := by
    rw [builtinObjects_length]
    omega
  obtain ⟨s, hs⟩ := hinv.builtin k builtinObjects[k] (List.getElem?_eq_getElem hlt)
  rw [hk] at hs
  have hf := Option.some.inj hs
  have htab := builtinObjects_table_address k hlt
  rw [hf] at ha
  simp only at ha
  rw [ha] at htab
  exact Bool.noConfusion htab

/-- An entry that holds the address of the object `d` shows it as `defineField`
leaves it. -/
theorem Inv.of_address {r : Registry} (hinv : Inv r) (k : Nat) (f : fieldObject)
    (d : fieldDefinition) (hk : r.objs[k]? = some f) (ha : f.defAddr = .parser d) :
    ∃ t, f.fdef = defineFieldDefinition d t := by
  obtain ⟨d1, t, h1, h2⟩ := hinv.origin k f (hinv.parser_address_ge k f d hk ha) hk
  rw [ha] at h1
  have hd : d = d1 := defAddress.parser.inj h1
  subst hd
  exact ⟨t, h2⟩

/-- The object handed in, read through its address, is the object as handed in
up to what `defineField` has written to it before. -/
theorem Inv.current_cases {r : Registry} (hinv : Inv r) (d : fieldDefinition) :
    currentDefinition r.objs d = d ∨ ∃ t, currentDefinition r.objs d = defineFieldDefinition d t := by
  unfold currentDefinition
  cases hfind : r.objs.find? (fun f => decide (f.defAddr = .parser d)) with
  | none => exact Or.inl rfl
  | some f =>
    right
    have ha : f.defAddr = .parser d := by
      have := List.find?_some hfind
      simpa using this
    obtain ⟨k, hk, hkf⟩ := List.getElem_of_mem (List.mem_of_find?_eq_some hfind)
    exact hinv.of_address k f d (by rw [← hkf]; exact List.getElem?_eq_getElem hk) ha

theorem Inv.current_name {r : Registry} (hinv : Inv r) (d : fieldDefinition) :
    (currentDefinition r.objs d).name = d.name := by
  rcases hinv.current_cases d with h | ⟨t, h⟩
  · rw [h]
  · rw [h, defineFieldDefinition_name]

theorem Inv.current_written {r : Registry} (hinv : Inv r) (d : fieldDefinition)
    (n : Nat) :
    defineFieldDefinition (currentDefinition r.objs d) n = defineFieldDefinition d n := by
  rcases hinv.current_cases d with h | ⟨t, h⟩
  · rw [h]
  · rw [h, defineFieldDefinition_idem]

/-- The write of `defineField` to the object handed in changes, in the entries
that hold its address, the recorded id only. -/
theorem Inv.written_getElem? {r : Registry} (hinv : Inv r) (d : fieldDefinition)
    (n k : Nat) (f : fieldObject) (hk : r.objs[k]? = some f) :
    (writeDefinition (.parser d) (defineFieldDefinition d n) r.objs)[k]?
      = some (relinked f f.sibling (if f.defAddr = .parser d then n else f.fdef.ftype)) := by
  rw [writeDefinition_getElem? _ _ _ k f hk]
  by_cases ha : f.defAddr = .parser d
  · obtain ⟨t, ht⟩ := hinv.of_address k f d hk ha
    rw [if_pos ha, if_pos ha]
    have hw : defineFieldDefinition d n = { f.fdef with ftype := n } := by
      rw [ht, defineFieldDefinition_with_ftype]
    rw [hw]
  · rw [if_neg ha, if_neg ha]

theorem defineField_run {r : Registry} (hinv : Inv r) (d : fieldDefinition) (language : Int)
    (name : String) (hname : d.name = some name) (halpha : name.data.all isalpha = true) :
    ∃ r1, defineField r (some d) language = .ok ((r.objs.length : Int), r1) ∧
      DefineStep r d language name r1 := by
  have hsome := hinv.objs_some
  have hcur : (currentDefinition r.objs d).name = some name := by
    rw [hinv.current_name, hname]
  have hwritten := hinv.current_written d r.objs.length
  have hget := hinv.written_getElem? d r.objs.length
  have hlen0 := writeDefinition_length (.parser d) (defineFieldDefinition d r.objs.length) r.objs
  have hnames0 : ∀ (m : Nat) (g0 : fieldObject),
      (writeDefinition (.parser d) (defineFieldDefinition d r.objs.length) r.objs)[m]? = some g0 →
      ∃ g : fieldObject, r.objs[m]? = some g ∧ g.fdef.name = g0.fdef.name := by
    intro m g0 hg0
    have hm : m < r.objs.length := by
      by_contra hcon
      rw [List.getElem?_eq_none (by rw [hlen0]; omega)] at hg0
      exact Option.noConfusion hg0
    rw [hget m r.objs[m] (List.getElem?_eq_getElem hm)] at hg0
    refine ⟨r.objs[m], List.getElem?_eq_getElem hm, ?_⟩
    rw [← Option.some.inj hg0]
  have hnames1 : ∀ (m : Nat) (g : fieldObject), r.objs[m]? = some g →
      ∃ g0 : fieldObject,
        (writeDefinition (.parser d) (defineFieldDefinition d r.objs.length) r.objs)[m]?
          = some g0 ∧ g0.fdef.name = g.fdef.name := by
    intro m g hg
    exact ⟨_, hget m g hg, rfl⟩
  have hsib : ∀ k f,
      (writeDefinition (.parser d) (defineFieldDefinition d r.objs.length) r.objs
        ++ [defineFieldObject d name r.objs.length language])[k]? = some f →
      LastNamed (writeDefinition (.parser d) (defineFieldDefinition d r.objs.length) r.objs
        ++ [defineFieldObject d name r.objs.length language]) name
        r.objs.length k f →
      f.sibling = FIELD_UNKNOWN := by
    intro k f hk hlast
    have hlt : k < r.objs.length := hlast.1
    rw [List.getElem?_append_left (by rw [hlen0]; exact hlt),
      hget k r.objs[k] (List.getElem?_eq_getElem hlt)] at hk
    have hf := Option.some.inj hk
    have hlast1 : LastNamed (writeDefinition (.parser d)
        (defineFieldDefinition d r.objs.length) r.objs) name r.objs.length k f := by
      have := (lastNamed_append (writeDefinition (.parser d)
        (defineFieldDefinition d r.objs.length) r.objs)
        (defineFieldObject d name r.objs.length language) name k f)
      rw [hlen0] at this
      exact this.1 hlast
    have hlast2 : LastNamed r.objs name r.objs.length k r.objs[k] :=
      (lastNamed_congr r.objs _ name r.objs.length k r.objs[k] f (by rw [← hf]) hnames0
        hnames1).1 hlast1
    have hunk := lastNamed_sibling r.objs name k r.objs[k] (List.getElem?_eq_getElem hlt)
      (hinv.sibling k _ (List.getElem?_eq_getElem hlt)) hlast2
    rw [← hf]
    exact hunk
  obtain ⟨objs1, hrun, hlen, hall⟩ := updateSiblingFieldLoop_spec r.objs.length name
    r.objs.length (writeDefinition (.parser d) (defineFieldDefinition d r.objs.length) r.objs
      ++ [defineFieldObject d name r.objs.length language]) (by simp [hlen0]) hsib
  refine ⟨⟨some objs1, (if r.objs.length = r.fieldObjectAllocated then
      r.fieldObjectAllocated * 2 else r.fieldObjectAllocated), r.initialized⟩, ?_, ?_⟩
  · have hobj : ({ defineFieldObject d name r.objs.length language with
        fdef := defineFieldDefinition d r.objs.length } : fieldObject)
        = defineFieldObject d name r.objs.length language := rfl
    simp only [defineField, hcur, halpha, if_true, updateSiblingField]
    rw [hsome]
    simp only [hwritten]
    rw [hobj, hrun]
  · have hobjs1 : Registry.objs ⟨some objs1,
        (if r.objs.length = r.fieldObjectAllocated then r.fieldObjectAllocated * 2
          else r.fieldObjectAllocated), r.initialized⟩ = objs1 := rfl
    refine ⟨by rw [hobjs1], rfl, by rw [hobjs1, hlen]; simp [hlen0], ?_, ?_⟩
    · rw [hobjs1]
      obtain ⟨s, h1, _, h3⟩ := hall r.objs.length
        (defineFieldObject d name r.objs.length language)
        (by rw [List.getElem?_append_right (by rw [hlen0]), hlen0]; simp)
      have hs : s = FIELD_UNKNOWN := h3 (fun h => absurd h.1 (Nat.lt_irrefl _))
      rw [h1, hs]
      rfl
    · intro k f hk
      rw [hobjs1]
      have hlt : k < r.objs.length := by
        by_contra hcon
        rw [List.getElem?_eq_none (by omega)] at hk
        exact Option.noConfusion hk
      have hk0 := hget k f hk
      obtain ⟨s, h1, h2, h3⟩ := hall k _
        (by rw [List.getElem?_append_left (by rw [hlen0]; exact hlt)]; exact hk0)
      have hiff : LastNamed (writeDefinition (.parser d)
          (defineFieldDefinition d r.objs.length) r.objs
            ++ [defineFieldObject d name r.objs.length language]) name r.objs.length k
          (relinked f f.sibling (if f.defAddr = .parser d then r.objs.length else f.fdef.ftype))
          ↔ LastNamed r.objs name r.objs.length k f := by
        have h0 := (lastNamed_append (writeDefinition (.parser d)
          (defineFieldDefinition d r.objs.length) r.objs)
          (defineFieldObject d name r.objs.length language) name k
          (relinked f f.sibling (if f.defAddr = .parser d then r.objs.length else f.fdef.ftype)))
        rw [hlen0] at h0
        exact h0.trans (lastNamed_congr r.objs _ name r.objs.length k f _ rfl hnames0 hnames1)
      refine ⟨s, (if f.defAddr = .parser d then r.objs.length else f.fdef.ftype), h1,
        fun h => h2 (hiff.2 h), fun h => h3 (fun h4 => h (hiff.1 h4)),
        fun ha => if_pos ha, fun ha => if_neg ha⟩

theorem defineField_inv {r r1 : Registry} {d : fieldDefinition} {language id : Int}
    (hinv : Inv r) (h : defineField r (some d) language = .ok (id, r1)) :
    ∃ name, d.name = some name ∧ name.data.all isalpha = true ∧ id = (r.objs.length : Int) ∧
      DefineStep r d language name r1 := by
  have hcur := hinv.current_name d
  cases hname : d.name with
  | none =>
    rw [hname] at hcur
    simp [defineField, hcur] at h
  | some name =>
    rw [hname] at hcur
    by_cases halpha : name.data.all isalpha = true
    · obtain ⟨r2, hrun, hstep⟩ := defineField_run hinv d language name hname halpha
      rw [hrun] at h
      injection h with h
      injection h with h1 h2
      subst h2
      exact ⟨name, rfl, halpha, h1.symm, hstep⟩
    · simp [defineField, hcur, halpha] at h

theorem DefineStep.cases {r r1 : Registry} {d : fieldDefinition} {language : Int}
    {name : String} (hstep : DefineStep r d language name r1) (k : Nat) (f1 : fieldObject)
    (hk : r1.objs[k]? = some f1) :
    (k < r.objs.length ∧ ∃ f s t, r.objs[k]? = some f ∧ f1 = relinked f s t ∧
        (LastNamed r.objs name r.objs.length k f → s = (r.objs.length : Int)) ∧
        (¬ LastNamed r.objs name r.objs.length k f → s = f.sibling) ∧
        (f.defAddr = .parser d → t = r.objs.length) ∧
        (f.defAddr ≠ .parser d → t = f.fdef.ftype)) ∨
      (k = r.objs.length ∧ f1 = defineFieldObject d name r.objs.length language) := by
  have hlt : k < r1.objs.length := by
    by_contra hcon
    rw [List.getElem?_eq_none (by omega)] at hk
    exact Option.noConfusion hk
  rw [hstep.length] at hlt
  by_cases hkn : k = r.objs.length
  · right
    subst hkn
    rw [hstep.last] at hk
    exact ⟨rfl, (Option.some.inj hk).symm⟩
  · left
    have hlt1 : k < r.objs.length := by omega
    refine ⟨hlt1, ?_⟩
    obtain ⟨s, t, h1, h2, h3, h4, h5⟩ := hstep.old k r.objs[k] (List.getElem?_eq_getElem hlt1)
    rw [h1] at hk
    exact ⟨r.objs[k], s, t, List.getElem?_eq_getElem hlt1, (Option.some.inj hk).symm,
      h2, h3, h4, h5⟩

/-- A registration changes, in an earlier entry, nothing that a function of the
entry other than its sibling link and its recorded id can see. -/
theorem DefineStep.map_of {α : Type} {r r1 : Registry} {d : fieldDefinition} {language : Int}
    {name : String} (hstep : DefineStep r d language name r1) (p : fieldObject → α)
    (hp : ∀ f s t, p (relinked f s t) = p f) :
    r1.objs.map p
      = (r.objs ++ [defineFieldObject d name r.objs.length language]).map p := by
  apply List.ext_getElem?
  intro k
  simp only [List.getElem?_map]
  by_cases hlt : k < r.objs.length
  · obtain ⟨s, t, h1, _, _, _, _⟩ := hstep.old k r.objs[k] (List.getElem?_eq_getElem hlt)
    rw [h1, List.getElem?_append_left hlt, List.getElem?_eq_getElem hlt]
    simp only [Option.map_some', hp]
  · by_cases hkn : k = r.objs.length
    · subst hkn
      rw [hstep.last]
      simp
    · rw [List.getElem?_eq_none (by rw [hstep.length]; omega),
        List.getElem?_eq_none (by simp; omega)]

theorem findFrom_auto_step {r r1 : Registry} {d : fieldDefinition} {language : Int}
    {name : String} (hstep : DefineStep r d language name r1) (n : String) (j i : Nat) :
    findFrom (nameMatches n LANG_AUTO) (r1.objs.drop j) i
      = findFrom (nameMatches n LANG_AUTO)
          ((r.objs ++ [defineFieldObject d name r.objs.length language]).drop j) i := by
  apply findFrom_congr
  rw [List.map_drop, List.map_drop, hstep.map_of (nameMatches n LANG_AUTO) (fun _ _ _ => rfl)]

theorem mem_drop_of_getElem? (objs : List fieldObject) (k m : Nat) (g : fieldObject)
    (hm : k < m) (hg : objs[m]? = some g) : g ∈ objs.drop (k + 1) := by
  refine List.mem_iff_getElem?.2 ⟨m - (k + 1), ?_⟩
  rw [List.getElem?_drop]
  have : k + 1 + (m - (k + 1)) = m := by omega
  rw [this]
  exact hg

theorem findFrom_singleton_step (d : fieldDefinition) (name nk : String) (ftype i : Nat)
    (language : Int) (hname : d.name = some name) :
    findFrom (nameMatches nk LANG_AUTO) [defineFieldObject d name ftype language] i
      = if nk = name then (i : Int) else FIELD_UNKNOWN := by
  by_cases h : nk = name
  · subst h
    simp [findFrom, nameMatches, defineFieldObject, defineFieldDefinition_name, hname]
  · have h1 : ¬ name = nk := fun e => h e.symm
    simp [findFrom, nameMatches, defineFieldObject, defineFieldDefinition_name, hname, h, h1]

theorem DefineStep.sibling {r r1 : Registry} {d : fieldDefinition} {language : Int}
    {name : String} (hinv : Inv r) (hname : d.name = some name)
    (hstep : DefineStep r d language name r1) :
    ∀ (k : Nat) (f1 : fieldObject), r1.objs[k]? = some f1 →
      f1.sibling = nextNamed r1.objs k f1 := by
  intro k f1 hk
  rcases hstep.cases k f1 hk with ⟨hlt, f, s, t, hf, hf1, hs1, hs2, _, _⟩ | ⟨hkn, hf1⟩
  · subst hf1
    have hold := hinv.sibling k f hf
    unfold nextNamed at hold ⊢
    simp only
    cases hnk : f.fdef.name with
    | none =>
      rw [hnk] at hold
      have hnl : ¬ LastNamed r.objs name r.objs.length k f := by
        intro h
        have := h.2.1
        rw [hnk] at this
        exact Option.noConfusion this
      simp only
      rw [hs2 hnl]
      exact hold
    | some nk =>
      rw [hnk] at hold
      simp only at hold ⊢
      rw [findFrom_auto_step hstep, List.drop_append_of_le_length (by omega), findFrom_append,
        findFrom_singleton_step d name nk _ _ language hname]
      by_cases hlast : LastNamed r.objs name r.objs.length k f
      · have hunk := lastNamed_sibling r.objs name k f hf (hinv.sibling k f hf) hlast
        rw [hold] at hunk
        have hnn : nk = name := by
          have := hlast.2.1
          rw [hnk] at this
          exact Option.some.inj this
        rw [hs1 hlast, if_pos hunk, if_pos hnn]
        simp only [List.length_drop]
        congr 1
        omega
      · rw [hs2 hlast, hold]
        by_cases hunk : findFrom (nameMatches nk LANG_AUTO) (List.drop (k + 1) r.objs) (k + 1)
            = FIELD_UNKNOWN
        · have hne : ¬ nk = name := by
            intro heq
            subst heq
            apply hlast
            refine ⟨hlt, hnk, ?_⟩
            intro m g hm1 _ hg
            rw [findFrom_eq_unknown_iff] at hunk
            have := hunk g (mem_drop_of_getElem? r.objs k m g hm1 hg)
            simpa [nameMatches] using this
          rw [if_pos hunk, if_neg hne, hunk]
        · rw [if_neg hunk]
  · subst hkn
    subst hf1
    unfold nextNamed
    have hn : (defineFieldObject d name r.objs.length language).fdef.name = some name := by
      simp [defineFieldObject, defineFieldDefinition_name, hname]
    rw [hn]
    simp only
    rw [List.drop_of_length_le (by rw [hstep.length])]
    rfl

theorem inv_init : Inv builtinRegistry := by
  refine ⟨rfl, rfl, ?_, ?_, ?_, ?_, ?_, ?_⟩
  · intro k f hk
    exact ⟨f.sibling, hk⟩
  · intro k f h24 hk
    have hnone : builtinObjects[k]? = none :=
      List.getElem?_eq_none (by rw [builtinObjects_length]; exact h24)
    have hk1 : builtinObjects[k]? = some f := hk
    rw [hnone] at hk1
    exact Option.noConfusion hk1
  · intro k f h24 hk
    have hnone : builtinObjects[k]? = none :=
      List.getElem?_eq_none (by rw [builtinObjects_length]; exact h24)
    have hk1 : builtinObjects[k]? = some f := hk
    rw [hnone] at hk1
    exact Option.noConfusion hk1
  · intro j k f g hj hk ha
    obtain ⟨h1, hf⟩ := List.getElem?_eq_some_iff.1 (show builtinObjects[j]? = some f from hj)
    obtain ⟨h2, hg⟩ := List.getElem?_eq_some_iff.1 (show builtinObjects[k]? = some g from hk)
    rw [← hf, ← hg] at ha
    have hjk := builtinObjects_address_inj j h1 k h2 ha
    subst hjk
    rw [← hf, ← hg]
  · intro k f hk _
    obtain ⟨h, hf⟩ := List.getElem?_eq_some_iff.1 (show builtinObjects[k]? = some f from hk)
    rw [← hf]
    exact builtinObjects_ftype k h
  · intro k f hk
    obtain ⟨h, hf⟩ := List.getElem?_eq_some_iff.1 (show builtinObjects[k]? = some f from hk)
    rw [← hf]
    exact builtinObjects_sibling k h

theorem inv_define {r r1 : Registry} {d : fieldDefinition} {language : Int}
    {name : String} (hinv : Inv r) (hname : d.name = some name)
    (halpha : name.data.all isalpha = true) (hstep : DefineStep r d language name r1) :
    Inv r1 := by
  have hlen24 : 24 ≤ r.objs.length := by
    obtain ⟨s, hs⟩ := hinv.builtin 23 builtinObjects[23] (by decide)
    obtain ⟨h, _⟩ := List.getElem?_eq_some_iff.1 hs
    omega
  refine ⟨hstep.objs_some, by rw [hstep.flag, hinv.flag], ?_, ?_, ?_, ?_, ?_,
    hstep.sibling hinv hname⟩
  · intro k f hk
    obtain ⟨s0, hs0⟩ := hinv.builtin k f hk
    obtain ⟨s, t, hs, _, _, _, ht⟩ := hstep.old k _ hs0
    have hlt : k < builtinObjects.length := (List.getElem?_eq_some_iff.1 hk).1
    have htab := builtinObjects_table_address k hlt
    have hfk : builtinObjects[k] = f := (List.getElem?_eq_some_iff.1 hk).2
    rw [hfk] at htab
    have hne : ({ f with sibling := s0 } : fieldObject).defAddr ≠ .parser d := by
      intro ha
      simp only at ha
      rw [ha] at htab
      exact Bool.noConfusion htab
    refine ⟨s, ?_⟩
    rw [hs, ht hne]
  · intro k f1 h24 hk
    rcases hstep.cases k f1 hk with ⟨_, f, s, t, hf, hf1, _, _, _, _⟩ | ⟨_, hf1⟩
    · subst hf1
      exact hinv.dynamic k f h24 hf
    · subst hf1
      refine ⟨defineFieldDefinition_letter d _, defineFieldDefinition_render d _, name, ?_, halpha⟩
      simp [defineFieldObject, defineFieldDefinition_name, hname]
  · intro k f1 h24 hk
    rcases hstep.cases k f1 hk with ⟨_, f, s, t, hf, hf1, _, _, _, _⟩ | ⟨_, hf1⟩
    · subst hf1
      obtain ⟨d1, t1, h1, h2⟩ := hinv.origin k f h24 hf
      refine ⟨d1, t, h1, ?_⟩
      show { f.fdef with ftype := t } = defineFieldDefinition d1 t
      rw [h2, defineFieldDefinition_with_ftype]
    · subst hf1
      exact ⟨d, r.objs.length, rfl, rfl⟩
  · intro j k f1 g1 hj hk ha
    rcases hstep.cases j f1 hj with ⟨hjl, f, s, t, hf, hf1, _, _, ht1, ht2⟩ | ⟨hjn, hf1⟩
    · rcases hstep.cases k g1 hk with ⟨hkl, g, s', t', hg, hg1, _, _, ht1', ht2'⟩ | ⟨hkn, hg1⟩
      · subst hf1
        subst hg1
        have ha1 : f.defAddr = g.defAddr := ha
        have hfg := hinv.shared j k f g hf hg ha1
        show { f.fdef with ftype := t } = { g.fdef with ftype := t' }
        by_cases hp : f.defAddr = .parser d
        · rw [ht1 hp, ht1' (ha1 ▸ hp), hfg]
        · rw [ht2 hp, ht2' (ha1 ▸ hp), hfg]
      · subst hf1
        subst hg1
        have ha1 : f.defAddr = .parser d := ha
        obtain ⟨t0, ht0⟩ := hinv.of_address j f d hf ha1
        show { f.fdef with ftype := t } = defineFieldDefinition d r.objs.length
        rw [ht1 ha1, ht0, defineFieldDefinition_with_ftype]
    · rcases hstep.cases k g1 hk with ⟨hkl, g, s', t', hg, hg1, _, _, ht1', ht2'⟩ | ⟨hkn, hg1⟩
      · subst hf1
        subst hg1
        have ha1 : g.defAddr = .parser d := ha.symm
        obtain ⟨t0, ht0⟩ := hinv.of_address k g d hg ha1
        show defineFieldDefinition d r.objs.length = { g.fdef with ftype := t' }
        rw [ht1' ha1, ht0, defineFieldDefinition_with_ftype]
      · subst hf1
        subst hg1
        rfl
  · intro k f1 hk hlater
    rcases hstep.cases k f1 hk with ⟨hkl, f, s, t, hf, hf1, _, _, ht1, ht2⟩ | ⟨hkn, hf1⟩
    · subst hf1
      have hne : f.defAddr ≠ .parser d := by
        intro ha
        exact hlater r.objs.length _ hkl hstep.last ha.symm
      show t = k
      rw [ht2 hne]
      apply hinv.ftype k f hf
      intro m g hm hg
      obtain ⟨s1, t1, hg1, _⟩ := hstep.old m g hg
      exact hlater m (relinked g s1 t1) hm hg1
    · subst hf1
      subst hkn
      exact defineFieldDefinition_ftype d _

theorem reachable_inv {r : Registry} (h : Reachable r) : Inv r := by
  induction h with
  | init h0 =>
    rw [initFieldObjects_start] at h0
    injection h0 with h0
    subst h0
    exact inv_init
  | define _ hdef ih =>
    obtain ⟨name, hname, halpha, _, hstep⟩ := defineField_inv ih hdef
    exact inv_define ih hname halpha hstep

/-! ### Sequences of registrations -/

theorem defineFields_spec :
    ∀ (reqs : List Request) (r0 r : Registry) (ids : List Int), Inv r0 →
      defineFields r0 reqs = .ok (ids, r) →
      Inv r ∧ r.objs.length = r0.objs.length + reqs.length ∧ ids.length = reqs.length ∧
        ∀ j, j < reqs.length → ids[j]? = some ((r0.objs.length : Int) + (j : Int)) := by
  intro reqs
  induction reqs with
  | nil =>
    intro r0 r ids hinv h
    simp only [defineFields] at h
    injection h with h
    injection h with h1 h2
    subst h1
    subst h2
    exact ⟨hinv, rfl, rfl, fun j hj => absurd hj (Nat.not_lt_zero j)⟩
  | cons req rest ih =>
    intro r0 r ids hinv h
    obtain ⟨d, language⟩ := req
    simp only [defineFields] at h
    cases hd : defineField r0 (some d) language with
    | error e => rw [hd] at h; exact Except.noConfusion h
    | ok p =>
      obtain ⟨id, r1⟩ := p
      rw [hd] at h
      simp only at h
      cases hrest : defineFields r1 rest with
      | error e => rw [hrest] at h; exact Except.noConfusion h
      | ok q =>
        obtain ⟨ids1, r2⟩ := q
        rw [hrest] at h
        simp only at h
        injection h with h
        injection h with h1 h2
        subst h1
        subst h2
        obtain ⟨name, hname, halpha, hid, hstep⟩ := defineField_inv hinv hd
        obtain ⟨hinv2, hlen2, hids2, hall2⟩ := ih r1 r2 ids1 (inv_define hinv hname halpha hstep) hrest
        refine ⟨hinv2, ?_, by simp [hids2], ?_⟩
        · rw [hlen2, hstep.length]
          simp only [List.length_cons]
          omega
        · intro j hj
          cases j with
          | zero => simp [hid]
          | succ j =>
            simp only [List.getElem?_cons_succ]
            rw [hall2 j (by simpa using hj), hstep.length]
            congr 1
            push_cast
            omega

theorem reachable_of_defineFields :
    ∀ (reqs : List Request) (r0 r : Registry) (ids : List Int), Reachable r0 →
      defineFields r0 reqs = .ok (ids, r) → Reachable r := by
  intro reqs
  induction reqs with
  | nil =>
    intro r0 r ids hr h
    simp only [defineFields] at h
    injection h with h
    injection h with h1 h2
    subst h2
    exact hr
  | cons req rest ih =>
    intro r0 r ids hr h
    obtain ⟨d, language⟩ := req
    simp only [defineFields] at h
    cases hd : defineField r0 (some d) language with
    | error e => rw [hd] at h; exact Except.noConfusion h
    | ok p =>
      obtain ⟨id, r1⟩ := p
      rw [hd] at h
      simp only at h
      cases hrest : defineFields r1 rest with
      | error e => rw [hrest] at h; exact Except.noConfusion h
      | ok q =>
        obtain ⟨ids1, r2⟩ := q
        rw [hrest] at h
        simp only at h
        injection h with h
        injection h with h1 h2
        subst h2
        exact ih r1 r2 ids1 (Reachable.define hr hd) hrest

theorem getFieldObject_of_lt (r : Registry) (i : Nat) (h : i < r.objs.length) :
    getFieldObject r (i : Int) = .ok r.objs[i] := by
  have h1 : (0 : Int) ≤ (i : Int) := Int.ofNat_nonneg i
  have h2 : i < r.fieldObjectUsed := h
  simp only [getFieldObject, h1, Int.toNat_ofNat, h2, and_self, if_true]
  rw [List.getElem?_eq_getElem h]

theorem noteRun_reachable : Reachable noteRun.2 :=
  reachable_of_defineFields noteRequests builtinRegistry noteRun.2 noteRun.1
    (Reachable.init rfl) rfl

/-! ### Lookup by letter -/

theorem builtinObjects_letter_ne :
    ∀ k (h : k < builtinObjects.length), (builtinObjects[k]).fdef.letter ≠ NUL_FIELD_LETTER := by
  decide

theorem builtinObjects_letter_inj :
    ∀ j (hj : j < builtinObjects.length), ∀ k (hk : k < builtinObjects.length),
      (builtinObjects[j]).fdef.letter = (builtinObjects[k]).fdef.letter → j = k := by
  decide

theorem Inv.builtin_of_lt {r : Registry} (hinv : Inv r) (k : Nat) (f : fieldObject)
    (hk : r.objs[k]? = some f) (hlt : k < 24) :
    ∃ (h : k < builtinObjects.length), f = { builtinObjects[k] with sibling := f.sibling } := by
  have h : k < builtinObjects.length := by rw [builtinObjects_length]; exact hlt
  obtain ⟨s, hs⟩ := hinv.builtin k builtinObjects[k] (List.getElem?_eq_getElem h)
  rw [hs] at hk
  have := Option.some.inj hk
  subst this
  exact ⟨h, rfl⟩

theorem Inv.ftype_of_lt {r : Registry} (hinv : Inv r) (k : Nat) (f : fieldObject)
    (hk : r.objs[k]? = some f) (hlt : k < 24) : f.fdef.ftype = k := by
  obtain ⟨h, hf⟩ := hinv.builtin_of_lt k f hk hlt
  rw [hf]
  exact builtinObjects_ftype k h

theorem Inv.letter_lt {r : Registry} (hinv : Inv r) (k : Nat) (f : fieldObject)
    (hk : r.objs[k]? = some f) (hne : f.fdef.letter ≠ NUL_FIELD_LETTER) : k < 24 := by
  by_contra hcon
  exact hne (hinv.dynamic k f (by omega) hk).1

theorem Inv.letter_inj {r : Registry} (hinv : Inv r) (j k : Nat) (f g : fieldObject)
    (hj : r.objs[j]? = some f) (hk : r.objs[k]? = some g)
    (hne : f.fdef.letter ≠ NUL_FIELD_LETTER) (heq : f.fdef.letter = g.fdef.letter) : j = k := by
  have hj24 := hinv.letter_lt j f hj hne
  have hk24 := hinv.letter_lt k g hk (by rw [← heq]; exact hne)
  obtain ⟨h1, hf⟩ := hinv.builtin_of_lt j f hj hj24
  obtain ⟨h2, hg⟩ := hinv.builtin_of_lt k g hk hk24
  apply builtinObjects_letter_inj j h1 k h2
  rw [hf, hg] at heq
  exact heq

/-- C2: in every registry reached by `initFieldObjects` and `defineField`
calls, `getFieldTypeForOption` applied to the letter of a field whose letter is
not the no-letter sentinel returns that field's index, which is its id; two
entries that share a non-sentinel letter are the same entry; and for a letter
that no entry carries the result is `FIELD_UNKNOWN`. -/
theorem C2_lookup_by_letter (r : Registry) (hr : Reachable r) :
    (∀ (k : Nat) (f : fieldObject), r.objs[k]? = some f →
      f.fdef.letter ≠ NUL_FIELD_LETTER →
        getFieldTypeForOption r f.fdef.letter = (k : Int) ∧ f.fdef.ftype = k) ∧
    (∀ (j k : Nat) (f g : fieldObject), r.objs[j]? = some f → r.objs[k]? = some g →
      f.fdef.letter ≠ NUL_FIELD_LETTER → f.fdef.letter = g.fdef.letter → j = k) ∧
    (∀ c : Char, (∀ f ∈ r.objs, f.fdef.letter ≠ c) →
      getFieldTypeForOption r c = FIELD_UNKNOWN) := by
  have hinv := reachable_inv hr
  refine ⟨?_, hinv.letter_inj, ?_⟩
  · intro k f hk hne
    refine ⟨?_, hinv.ftype_of_lt k f hk (hinv.letter_lt k f hk hne)⟩
    unfold getFieldTypeForOption
    rw [getFieldTypeForOptionLoop_eq,
      findFrom_first _ r.objs 0 k f hk (by simp)]
    · simp
    · intro j g hj hg
      have hjk : j ≠ k := by omega
      simp only [decide_eq_false_iff_not]
      intro heq
      exact hjk ((hinv.letter_inj k j f g hk hg hne heq.symm).symm)
  · intro c hc
    unfold getFieldTypeForOption
    rw [getFieldTypeForOptionLoop_eq, findFrom_eq_unknown_iff]
    intro f hf
    simpa using hc f hf

theorem C2_lookup_by_letter_witness :
    (∀ (k : Nat) (f : fieldObject), noteRun.2.objs[k]? = some f →
      f.fdef.letter ≠ NUL_FIELD_LETTER →
        getFieldTypeForOption noteRun.2 f.fdef.letter = (k : Int) ∧ f.fdef.ftype = k) ∧
    (∀ (j k : Nat) (f g : fieldObject), noteRun.2.objs[j]? = some f →
      noteRun.2.objs[k]? = some g →
      f.fdef.letter ≠ NUL_FIELD_LETTER → f.fdef.letter = g.fdef.letter → j = k) ∧
    (∀ c : Char, (∀ f ∈ noteRun.2.objs, f.fdef.letter ≠ c) →
      getFieldTypeForOption noteRun.2 c = FIELD_UNKNOWN) :=
  C2_lookup_by_letter noteRun.2
    (reachable_of_defineFields noteRequests builtinRegistry noteRun.2 noteRun.1
      (Reachable.init rfl) rfl)

/-! ### Lookup by name -/

theorem lookup_noParserInit (r : Registry) (n : String) (language : Int) :
    (getFieldTypeForNameAndLanguage noParserInit r (some n) language).1
      = findFrom (nameMatches n language) r.objs 0 := by
  simp only [getFieldTypeForNameAndLanguage, noParserInit, getFieldTypeForNameAndLanguageLoop_eq]
  split_ifs <;> rfl

theorem lookupByNameMatches_eq (objs : List fieldObject) (n : String) (language : Int)
    (k : Nat) (f : fieldObject) (hk : objs[k]? = some f) :
    lookupByNameMatches objs n language k = nameMatches n language f := by
  unfold lookupByNameMatches nameMatches
  rw [hk]
  simp only [Bool.decide_and, Bool.decide_or, beq_iff_eq, Bool.beq_eq_decide_eq]

theorem findFrom_eq_lookupByName (objs : List fieldObject) (n : String) (language : Int) :
    findFrom (nameMatches n language) objs 0 = lookupByName objs (some n) language := by
  unfold lookupByName
  simp only
  by_cases hunk : findFrom (nameMatches n language) objs 0 = FIELD_UNKNOWN
  · have hnone : (List.range objs.length).find? (lookupByNameMatches objs n language) = none := by
      rw [List.find?_range_eq_none]
      intro i hi
      rw [lookupByNameMatches_eq objs n language i objs[i] (List.getElem?_eq_getElem hi)]
      rw [findFrom_eq_unknown_iff] at hunk
      simp [hunk objs[i] (List.getElem_mem hi)]
    rw [hnone, hunk]
  · obtain ⟨k, f, h1, h2, h3, h4⟩ := findFrom_found _ objs 0 hunk
    have hlt : k < objs.length := (List.getElem?_eq_some_iff.1 h2).1
    have hsome : (List.range objs.length).find? (lookupByNameMatches objs n language)
        = some k := by
      rw [List.find?_range_eq_some]
      refine ⟨?_, List.mem_range.2 hlt, ?_⟩
      · rw [lookupByNameMatches_eq objs n language k f h2]
        exact h3
      · intro j hj
        rw [lookupByNameMatches_eq objs n language j objs[j]
          (List.getElem?_eq_getElem (by omega))]
        simp [h4 j objs[j] hj (List.getElem?_eq_getElem (by omega))]
    rw [hsome, h1]
    simp

/-- C4: with a parser initialisation that leaves the registry unchanged,
`getFieldTypeForNameAndLanguage` is a total function that changes no entry and
equals the reference definition `lookupByName` (lowest id whose field has the
name and, unless the language is `LANG_AUTO`, the requested owning language;
`FIELD_UNKNOWN` for an absent name or when there is no such field).  The result
is `FIELD_UNKNOWN` exactly when no entry passes the test, an entry it returns
passes the test and no entry of lower id does, and for a language other than
`LANG_AUTO` the returned entry is owned by that language. -/
theorem C4_lookup_by_name_reference (r : Registry) (name : Option String) (language : Int) :
    (getFieldTypeForNameAndLanguage noParserInit r name language).1
        = lookupByName r.objs name language ∧
    (getFieldTypeForNameAndLanguage noParserInit r name language).2.objs = r.objs ∧
    (getFieldTypeForNameAndLanguage noParserInit r none language).1 = FIELD_UNKNOWN ∧
    (∀ n : String,
      ((getFieldTypeForNameAndLanguage noParserInit r (some n) language).1 = FIELD_UNKNOWN ↔
        ∀ f ∈ r.objs,
          ¬ (f.fdef.name = some n ∧ (language = LANG_AUTO ∨ f.language = language)))) ∧
    (∀ (n : String) (k : Nat),
      (getFieldTypeForNameAndLanguage noParserInit r (some n) language).1 = (k : Int) →
        ∃ f, r.objs[k]? = some f ∧ f.fdef.name = some n ∧
          (language = LANG_AUTO ∨ f.language = language) ∧
          (language ≠ LANG_AUTO → f.language = language) ∧
          ∀ (j : Nat) (g : fieldObject), j < k → r.objs[j]? = some g →
            ¬ (g.fdef.name = some n ∧ (language = LANG_AUTO ∨ g.language = language))) := by
  refine ⟨?_, ?_, rfl, ?_, ?_⟩
  · cases name with
    | none => rfl
    | some n => rw [lookup_noParserInit, findFrom_eq_lookupByName]
  · cases name with
    | none => rfl
    | some n =>
      simp only [getFieldTypeForNameAndLanguage, noParserInit]
      split_ifs <;> rfl
  · intro n
    rw [lookup_noParserInit, findFrom_eq_unknown_iff]
    simp only [nameMatches, decide_eq_false_iff_not]
  · intro n k hk
    rw [lookup_noParserInit] at hk
    have hne : findFrom (nameMatches n language) r.objs 0 ≠ FIELD_UNKNOWN := by
      rw [hk]
      simp [FIELD_UNKNOWN]
    obtain ⟨k1, f, h1, h2, h3, h4⟩ := findFrom_found _ r.objs 0 hne
    have hkk : k1 = k := by
      rw [hk] at h1
      simp at h1
      omega
    subst hkk
    simp only [nameMatches, decide_eq_true_eq] at h3
    refine ⟨f, h2, h3.1, h3.2, ?_, ?_⟩
    · intro hl
      rcases h3.2 with h | h
      · exact absurd h hl
      · exact h
    · intro j g hj hg
      have := h4 j g hj hg
      simpa [nameMatches] using this

/-! ### Entries before and after a sequence of registrations -/

theorem defineFields_nil_ok {r0 r : Registry} {ids : List Int}
    (h : defineFields r0 [] = .ok (ids, r)) : ids = [] ∧ r = r0 := by
  simp only [defineFields] at h
  injection h with h
  injection h with h1 h2
  exact ⟨h1.symm, h2.symm⟩

theorem defineFields_cons_ok {r0 r : Registry} {ids : List Int} {d : fieldDefinition}
    {language : Int} {rest : List Request}
    (h : defineFields r0 ((d, language) :: rest) = .ok (ids, r)) :
    ∃ id r1 ids1, defineField r0 (some d) language = .ok (id, r1) ∧
      defineFields r1 rest = .ok (ids1, r) ∧ ids = id :: ids1 := by
  simp only [defineFields] at h
  cases hd : defineField r0 (some d) language with
  | error e => rw [hd] at h; exact Except.noConfusion h
  | ok p =>
    obtain ⟨id, r1⟩ := p
    rw [hd] at h
    simp only at h
    cases hrest : defineFields r1 rest with
    | error e => rw [hrest] at h; exact Except.noConfusion h
    | ok q =>
      obtain ⟨ids1, r2⟩ := q
      rw [hrest] at h
      simp only at h
      injection h with h
      injection h with h1 h2
      subst h2
      exact ⟨id, r1, ids1, rfl, hrest, h1.symm⟩

theorem defineFields_old :
    ∀ (reqs : List Request) (r0 r : Registry) (ids : List Int), Inv r0 →
      defineFields r0 reqs = .ok (ids, r) →
      ∀ (k : Nat) (f : fieldObject), r0.objs[k]? = some f →
        ∃ s t, r.objs[k]? = some (relinked f s t) := by
  intro reqs
  induction reqs with
  | nil =>
    intro r0 r ids _ h k f hk
    obtain ⟨_, hr⟩ := defineFields_nil_ok h
    subst hr
    exact ⟨f.sibling, f.fdef.ftype, hk⟩
  | cons req rest ih =>
    intro r0 r ids hinv h k f hk
    obtain ⟨d, language⟩ := req
    obtain ⟨id, r1, ids1, hd, hrest, _⟩ := defineFields_cons_ok h
    obtain ⟨name, hname, halpha, _, hstep⟩ := defineField_inv hinv hd
    obtain ⟨s1, t1, hs1, _⟩ := hstep.old k f hk
    obtain ⟨s, t, hs⟩ := ih r1 r ids1 (inv_define hinv hname halpha hstep) hrest k _ hs1
    exact ⟨s, t, hs⟩

theorem defineFields_new :
    ∀ (reqs : List Request) (r0 r : Registry) (ids : List Int), Inv r0 →
      defineFields r0 reqs = .ok (ids, r) →
      ∀ (j : Nat) (req : Request), reqs[j]? = some req →
        ∃ f, r.objs[r0.objs.length + j]? = some f ∧ f.fdef.name = req.1.name ∧
          f.language = req.2 := by
  intro reqs
  induction reqs with
  | nil =>
    intro r0 r ids _ _ j req hj
    simp at hj
  | cons req0 rest ih =>
    intro r0 r ids hinv h j req hj
    obtain ⟨d, language⟩ := req0
    obtain ⟨id, r1, ids1, hd, hrest, _⟩ := defineFields_cons_ok h
    obtain ⟨name, hname, halpha, _, hstep⟩ := defineField_inv hinv hd
    have hinv1 := inv_define hinv hname halpha hstep
    cases j with
    | zero =>
      simp only [List.getElem?_cons_zero, Option.some.injEq] at hj
      subst hj
      obtain ⟨s, t, hs⟩ := defineFields_old rest r1 r ids1 hinv1 hrest _ _ hstep.last
      refine ⟨_, hs, ?_, rfl⟩
      simp [defineFieldObject, defineFieldDefinition_name]
    | succ j =>
      simp only [List.getElem?_cons_succ] at hj
      obtain ⟨f, h1, h2, h3⟩ := ih r1 r ids1 hinv1 hrest j req hj
      refine ⟨f, ?_, h2, h3⟩
      rw [hstep.length] at h1
      have : r0.objs.length + (j + 1) = r0.objs.length + 1 + j := by omega
      rw [this]
      exact h1

theorem exists_last_holder (objs : List fieldObject) :
    ∀ (n i : Nat) (f : fieldObject), objs.length - i = n → objs[i]? = some f →
      ∃ (m : Nat) (g : fieldObject), i ≤ m ∧ objs[m]? = some g ∧ g.defAddr = f.defAddr ∧
        ∀ (m1 : Nat) (g1 : fieldObject), m < m1 → objs[m1]? = some g1 →
          g1.defAddr ≠ f.defAddr := by
  intro n
  induction n using Nat.strong_induction_on with
  | _ n ih =>
    intro i f hn hi
    by_cases h : ∃ (m1 : Nat) (g1 : fieldObject),
        i < m1 ∧ objs[m1]? = some g1 ∧ g1.defAddr = f.defAddr
    · obtain ⟨m1, g1, hlt, hg1, ha⟩ := h
      have hm1 : m1 < objs.length := (List.getElem?_eq_some_iff.1 hg1).1
      obtain ⟨m, g, hle, hg, hga, hlast⟩ := ih (objs.length - m1) (by omega) m1 g1 rfl hg1
      refine ⟨m, g, by omega, hg, hga.trans ha, ?_⟩
      intro m2 g2 hm2 hg2
      rw [← ha]
      exact hlast m2 g2 hm2 hg2
    · refine ⟨i, f, Nat.le_refl i, hi, rfl, ?_⟩
      intro m1 g1 hlt hg1 ha
      exact h ⟨m1, g1, hlt, hg1, ha⟩

/-- The id an entry records is the index of the last entry that holds the same
address. -/
theorem Inv.ftype_last {r : Registry} (hinv : Inv r) (i : Nat) (f : fieldObject)
    (hi : r.objs[i]? = some f) :
    ∃ (m : Nat) (g : fieldObject), i ≤ m ∧ r.objs[m]? = some g ∧ g.defAddr = f.defAddr ∧
      f.fdef.ftype = m ∧
      ∀ (m1 : Nat) (g1 : fieldObject), m < m1 → r.objs[m1]? = some g1 →
        g1.defAddr ≠ f.defAddr := by
  obtain ⟨m, g, hle, hg, ha, hlast⟩ := exists_last_holder r.objs _ i f rfl hi
  refine ⟨m, g, hle, hg, ha, ?_, hlast⟩
  rw [hinv.shared i m f g hi hg ha.symm]
  apply hinv.ftype m g hg
  intro m1 g1 hm1 hg1
  rw [ha]
  exact hlast m1 g1 hm1 hg1

theorem defineFields_new_address :
    ∀ (reqs : List Request) (r0 r : Registry) (ids : List Int), Inv r0 →
      defineFields r0 reqs = .ok (ids, r) →
      ∀ (j : Nat) (req : Request), reqs[j]? = some req →
        ∃ f, r.objs[r0.objs.length + j]? = some f ∧ f.defAddr = .parser req.1 := by
  intro reqs
  induction reqs with
  | nil =>
    intro r0 r ids _ _ j req hj
    simp at hj
  | cons req0 rest ih =>
    intro r0 r ids hinv h j req hj
    obtain ⟨d, language⟩ := req0
    obtain ⟨id, r1, ids1, hd, hrest, _⟩ := defineFields_cons_ok h
    obtain ⟨name, hname, halpha, _, hstep⟩ := defineField_inv hinv hd
    have hinv1 := inv_define hinv hname halpha hstep
    cases j with
    | zero =>
      simp only [List.getElem?_cons_zero, Option.some.injEq] at hj
      subst hj
      obtain ⟨s, t, hs⟩ := defineFields_old rest r1 r ids1 hinv1 hrest _ _ hstep.last
      exact ⟨_, hs, rfl⟩
    | succ j =>
      simp only [List.getElem?_cons_succ] at hj
      obtain ⟨f, h1, h2⟩ := ih r1 r ids1 hinv1 hrest j req hj
      refine ⟨f, ?_, h2⟩
      rw [hstep.length] at h1
      have : r0.objs.length + (j + 1) = r0.objs.length + 1 + j := by omega
      rw [this]
      exact h1

/-! ### Dense ids -/

/-- C1, as stated, fails when one definition object is handed to `defineField`
twice: after `initFieldObjects` the object `parserDef "note" "a note"` is
registered for the language 3 and again for the language 5; the calls return
24 and 25, and the field stored at index 24 then records the id 25, because the
second call writes the id to the same object. -/
theorem C1_ids_dense_counterexample :
    defineFields builtinRegistry sharedRequests = .ok ([24, 25], sharedRun.2) ∧
    countFields sharedRun.2 = 26 ∧
    (∃ fobj, getFieldObject sharedRun.2 24 = .ok fobj ∧ fobj.fdef.ftype = 25) ∧
    ¬ (∀ (reqs : List Request) (r0 r : Registry) (ids : List Int),
        initFieldObjects Registry.start = .ok r0 →
        defineFields r0 reqs = .ok (ids, r) →
        ∀ i : Nat, (i : Int) < countFields r →
          ∃ fobj, getFieldObject r (i : Int) = .ok fobj ∧ fobj.fdef.ftype = i) := by
  refine ⟨rfl, rfl, ⟨_, rfl, rfl⟩, ?_⟩
  intro h
  obtain ⟨fobj, hget, hft⟩ := h sharedRequests builtinRegistry sharedRun.2 [24, 25] rfl rfl 24
    (by decide)
  have hget1 : getFieldObject sharedRun.2 ((24 : Nat) : Int) = .ok sharedRun.2.objs[24] := rfl
  rw [hget1] at hget
  injection hget with hget
  rw [← hget] at hft
  revert hft
  decide

/-- C1, amended: after `initFieldObjects` and `n` successful `defineField`
calls, `countFields` is `24 + n`, the call number `j + 1` returned `24 + j`, which
is the value `countFields` had just before it (a further call returns the
current `countFields` and raises it by one), and the entry at every index `i`
below `countFields` records as id the index of the last entry that holds the
address of the same definition object.  So it records `i` itself when no later
entry holds that address: for every built-in field, and for every field when
each call handed in a definition object of its own. -/
theorem C1_ids_dense (reqs : List Request) (r0 r : Registry) (ids : List Int)
    (hinit : initFieldObjects Registry.start = .ok r0)
    (hrun : defineFields r0 reqs = .ok (ids, r)) :
    countFields r0 = 24 ∧
    countFields r = 24 + (reqs.length : Int) ∧
    ids.length = reqs.length ∧
    (∀ j, j < reqs.length → ids[j]? = some (24 + (j : Int))) ∧
    (∀ (d : fieldDefinition) (language id : Int) (r1 : Registry),
      defineField r (some d) language = .ok (id, r1) →
        id = countFields r ∧ countFields r1 = countFields r + 1) ∧
    (∀ i : Nat, (i : Int) < countFields r →
      ∃ fobj, getFieldObject r (i : Int) = .ok fobj ∧
        (∃ (m : Nat) (g : fieldObject), i ≤ m ∧ r.objs[m]? = some g ∧
          g.defAddr = fobj.defAddr ∧ fobj.fdef.ftype = m ∧
          ∀ (m1 : Nat) (g1 : fieldObject), m < m1 → r.objs[m1]? = some g1 →
            g1.defAddr ≠ fobj.defAddr) ∧
        ((∀ (m : Nat) (g : fieldObject), i < m → r.objs[m]? = some g →
          g.defAddr ≠ fobj.defAddr) → fobj.fdef.ftype = i) ∧
        (i < 24 → fobj.fdef.ftype = i)) ∧
    ((reqs.map fun q => q.1).Nodup →
      ∀ i : Nat, (i : Int) < countFields r →
        ∃ fobj, getFieldObject r (i : Int) = .ok fobj ∧ fobj.fdef.ftype = i) := by
  rw [initFieldObjects_start] at hinit
  injection hinit with hinit
  subst hinit
  obtain ⟨hinv, hlen, hids, hall⟩ := defineFields_spec reqs builtinRegistry r ids inv_init hrun
  have h24 : builtinRegistry.objs.length = 24 := rfl
  rw [h24] at hlen hall
  refine ⟨rfl, ?_, hids, ?_, ?_, ?_, ?_⟩
  · simp [countFields, Registry.fieldObjectUsed, hlen]
  · intro j hj
    rw [hall j hj]
    rfl
  · intro d language id r1 hd
    obtain ⟨name, _, _, hid, hstep⟩ := defineField_inv hinv hd
    refine ⟨hid, ?_⟩
    simp [countFields, Registry.fieldObjectUsed, hstep.length]
  · intro i hi
    have hi1 : i < r.objs.length := by
      simpa [countFields, Registry.fieldObjectUsed] using hi
    have hget := List.getElem?_eq_getElem hi1
    exact ⟨r.objs[i], getFieldObject_of_lt r i hi1, hinv.ftype_last i _ hget,
      hinv.ftype i _ hget, hinv.ftype_of_lt i _ hget⟩
  · intro hnodup i hi
    have hi1 : i < r.objs.length := by
      simpa [countFields, Registry.fieldObjectUsed] using hi
    have hget := List.getElem?_eq_getElem hi1
    refine ⟨r.objs[i], getFieldObject_of_lt r i hi1, ?_⟩
    by_cases hlt : i < 24
    · exact hinv.ftype_of_lt i _ hget hlt
    · apply hinv.ftype i _ hget
      intro m g hm hg ha
      have hm1 : m < r.objs.length := (List.getElem?_eq_some_iff.1 hg).1
      have hji : i - 24 < reqs.length := by omega
      have hjm : m - 24 < reqs.length := by omega
      obtain ⟨f1, hf1, ha1⟩ := defineFields_new_address reqs builtinRegistry r ids inv_init hrun
        (i - 24) reqs[i - 24] (List.getElem?_eq_getElem hji)
      obtain ⟨g1, hg1, ha2⟩ := defineFields_new_address reqs builtinRegistry r ids inv_init hrun
        (m - 24) reqs[m - 24] (List.getElem?_eq_getElem hjm)
      rw [h24, show 24 + (i - 24) = i by omega, hget] at hf1
      rw [h24, show 24 + (m - 24) = m by omega, hg] at hg1
      rw [← Option.some.inj hf1] at ha1
      rw [← Option.some.inj hg1] at ha2
      rw [ha1, ha2] at ha
      have heq : reqs[m - 24].1 = reqs[i - 24].1 := defAddress.parser.inj ha
      have hinj := List.nodup_iff_injective_get.1 hnodup
      have hidx := @hinj ⟨m - 24, by simpa using hjm⟩ ⟨i - 24, by simpa using hji⟩
        (by simpa using heq)
      have : m - 24 = i - 24 := by simpa using congrArg Fin.val hidx
      omega

theorem C1_ids_dense_witness :
    countFields builtinRegistry = 24 ∧
    countFields noteRun.2 = 24 + (noteRequests.length : Int) ∧
    noteRun.1.length = noteRequests.length ∧
    (∀ j, j < noteRequests.length → noteRun.1[j]? = some (24 + (j : Int))) ∧
    (∀ (d : fieldDefinition) (language id : Int) (r1 : Registry),
      defineField noteRun.2 (some d) language = .ok (id, r1) →
        id = countFields noteRun.2 ∧ countFields r1 = countFields noteRun.2 + 1) ∧
    (∀ i : Nat, (i : Int) < countFields noteRun.2 →
      ∃ fobj, getFieldObject noteRun.2 (i : Int) = .ok fobj ∧
        (∃ (m : Nat) (g : fieldObject), i ≤ m ∧ noteRun.2.objs[m]? = some g ∧
          g.defAddr = fobj.defAddr ∧ fobj.fdef.ftype = m ∧
          ∀ (m1 : Nat) (g1 : fieldObject), m < m1 → noteRun.2.objs[m1]? = some g1 →
            g1.defAddr ≠ fobj.defAddr) ∧
        ((∀ (m : Nat) (g : fieldObject), i < m → noteRun.2.objs[m]? = some g →
          g.defAddr ≠ fobj.defAddr) → fobj.fdef.ftype = i) ∧
        (i < 24 → fobj.fdef.ftype = i)) ∧
    ((noteRequests.map fun q => q.1).Nodup →
      ∀ i : Nat, (i : Int) < countFields noteRun.2 →
        ∃ fobj, getFieldObject noteRun.2 (i : Int) = .ok fobj ∧ fobj.fdef.ftype = i) :=
  C1_ids_dense noteRequests builtinRegistry noteRun.2 noteRun.1 rfl rfl


/-! ### Registration followed by lookup -/

theorem Extends.refl (r : Registry) : Extends r r :=
  fun _ f hk => ⟨f.sibling, f.fdef.ftype, hk⟩

theorem Extends.trans {r r1 r2 : Registry} (h1 : Extends r r1) (h2 : Extends r1 r2) :
    Extends r r2 := by
  intro k f hk
  obtain ⟨s1, t1, hs1⟩ := h1 k f hk
  obtain ⟨s2, t2, hs2⟩ := h2 k _ hs1
  exact ⟨s2, t2, hs2⟩

theorem DefineStep.extends {r r1 : Registry} {d : fieldDefinition} {language : Int}
    {name : String} (hstep : DefineStep r d language name r1) : Extends r r1 := by
  intro k f hk
  obtain ⟨s, t, hs, _⟩ := hstep.old k f hk
  exact ⟨s, t, hs⟩

theorem lookup_new_entry {r r1 r2 : Registry} {d : fieldDefinition} {language : Int}
    {name : String} (hname : d.name = some name) (hstep : DefineStep r d language name r1)
    (hext : Extends r1 r2) (wanted : Int)
    (hnew : wanted = LANG_AUTO ∨ language = wanted)
    (hfresh : ∀ f ∈ r.objs,
      ¬ (f.fdef.name = some name ∧ (wanted = LANG_AUTO ∨ f.language = wanted))) :
    (getFieldTypeForNameAndLanguage noParserInit r2 (some name) wanted).1
      = (r.objs.length : Int) := by
  rw [lookup_noParserInit]
  obtain ⟨s, t, hs⟩ := hext _ _ hstep.last
  rw [findFrom_first _ r2.objs 0 r.objs.length _ hs]
  · simp
  · simp only [nameMatches, decide_eq_true_eq]
    refine ⟨?_, hnew⟩
    simp [defineFieldObject, defineFieldDefinition_name, hname]
  · intro j g hj hg
    obtain ⟨s0, t0, hs0⟩ := hstep.extends.trans hext j r.objs[j] (List.getElem?_eq_getElem hj)
    rw [hs0] at hg
    have hg1 := Option.some.inj hg
    subst hg1
    have := hfresh r.objs[j] (List.getElem_mem hj)
    simpa [nameMatches] using this

/-- The round trip of registration and lookup with the freshness condition read
through the test of the lookup loop, which takes the all-languages value
`LANG_AUTO` for any owner. -/
theorem round_trip_lookup (r r1 : Registry) (d : fieldDefinition) (n : String) (language id : Int)
    (hr : Reachable r) (hname : d.name = some n)
    (hdef : defineField r (some d) language = .ok (id, r1))
    (hfresh : ∀ f ∈ r.objs,
      ¬ (f.fdef.name = some n ∧ (language = LANG_AUTO ∨ f.language = language))) :
    n.data.all isalpha = true ∧
    (getFieldTypeForNameAndLanguage noParserInit r1 (some n) language).1 = id ∧
    ∀ (reqs : List Request) (ids : List Int) (r2 : Registry),
      defineFields r1 reqs = .ok (ids, r2) →
        (getFieldTypeForNameAndLanguage noParserInit r2 (some n) language).1 = id := by
  have hinv := reachable_inv hr
  obtain ⟨name, hname1, halpha, hid, hstep⟩ := defineField_inv hinv hdef
  have hnn : name = n := by
    rw [hname] at hname1
    exact (Option.some.inj hname1).symm
  subst hnn
  have hinv1 := inv_define hinv hname halpha hstep
  refine ⟨halpha, ?_, ?_⟩
  · rw [hid]
    exact lookup_new_entry hname hstep (Extends.refl r1) language (Or.inr rfl) hfresh
  · intro reqs ids r2 hrun
    rw [hid]
    exact lookup_new_entry hname hstep (defineFields_old reqs r1 r2 ids hinv1 hrun) language
      (Or.inr rfl) hfresh

/-- C3: if `defineField` succeeds on a reachable registry for a definition
named `n` (then all-alphabetic) and the owning language `L`, and no earlier
field has both the name `n` and the owning language `L`, then the lookup of
`(n, L)` returns the new id, and it still does after any further successful
`defineField` calls.  The parser initialisation is taken to leave the registry
unchanged.  An owning language is a language or the no-owner value, not
`LANG_AUTO`, which is the all-languages value of the lookup. -/
theorem C3_round_trip (r r1 : Registry) (d : fieldDefinition) (n : String) (language id : Int)
    (hr : Reachable r) (hname : d.name = some n) (hlang : language ≠ LANG_AUTO)
    (hdef : defineField r (some d) language = .ok (id, r1))
    (hfresh : ∀ f ∈ r.objs, ¬ (f.fdef.name = some n ∧ f.language = language)) :
    n.data.all isalpha = true ∧
    (getFieldTypeForNameAndLanguage noParserInit r1 (some n) language).1 = id ∧
    ∀ (reqs : List Request) (ids : List Int) (r2 : Registry),
      defineFields r1 reqs = .ok (ids, r2) →
        (getFieldTypeForNameAndLanguage noParserInit r2 (some n) language).1 = id :=
  round_trip_lookup r r1 d n language id hr hname hdef
    (fun f hf h => hfresh f hf ⟨h.1, h.2.resolve_left hlang⟩)

theorem C3_round_trip_witness :
    "note".data.all isalpha = true ∧
    (getFieldTypeForNameAndLanguage noParserInit
      (okOr (defineField builtinRegistry (some (parserDef "note" "a note")) 3)
        (FIELD_UNKNOWN, Registry.start)).2 (some "note") 3).1 = 24 ∧
    ∀ (reqs : List Request) (ids : List Int) (r2 : Registry),
      defineFields (okOr (defineField builtinRegistry (some (parserDef "note" "a note")) 3)
        (FIELD_UNKNOWN, Registry.start)).2 reqs = .ok (ids, r2) →
        (getFieldTypeForNameAndLanguage noParserInit r2 (some "note") 3).1 = 24 :=
  C3_round_trip builtinRegistry _ (parserDef "note" "a note") "note" 3 24
    (Reachable.init rfl) rfl (by decide) rfl (by decide)

/-! ### One name, two languages -/

theorem nextSiblingField_of_getElem? (r : Registry) (k : Nat) (f : fieldObject)
    (hk : r.objs[k]? = some f) : nextSiblingField r (k : Int) = .ok f.sibling := by
  have h1 : (0 : Int) ≤ (k : Int) := Int.ofNat_nonneg k
  simp only [nextSiblingField, fieldObjectAt, h1, if_true, Int.toNat_ofNat, hk]

theorem defineFields_entry_name {reqs : List Request} {r1 r : Registry} {ids : List Int}
    (hinv : Inv r1) (hrun : defineFields r1 reqs = .ok (ids, r)) (k : Nat) (f : fieldObject)
    (hk : r.objs[k]? = some f) (hge : r1.objs.length ≤ k) :
    ∃ req ∈ reqs, f.fdef.name = req.1.name := by
  obtain ⟨_, hlen, _, _⟩ := defineFields_spec reqs r1 r ids hinv hrun
  have hlt : k < r.objs.length := (List.getElem?_eq_some_iff.1 hk).1
  have hj : k - r1.objs.length < reqs.length := by omega
  obtain ⟨g, hg1, hg2, _⟩ := defineFields_new reqs r1 r ids hinv hrun (k - r1.objs.length)
    reqs[k - r1.objs.length] (List.getElem?_eq_getElem hj)
  have hidx : r1.objs.length + (k - r1.objs.length) = k := by omega
  rw [hidx, hk] at hg1
  have := Option.some.inj hg1
  subst this
  exact ⟨_, List.getElem_mem hj, hg2⟩

/-- C5: let two definitions named `n`, a name no earlier field carries, be
registered for the languages `L1` and then `L2`, two different languages
(registrations of other names may lie in between).  Then the lookup of
`(n, L1)` returns the first id, the lookup of `(n, L2)` the second id, the
all-languages lookup, the one with `LANG_AUTO`, the first id, and
`nextSiblingField` of the first id is the second id.  The second owner is a
language, so it is not the all-languages value `LANG_AUTO` of the lookup. -/
theorem C5_two_languages (r0 r1 rm r2 : Registry) (d1 d2 : fieldDefinition) (n : String)
    (L1 L2 id1 id2 : Int) (mid : List Request) (mids : List Int)
    (hr : Reachable r0) (hn1 : d1.name = some n) (hn2 : d2.name = some n)
    (hfresh : ∀ f ∈ r0.objs, f.fdef.name ≠ some n)
    (hne : L1 ≠ L2) (hauto : L2 ≠ LANG_AUTO)
    (h1 : defineField r0 (some d1) L1 = .ok (id1, r1))
    (hmid : defineFields r1 mid = .ok (mids, rm))
    (hmidn : ∀ req ∈ mid, req.1.name ≠ some n)
    (h2 : defineField rm (some d2) L2 = .ok (id2, r2)) :
    (getFieldTypeForNameAndLanguage noParserInit r2 (some n) L1).1 = id1 ∧
    (getFieldTypeForNameAndLanguage noParserInit r2 (some n) L2).1 = id2 ∧
    (getFieldTypeForNameAndLanguage noParserInit r2 (some n) LANG_AUTO).1 = id1 ∧
    nextSiblingField r2 id1 = .ok id2 ∧ id1 < id2 := by
  have hinv0 := reachable_inv hr
  obtain ⟨name1, hname1, halpha, hid1, hstep1⟩ := defineField_inv hinv0 h1
  have e1 : name1 = n := by
    rw [hn1] at hname1
    exact (Option.some.inj hname1).symm
  subst e1
  have hinv1 := inv_define hinv0 hn1 halpha hstep1
  obtain ⟨hinvm, hlenm, _, _⟩ := defineFields_spec mid r1 rm mids hinv1 hmid
  have hext1m : Extends r1 rm := defineFields_old mid r1 rm mids hinv1 hmid
  obtain ⟨name2, hname2, _, hid2, hstep2⟩ := defineField_inv hinvm h2
  have e2 : name2 = name1 := by
    rw [hn2] at hname2
    exact (Option.some.inj hname2).symm
  subst e2
  have hinv2 := inv_define hinvm hn2 halpha hstep2
  have hext12 : Extends r1 r2 := hext1m.trans hstep2.extends
  have hlen1 := hstep1.length
  -- the entries of the registry before the second registration
  have hmids : ∀ (k : Nat) (g : fieldObject), rm.objs[k]? = some g →
      g.fdef.name = some name2 → k = r0.objs.length ∧ g.language = L1 := by
    intro k g hk hg
    by_cases hlt : k < r0.objs.length
    · exfalso
      obtain ⟨s, t, hs⟩ := hstep1.extends.trans hext1m k r0.objs[k] (List.getElem?_eq_getElem hlt)
      rw [hs] at hk
      have := Option.some.inj hk
      subst this
      exact hfresh r0.objs[k] (List.getElem_mem hlt) hg
    · by_cases hkn : k = r0.objs.length
      · subst hkn
        obtain ⟨s, t, hs⟩ := hext1m _ _ hstep1.last
        rw [hs] at hk
        have := Option.some.inj hk
        subst this
        exact ⟨rfl, rfl⟩
      · exfalso
        obtain ⟨req, hreq, hnm⟩ := defineFields_entry_name hinv1 hmid k g hk (by omega)
        rw [hg] at hnm
        exact hmidn req hreq hnm.symm
  refine ⟨?_, ?_, ?_, ?_, ?_⟩
  · rw [hid1]
    exact lookup_new_entry hn1 hstep1 hext12 L1 (Or.inr rfl)
      (fun f hf h => hfresh f hf h.1)
  · rw [hid2]
    refine lookup_new_entry hn2 hstep2 (Extends.refl r2) L2 (Or.inr rfl) ?_
    intro f hf h
    obtain ⟨k, hk⟩ := List.mem_iff_getElem?.1 hf
    obtain ⟨_, hl⟩ := hmids k f hk h.1
    rcases h.2 with h3 | h3
    · exact hauto h3
    · exact hne (hl.symm.trans h3)
  · rw [hid1]
    exact lookup_new_entry hn1 hstep1 hext12 LANG_AUTO (Or.inl rfl)
      (fun f hf h => hfresh f hf h.1)
  · rw [hid1, hid2]
    obtain ⟨s, t, hs⟩ := hext12 _ _ hstep1.last
    rw [nextSiblingField_of_getElem? r2 _ _ hs]
    have hsib := hinv2.sibling _ _ hs
    rw [hsib]
    unfold nextNamed
    have hnm : (defineFieldObject d1 name2 r0.objs.length L1).fdef.name = some name2 := by
      simp [defineFieldObject, defineFieldDefinition_name, hn1]
    simp only [hnm]
    have hidx : r0.objs.length + 1 + (rm.objs.length - (r0.objs.length + 1)) = rm.objs.length := by
      omega
    rw [findFrom_first _ _ (r0.objs.length + 1) (rm.objs.length - (r0.objs.length + 1))
      (defineFieldObject d2 name2 rm.objs.length L2)]
    · rw [hidx]
    · rw [List.getElem?_drop, hidx]
      exact hstep2.last
    · simp [nameMatches, defineFieldObject, defineFieldDefinition_name, hn2]
    · intro j g hj hg
      rw [List.getElem?_drop] at hg
      have hjlt : r0.objs.length + 1 + j < rm.objs.length := by omega
      obtain ⟨s0, t0, hs0⟩ := hstep2.extends _ rm.objs[r0.objs.length + 1 + j]
        (List.getElem?_eq_getElem hjlt)
      rw [hs0] at hg
      have := Option.some.inj hg
      subst this
      simp only [nameMatches, decide_eq_false_iff_not]
      intro hcon
      have := (hmids _ _ (List.getElem?_eq_getElem hjlt) hcon.1).1
      omega
  · rw [hid1, hid2]
    have : r0.objs.length < rm.objs.length := by omega
    exact_mod_cast this

theorem C5_two_languages_witness :
    (getFieldTypeForNameAndLanguage noParserInit mixedRun.2 (some "note") 3).1 = 24 ∧
    (getFieldTypeForNameAndLanguage noParserInit mixedRun.2 (some "note") 7).1 = 26 ∧
    (getFieldTypeForNameAndLanguage noParserInit mixedRun.2 (some "note") LANG_AUTO).1 = 24 ∧
    nextSiblingField mixedRun.2 24 = .ok 26 ∧ (24 : Int) < 26 :=
  C5_two_languages builtinRegistry
    (okOr (defineField builtinRegistry (some (parserDef "note" "a note")) 3)
      (FIELD_UNKNOWN, Registry.start)).2
    (okOr (defineFields builtinRegistry
      [(parserDef "note" "a note", 3), (parserDef "kind" "a kind", 5)])
      ([], Registry.start)).2
    mixedRun.2 (parserDef "note" "a note") (parserDef "note" "an annotation") "note"
    3 7 24 26 [(parserDef "kind" "a kind", 5)] [25]
    (Reachable.init rfl) rfl rfl (by decide) (by decide) (by decide) rfl rfl (by decide) rfl

/-! ### The sibling chain -/

theorem namedFrom_mem (n : String) :
    ∀ (l : List fieldObject) (i : Nat) (x : Int),
      x ∈ namedFrom n l i ↔
        ∃ (j : Nat) (f : fieldObject), x = ((i + j : Nat) : Int) ∧ l[j]? = some f ∧
          f.fdef.name = some n := by
  intro l
  induction l with
  | nil => intro i x; simp [namedFrom]
  | cons g rest ih =>
    intro i x
    have hrest : (∃ (j : Nat) (f : fieldObject), x = ((i + j : Nat) : Int) ∧
        (g :: rest)[j]? = some f ∧ f.fdef.name = some n) ↔
        ((x = (i : Int) ∧ g.fdef.name = some n) ∨ x ∈ namedFrom n rest (i + 1)) := by
      rw [ih]
      constructor
      · rintro ⟨j, f, h1, h2, h3⟩
        cases j with
        | zero =>
          simp at h2
          subst h2
          left
          exact ⟨by simpa using h1, h3⟩
        | succ j =>
          right
          refine ⟨j, f, ?_, by simpa using h2, h3⟩
          rw [h1]
          congr 1
          omega
      · rintro (⟨h1, h2⟩ | ⟨j, f, h1, h2, h3⟩)
        · exact ⟨0, g, by simpa using h1, by simp, h2⟩
        · refine ⟨j + 1, f, ?_, by simpa using h2, h3⟩
          rw [h1]
          congr 1
          omega
    rw [hrest]
    by_cases hg : g.fdef.name = some n
    · simp [namedFrom, hg]
    · simp [namedFrom, hg]

theorem namedFrom_pairwise (n : String) :
    ∀ (l : List fieldObject) (i : Nat), (namedFrom n l i).Pairwise (fun a b => a < b) := by
  intro l
  induction l with
  | nil => intro i; simp [namedFrom]
  | cons g rest ih =>
    intro i
    by_cases hg : g.fdef.name = some n
    · simp only [namedFrom, hg, if_true, List.pairwise_cons]
      refine ⟨?_, ih (i + 1)⟩
      intro x hx
      obtain ⟨j, f, h1, _, _⟩ := (namedFrom_mem n rest (i + 1) x).1 hx
      rw [h1]
      exact_mod_cast (by omega : i < i + 1 + j)
    · simp only [namedFrom, hg, if_false]
      exact ih (i + 1)

theorem namedFrom_eq_nil (n : String) :
    ∀ (l : List fieldObject) (i : Nat), (∀ f ∈ l, nameMatches n LANG_AUTO f = false) →
      namedFrom n l i = [] := by
  intro l
  induction l with
  | nil => intro i _; rfl
  | cons g rest ih =>
    intro i h
    have hg : ¬ g.fdef.name = some n := by
      have := h g (List.mem_cons_self g rest)
      simpa [nameMatches] using this
    simp only [namedFrom, hg, if_false]
    exact ih (i + 1) (fun f hf => h f (List.mem_cons_of_mem g hf))

theorem namedFrom_first (n : String) :
    ∀ (l : List fieldObject) (i j : Nat) (f : fieldObject), l[j]? = some f →
      nameMatches n LANG_AUTO f = true →
      (∀ (m : Nat) (g : fieldObject), m < j → l[m]? = some g →
        nameMatches n LANG_AUTO g = false) →
      namedFrom n l i = ((i + j : Nat) : Int) :: namedFrom n (l.drop (j + 1)) (i + j + 1) := by
  intro l
  induction l with
  | nil => intro i j f h; simp at h
  | cons g rest ih =>
    intro i j f hj hf hmin
    cases j with
    | zero =>
      simp at hj
      subst hj
      have hg : g.fdef.name = some n := by simpa [nameMatches] using hf
      simp [namedFrom, hg]
    | succ j =>
      have hg : ¬ g.fdef.name = some n := by
        have := hmin 0 g (Nat.succ_pos j) (by simp)
        simpa [nameMatches] using this
      simp only [List.getElem?_cons_succ] at hj
      have := ih (i + 1) j f hj hf
        (fun m g1 hm hg1 => hmin (m + 1) g1 (by omega) (by simpa using hg1))
      simp only [namedFrom, hg, if_false, this, List.drop_succ_cons]
      have e1 : i + 1 + j = i + (j + 1) := by omega
      rw [e1]

theorem siblingChain_from (r : Registry) (hinv : Inv r) (n : String) :
    ∀ (m k fuel : Nat), r.objs.length - k ≤ m → m < fuel →
      siblingChain r fuel (findFrom (nameMatches n LANG_AUTO) (r.objs.drop k) k)
        = some (namedFrom n (r.objs.drop k) k) := by
  intro m
  induction m with
  | zero =>
    intro k fuel hk hfuel
    have hnil : r.objs.drop k = [] := List.drop_of_length_le (by omega)
    rw [hnil]
    obtain ⟨fuel1, rfl⟩ : ∃ fuel1, fuel = fuel1 + 1 := ⟨fuel - 1, by omega⟩
    simp [siblingChain, findFrom, namedFrom]
  | succ m ih =>
    intro k fuel hk hfuel
    obtain ⟨fuel1, rfl⟩ : ∃ fuel1, fuel = fuel1 + 1 := ⟨fuel - 1, by omega⟩
    by_cases hunk : findFrom (nameMatches n LANG_AUTO) (r.objs.drop k) k = FIELD_UNKNOWN
    · rw [hunk, namedFrom_eq_nil n _ k ((findFrom_eq_unknown_iff _ _ k).1 hunk)]
      simp [siblingChain]
    · obtain ⟨j, f, h1, h2, h3, h4⟩ := findFrom_found _ _ k hunk
      rw [namedFrom_first n _ k j f h2 h3 h4, h1]
      have hidx : r.objs[k + j]? = some f := by
        rw [List.getElem?_drop] at h2
        exact h2
      have hlt : k + j < r.objs.length := (List.getElem?_eq_some_iff.1 hidx).1
      have hne : ¬ (((k + j : Nat) : Int) = FIELD_UNKNOWN) := by
        simp only [FIELD_UNKNOWN]
        omega
      have hname : f.fdef.name = some n := by
        have := h3
        simp only [nameMatches, decide_eq_true_eq] at this
        exact this.1
      have hsib : f.sibling
          = findFrom (nameMatches n LANG_AUTO) (r.objs.drop (k + j + 1)) (k + j + 1) := by
        rw [hinv.sibling (k + j) f hidx]
        unfold nextNamed
        rw [hname]
      have hdrop : List.drop (j + 1) (List.drop k r.objs) = r.objs.drop (k + j + 1) := by
        rw [List.drop_drop]
        rfl
      rw [hdrop]
      simp only [siblingChain, hne, if_false, nextSiblingField_of_getElem? r (k + j) f hidx]
      rw [hsib, ih (k + j + 1) fuel1 (by omega) (by omega)]
      rfl

/-- C6: in every reachable registry and for every name `n`, the walk that
starts at the field the all-languages lookup of `n` returns (the lowest id
carrying `n`) and follows `nextSiblingField` ends with `FIELD_UNKNOWN` within
`countFields + 1` reads, and the ids it visits are in strictly ascending order
and are exactly the ids of the fields that carry the name `n`. -/
theorem C6_sibling_chain (r : Registry) (hr : Reachable r) (n : String) (fuel : Nat)
    (hfuel : r.fieldObjectUsed < fuel) :
    ∃ ids : List Int,
      siblingChain r fuel (getFieldTypeForNameAndLanguage noParserInit r (some n) LANG_AUTO).1
        = some ids ∧
      ids.Pairwise (fun a b => a < b) ∧
      ∀ x : Int, x ∈ ids ↔
        ∃ (i : Nat) (f : fieldObject), x = (i : Int) ∧ r.objs[i]? = some f ∧
          f.fdef.name = some n := by
  have hinv := reachable_inv hr
  refine ⟨namedFrom n r.objs 0, ?_, namedFrom_pairwise n r.objs 0, ?_⟩
  · rw [lookup_noParserInit]
    have := siblingChain_from r hinv n r.objs.length 0 fuel (by omega) hfuel
    simpa using this
  · intro x
    rw [namedFrom_mem]
    simp

theorem C6_sibling_chain_witness :
    (∃ ids : List Int,
      siblingChain noteRun.2 28
          (getFieldTypeForNameAndLanguage noParserInit noteRun.2 (some "note") LANG_AUTO).1
        = some ids ∧
      ids.Pairwise (fun a b => a < b) ∧
      ∀ x : Int, x ∈ ids ↔
        ∃ (i : Nat) (f : fieldObject), x = (i : Int) ∧ noteRun.2.objs[i]? = some f ∧
          f.fdef.name = some "note") ∧
    defineFields builtinRegistry noteRequests = .ok ([24, 25, 26], noteRun.2) ∧
    nextSiblingField noteRun.2 24 = .ok 25 ∧
    nextSiblingField noteRun.2 25 = .ok 26 ∧
    nextSiblingField noteRun.2 26 = .ok FIELD_UNKNOWN ∧
    siblingChain noteRun.2 28 24 = some [24, 25, 26] :=
  ⟨C6_sibling_chain noteRun.2
    (reachable_of_defineFields noteRequests builtinRegistry noteRun.2 noteRun.1
      (Reachable.init rfl) rfl) "note" 28 (by decide), rfl, rfl, rfl, rfl, rfl⟩

/-! ### Validation of the name -/

/-- C7: on a reachable (hence initialised) registry `defineField` fails exactly
when the name of the definition is absent or contains a character that is not
alphabetic, and then by an assertion; for a definition whose name is present
and all alphabetic it succeeds, returns the id `countFields` (the id of no
earlier field), raises `countFields` by one and stores the definition, with its
name, at that id. -/
theorem C7_defineField_validation (r : Registry) (hr : Reachable r) (d : fieldDefinition)
    (language : Int) :
    ((∃ e, defineField r (some d) language = .error e) ↔
      (d.name = none ∨ ∃ n, d.name = some n ∧ ∃ c ∈ n.data, isalpha c = false)) ∧
    (∀ e, defineField r (some d) language = .error e → e = Failure.assertion) ∧
    (∀ n, d.name = some n → (∀ c ∈ n.data, isalpha c = true) →
      ∃ r1, defineField r (some d) language = .ok (countFields r, r1) ∧
        countFields r1 = countFields r + 1 ∧
        getFieldObject r (countFields r) = .error Failure.assertion ∧
        ∃ fobj, getFieldObject r1 (countFields r) = .ok fobj ∧ fobj.fdef.name = some n ∧
          fobj.language = language) := by
  have hinv := reachable_inv hr
  cases hname : d.name with
  | none =>
    have herr : defineField r (some d) language = .error Failure.assertion := by
      simp [defineField, hinv.current_name d, hname]
    refine ⟨⟨fun _ => Or.inl rfl, fun _ => ⟨_, herr⟩⟩, ?_, ?_⟩
    · intro e he
      rw [herr] at he
      injection he with he
      exact he.symm
    · intro n hn
      exact Option.noConfusion hn
  | some name =>
    by_cases halpha : name.data.all isalpha = true
    · obtain ⟨r1, hrun, hstep⟩ := defineField_run hinv d language name hname halpha
      have hall : ∀ c ∈ name.data, isalpha c = true := by simpa using halpha
      refine ⟨⟨?_, ?_⟩, ?_, ?_⟩
      · rintro ⟨e, he⟩
        rw [hrun] at he
        exact Except.noConfusion he
      · rintro (h | ⟨n, hn, c, hc, hcf⟩)
        · exact Option.noConfusion h
        · have := Option.some.inj hn
          subst this
          rw [hall c hc] at hcf
          exact Bool.noConfusion hcf
      · intro e he
        rw [hrun] at he
        exact Except.noConfusion he
      · intro n hn _
        have := Option.some.inj hn
        subst this
        refine ⟨r1, hrun, ?_, ?_, ?_⟩
        · simp [countFields, Registry.fieldObjectUsed, hstep.length]
        · simp [getFieldObject, countFields, Registry.fieldObjectUsed]
        · have hlt : r.objs.length < r1.objs.length := by rw [hstep.length]; omega
          have hget := getFieldObject_of_lt r1 r.objs.length hlt
          have hlast := hstep.last
          rw [List.getElem?_eq_getElem hlt] at hlast
          have hl := Option.some.inj hlast
          refine ⟨_, hget, ?_, ?_⟩
          · rw [hl]
            simp [defineFieldObject, defineFieldDefinition_name, hname]
          · rw [hl]
            rfl
    · have herr : defineField r (some d) language = .error Failure.assertion := by
        simp [defineField, hinv.current_name d, hname, halpha]
      have hex : ∃ c ∈ name.data, isalpha c = false := by
        have : name.data.all isalpha = false := by simpa using halpha
        rw [List.all_eq_false] at this
        obtain ⟨c, hc, hcf⟩ := this
        exact ⟨c, hc, by simpa using hcf⟩
      refine ⟨⟨fun _ => Or.inr ⟨name, rfl, hex⟩, fun _ => ⟨_, herr⟩⟩, ?_, ?_⟩
      · intro e he
        rw [herr] at he
        injection he with he
        exact he.symm
      · intro n hn hall
        exfalso
        have := Option.some.inj hn
        subst this
        apply halpha
        simpa using hall

theorem C7_defineField_validation_witness :
    ((∃ e, defineField noteRun.2 (some (parserDef "no-te" "a note")) 3 = .error e) ↔
      ((parserDef "no-te" "a note").name = none ∨
        ∃ n, (parserDef "no-te" "a note").name = some n ∧ ∃ c ∈ n.data, isalpha c = false)) ∧
    (∀ e, defineField noteRun.2 (some (parserDef "no-te" "a note")) 3 = .error e →
      e = Failure.assertion) ∧
    (∀ n, (parserDef "no-te" "a note").name = some n → (∀ c ∈ n.data, isalpha c = true) →
      ∃ r1, defineField noteRun.2 (some (parserDef "no-te" "a note")) 3
          = .ok (countFields noteRun.2, r1) ∧
        countFields r1 = countFields noteRun.2 + 1 ∧
        getFieldObject noteRun.2 (countFields noteRun.2) = .error Failure.assertion ∧
        ∃ fobj, getFieldObject r1 (countFields noteRun.2) = .ok fobj ∧
          fobj.fdef.name = some n ∧ fobj.language = 3) :=
  C7_defineField_validation noteRun.2
    (reachable_of_defineFields noteRequests builtinRegistry noteRun.2 noteRun.1
      (Reachable.init rfl) rfl) (parserDef "no-te" "a note") 3

/-! ### Rendering -/

theorem fieldObjectAt_of_getElem? (r : Registry) (k : Nat) (f : fieldObject)
    (hk : r.objs[k]? = some f) : fieldObjectAt r (k : Int) = .ok f := by
  have h1 : (0 : Int) ≤ (k : Int) := Int.ofNat_nonneg k
  simp only [fieldObjectAt, h1, if_true, Int.toNat_ofNat, hk]

theorem Inv.fieldObjectAt_builtin {r : Registry} (hinv : Inv r) (k : Nat)
    (h : k < builtinObjects.length) :
    ∃ s, fieldObjectAt r (k : Int) = .ok { builtinObjects[k] with sibling := s } := by
  obtain ⟨s, hs⟩ := hinv.builtin k builtinObjects[k] (List.getElem?_eq_getElem h)
  exact ⟨s, fieldObjectAt_of_getElem? r k _ hs⟩

theorem renderField_name (env : Env) (r : Registry) (hr : Reachable r) (tag : tagEntryInfo) :
    renderField env r 0 (some tag) NO_PARSER_FIELD = renderEscapedName env true tag.name tag "" := by
  obtain ⟨s, hs⟩ := (reachable_inv hr).fieldObjectAt_builtin 0 (by decide)
  have hs0 : fieldObjectAt r 0 = .ok { builtinObjects[0] with sibling := s } := hs
  have hneg : NO_PARSER_FIELD < 0 := by decide
  have hnn : ¬ (0 ≤ NO_PARSER_FIELD) := by decide
  simp only [renderField, renderFieldCommon, hneg, true_or, if_true, parserFieldValue, hnn,
    if_false, hs0]
  rfl

/-- C8: the escaping render of the name field (id 0) of a reachable registry.
For a tag that is not a pseudo-tag and whose name is a space followed by
`rest`, the result is the four characters backslash, `x`, `2`, `0` followed by
the escaping of `rest`; with an exclamation mark in place of the space it is
backslash, `x`, `2`, `1` followed by the escaping of `rest`; so the result
starts with a backslash, not with a space or an exclamation mark.  For a
pseudo-tag of any name the result is the escaping of the whole name. -/
theorem C8_name_leading_byte (env : Env) (r : Registry) (hr : Reachable r)
    (tag : tagEntryInfo) (rest : List Char) :
    renderField env r 0
        (some { tag with name := String.mk (' ' :: rest), isPseudoTag := false }) NO_PARSER_FIELD
      = .ok (some ("\\x20" ++ env.escape (String.mk rest))) ∧
    ("\\x20" ++ env.escape (String.mk rest)).data
      = '\\' :: 'x' :: '2' :: '0' :: (env.escape (String.mk rest)).data ∧
    renderField env r 0
        (some { tag with name := String.mk ('!' :: rest), isPseudoTag := false }) NO_PARSER_FIELD
      = .ok (some ("\\x21" ++ env.escape (String.mk rest))) ∧
    ("\\x21" ++ env.escape (String.mk rest)).data
      = '\\' :: 'x' :: '2' :: '1' :: (env.escape (String.mk rest)).data ∧
    (∀ name : String,
      renderField env r 0 (some { tag with name := name, isPseudoTag := true }) NO_PARSER_FIELD
        = .ok (some (env.escape name))) := by
  refine ⟨?_, rfl, ?_, rfl, ?_⟩
  · rw [renderField_name env r hr]
    simp [renderEscapedName, renderEscapedString, vStringCatSWithEscaping]
  · rw [renderField_name env r hr]
    simp [renderEscapedName, renderEscapedString, vStringCatSWithEscaping]
  · intro name
    rw [renderField_name env r hr]
    unfold renderEscapedName
    split <;> simp [renderEscapedString, vStringCatSWithEscaping]

theorem C8_name_leading_byte_witness :
    renderField sampleEnv noteRun.2 0
        (some { sampleTag "" false "" with
                name := String.mk (' ' :: "main".data), isPseudoTag := false })
        NO_PARSER_FIELD
      = .ok (some ("\\x20" ++ sampleEnv.escape (String.mk "main".data))) ∧
    ("\\x20" ++ sampleEnv.escape (String.mk "main".data)).data
      = '\\' :: 'x' :: '2' :: '0' :: (sampleEnv.escape (String.mk "main".data)).data ∧
    renderField sampleEnv noteRun.2 0
        (some { sampleTag "" false "" with
                name := String.mk ('!' :: "main".data), isPseudoTag := false })
        NO_PARSER_FIELD
      = .ok (some ("\\x21" ++ sampleEnv.escape (String.mk "main".data))) ∧
    ("\\x21" ++ sampleEnv.escape (String.mk "main".data)).data
      = '\\' :: 'x' :: '2' :: '1' :: (sampleEnv.escape (String.mk "main".data)).data ∧
    (∀ name : String,
      renderField sampleEnv noteRun.2 0
          (some { sampleTag "" false "" with name := name, isPseudoTag := true })
          NO_PARSER_FIELD
        = .ok (some (sampleEnv.escape name))) :=
  C8_name_leading_byte sampleEnv noteRun.2
    (reachable_of_defineFields noteRequests builtinRegistry noteRun.2 noteRun.1
      (Reachable.init rfl) rfl) (sampleTag "" false "") "main".data

/-! ### Unsafe characters -/

theorem strpbrkList_isSome (accept : List Char) :
    ∀ l : List Char, (strpbrkList accept l).isSome = true ↔ ∃ c ∈ l, c ∈ accept := by
  intro l
  induction l with
  | nil => simp [strpbrkList]
  | cons c cs ih =>
    by_cases hc : c ∈ accept
    · simp only [strpbrkList, hc, if_true, Option.isSome_some, true_iff]
      exact ⟨c, List.mem_cons_self c cs, hc⟩
    · simp only [strpbrkList, hc, if_false, ih]
      constructor
      · rintro ⟨x, hx, hxa⟩
        exact ⟨x, List.mem_cons_of_mem c hx, hxa⟩
      · rintro ⟨x, hx, hxa⟩
        rcases List.mem_cons.1 hx with h | h
        · subst h
          exact absurd hxa hc
        · exact ⟨x, h, hxa⟩

theorem strpbrk_tab_newline (s : String) :
    (strpbrk s "\t\n").isSome = true ↔ hasTabOrNewline s := by
  unfold strpbrk hasTabOrNewline
  have hmap : ∀ o : Option (List Char), (o.map String.mk).isSome = o.isSome := by
    intro o
    cases o <;> rfl
  rw [hmap, strpbrkList_isSome]
  have hdata : ("\t\n" : String).data = ['\t', '\n'] := rfl
  rw [hdata]
  simp

theorem dispatch_no_parser_field (env : Env) (r : Registry) (tag : tagEntryInfo) (k : Nat)
    (fobj : fieldObject) (hk : fieldObjectAt r (k : Int) = .ok fobj)
    (fn : containsAnyCharFn) (rfn : fieldRenderer)
    (hfn : fobj.fdef.doesContainAnyChar = some fn)
    (hrfn : fobj.fdef.renderNoEscaping = some rfn) :
    doesFieldHaveTabOrNewlineChar env r (k : Int) (some tag) NO_PARSER_FIELD
        = callContainsAnyChar env fn tag none "\t\n" ∧
    renderFieldNoEscaping env r (k : Int) (some tag) NO_PARSER_FIELD
        = callRenderer env rfn tag none "" := by
  have hneg : NO_PARSER_FIELD < 0 := by decide
  have hnn : ¬ (0 ≤ NO_PARSER_FIELD) := by decide
  constructor
  · simp only [doesFieldHaveTabOrNewlineChar, hk, true_or, if_true, hfn, parserFieldValue, hnn,
      if_false]
  · simp only [renderFieldNoEscaping, renderFieldCommon, hneg, true_or, if_true,
      parserFieldValue, hnn, if_false, hk, hrfn]

theorem raw_pairs (env : Env) (tag : tagEntryInfo) (fn : containsAnyCharFn)
    (rfn : fieldRenderer)
    (h : (fn, rfn) ∈ [(containsAnyCharFn.doesContainAnyCharInName,
                        fieldRenderer.renderFieldNameNoEscape),
                      (containsAnyCharFn.doesContainAnyCharInInput,
                        fieldRenderer.renderFieldInputNoEscape),
                      (containsAnyCharFn.doesContainAnyCharInSignature,
                        fieldRenderer.renderFieldSignatureNoEscape),
                      (containsAnyCharFn.doesContainAnyCharInFieldScope,
                        fieldRenderer.renderFieldScopeNoEscape)]) :
    ∃ (b : Bool) (t : Option String),
      callContainsAnyChar env fn tag none "\t\n" = .ok b ∧
      callRenderer env rfn tag none "" = .ok t ∧
      (b = true ↔ ∃ s, t = some s ∧ hasTabOrNewline s) := by
  simp only [List.mem_cons, Prod.mk.injEq, List.mem_singleton, List.not_mem_nil, or_false] at h
  rcases h with ⟨h1, h2⟩ | ⟨h1, h2⟩ | ⟨h1, h2⟩ | ⟨h1, h2⟩
  · subst h1
    subst h2
    refine ⟨_, _, rfl, rfl, ?_⟩
    simp [doesContainAnyCharInName, strpbrk_tab_newline]
  · subst h1
    subst h2
    refine ⟨_, _, rfl, rfl, ?_⟩
    simp [doesContainAnyCharInInput, strpbrk_tab_newline]
  · subst h1
    subst h2
    refine ⟨_, _, rfl, rfl, ?_⟩
    unfold doesContainAnyCharInSignature WITH_DEFUALT_VALUE
    cases tag.extensionFields.signature with
    | none =>
      simp only [Bool.false_eq_true, Option.some.injEq, exists_eq_left', false_iff]
      unfold hasTabOrNewline
      decide
    | some sig => simp [strpbrk_tab_newline]
  · subst h1
    subst h2
    simp only [callContainsAnyChar, callRenderer, doesContainAnyCharInFieldScope,
      renderFieldScopeNoEscape, renderAsIs]
    cases (env.getTagScopeInformation tag).2 with
    | none => exact ⟨false, none, rfl, rfl, by simp⟩
    | some scope => exact ⟨_, _, rfl, rfl, by simp [strpbrk_tab_newline]⟩

theorem builtinObjects_raw_ids :
    ∀ k (h : k < builtinObjects.length),
      ((builtinObjects[k]).fdef.renderNoEscaping ≠ none ↔ k ∈ [0, 1, 12, 13, 18]) := by
  decide

theorem builtinObjects_raw_pairs :
    ∀ k (h : k < builtinObjects.length), (builtinObjects[k]).fdef.renderNoEscaping ≠ none →
      ((builtinObjects[k]).fdef.doesContainAnyChar, (builtinObjects[k]).fdef.renderNoEscaping)
        ∈ [(some containsAnyCharFn.doesContainAnyCharInName,
              some fieldRenderer.renderFieldNameNoEscape),
            (some containsAnyCharFn.doesContainAnyCharInInput,
              some fieldRenderer.renderFieldInputNoEscape),
            (some containsAnyCharFn.doesContainAnyCharInSignature,
              some fieldRenderer.renderFieldSignatureNoEscape),
            (some containsAnyCharFn.doesContainAnyCharInFieldScope,
              some fieldRenderer.renderFieldScopeNoEscape)] := by
  decide

/-- C9: in a reachable registry the built-in fields (ids below 24) that have a
raw renderer are those with the ids 0 (name), 1 (input), 12 (signature),
13 (scope, letter s) and 18 (scope, letter Z); for each of them and every tag,
`doesFieldHaveTabOrNewlineChar` and `renderFieldNoEscaping`, both called with
`NO_PARSER_FIELD`, return, and the former returns true exactly when the latter
returns a text that contains a tab or a newline (an absent text contains
none). -/
theorem C9_unsafe_chars_of_raw_text (env : Env) (r : Registry) (hr : Reachable r)
    (tag : tagEntryInfo) :
    (∀ (id : Nat) (f : fieldObject), id < 24 → r.objs[id]? = some f →
      (f.fdef.renderNoEscaping ≠ none ↔ id ∈ [0, 1, 12, 13, 18])) ∧
    (∀ id : Nat, id ∈ [0, 1, 12, 13, 18] →
      ∃ (b : Bool) (t : Option String),
        doesFieldHaveTabOrNewlineChar env r (id : Int) (some tag) NO_PARSER_FIELD = .ok b ∧
        renderFieldNoEscaping env r (id : Int) (some tag) NO_PARSER_FIELD = .ok t ∧
        (b = true ↔ ∃ s, t = some s ∧ hasTabOrNewline s)) := by
  have hinv := reachable_inv hr
  constructor
  · intro id f hlt hf
    obtain ⟨h, hfe⟩ := hinv.builtin_of_lt id f hf hlt
    rw [hfe]
    exact builtinObjects_raw_ids id h
  · intro id hid
    have hlt : id < builtinObjects.length := by
      rw [builtinObjects_length]
      simp only [List.mem_cons, List.mem_singleton, List.not_mem_nil, or_false] at hid
      omega
    obtain ⟨s, hs⟩ := hinv.fieldObjectAt_builtin id hlt
    have hpair := builtinObjects_raw_pairs id hlt ((builtinObjects_raw_ids id hlt).2 hid)
    simp only [List.mem_cons, Prod.mk.injEq, List.mem_singleton, List.not_mem_nil,
      or_false] at hpair
    rcases hpair with ⟨hfn, hrfn⟩ | ⟨hfn, hrfn⟩ | ⟨hfn, hrfn⟩ | ⟨hfn, hrfn⟩
    all_goals
      obtain ⟨h1, h2⟩ := dispatch_no_parser_field env r tag id _ hs _ _ hfn hrfn
      rw [h1, h2]
      exact raw_pairs env tag _ _ (by simp)

theorem C9_unsafe_chars_of_raw_text_witness :
    (∀ (id : Nat) (f : fieldObject), id < 24 → noteRun.2.objs[id]? = some f →
      (f.fdef.renderNoEscaping ≠ none ↔ id ∈ [0, 1, 12, 13, 18])) ∧
    (∀ id : Nat, id ∈ [0, 1, 12, 13, 18] →
      ∃ (b : Bool) (t : Option String),
        doesFieldHaveTabOrNewlineChar sampleEnv noteRun.2 (id : Int)
          (some (sampleTag "a\tb" false "")) NO_PARSER_FIELD = .ok b ∧
        renderFieldNoEscaping sampleEnv noteRun.2 (id : Int)
          (some (sampleTag "a\tb" false "")) NO_PARSER_FIELD = .ok t ∧
        (b = true ↔ ∃ s, t = some s ∧ hasTabOrNewline s)) :=
  C9_unsafe_chars_of_raw_text sampleEnv noteRun.2
    (reachable_of_defineFields noteRequests builtinRegistry noteRun.2 noteRun.1
      (Reachable.init rfl) rfl) (sampleTag "a\tb" false "")

theorem toUnsigned_lt (i n : Nat) (h : i < n) : toUnsigned (i : Int) < n := by
  unfold toUnsigned
  omega

/-- C10: for a field in range whose definition has no "contains any char"
predicate, and every tag, `doesFieldHaveTabOrNewlineChar` returns false when it
is called with `NO_PARSER_FIELD`, and when it is called with the index of an
extra-field slot of the tag it returns true exactly when the raw value of that
slot contains a tab or a newline. -/
theorem C10_default_predicate (env : Env) (r : Registry) (type : Nat) (fobj : fieldObject)
    (tag : tagEntryInfo) (hk : r.objs[type]? = some fobj)
    (hnone : fobj.fdef.doesContainAnyChar = none) :
    doesFieldHaveTabOrNewlineChar env r (type : Int) (some tag) NO_PARSER_FIELD = .ok false ∧
    ∀ (i : Nat) (slot : tagField), tag.parserFields[i]? = some slot →
      ∃ b : Bool,
        doesFieldHaveTabOrNewlineChar env r (type : Int) (some tag) (i : Int) = .ok b ∧
        (b = true ↔ hasTabOrNewline slot.value) := by
  have hat := fieldObjectAt_of_getElem? r type fobj hk
  constructor
  · simp only [doesFieldHaveTabOrNewlineChar, hat, true_or, if_true, hnone]
  · intro i slot hslot
    have hlt : i < tag.parserFields.length := (List.getElem?_eq_some_iff.1 hslot).1
    have hu : toUnsigned (i : Int) < tag.usedParserFields := toUnsigned_lt i _ hlt
    have hne : ¬ ((i : Int) = NO_PARSER_FIELD) := by
      simp only [NO_PARSER_FIELD]
      omega
    have h0 : (0 : Int) ≤ (i : Int) := Int.ofNat_nonneg i
    refine ⟨(strpbrk slot.value "\t\n").isSome, ?_, strpbrk_tab_newline slot.value⟩
    simp only [doesFieldHaveTabOrNewlineChar, hat, hu, or_true, if_true, hnone, hne, if_false,
      parserFieldValue, h0, getParserFieldForIndex, Int.toNat_ofNat, hslot,
      callContainsAnyChar, defaultDoesContainAnyChar]

theorem C10_default_predicate_witness :
    doesFieldHaveTabOrNewlineChar sampleEnv noteRun.2 ((24 : Nat) : Int)
        (some (sampleTag "main" false "a\tb")) NO_PARSER_FIELD = .ok false ∧
    ∀ (i : Nat) (slot : tagField),
      (sampleTag "main" false "a\tb").parserFields[i]? = some slot →
      ∃ b : Bool,
        doesFieldHaveTabOrNewlineChar sampleEnv noteRun.2 ((24 : Nat) : Int)
          (some (sampleTag "main" false "a\tb")) (i : Int) = .ok b ∧
        (b = true ↔ hasTabOrNewline slot.value) :=
  C10_default_predicate sampleEnv noteRun.2 24
    { defineFieldObject (parserDef "note" "a note") "note" 24 3 with sibling := 25 }
    (sampleTag "main" false "a\tb") rfl rfl


/-! ### Availability and rendering of the built-in fields -/

theorem Inv.getFieldObject_builtin {r : Registry} (hinv : Inv r) (k : Nat)
    (h : k < builtinObjects.length) :
    ∃ s, getFieldObject r (k : Int) = .ok { builtinObjects[k] with sibling := s } := by
  obtain ⟨s, hs⟩ := hinv.builtin k builtinObjects[k] (List.getElem?_eq_getElem h)
  have hlt : k < r.objs.length := (List.getElem?_eq_some_iff.1 hs).1
  refine ⟨s, ?_⟩
  rw [getFieldObject_of_lt r k hlt]
  rw [List.getElem?_eq_getElem hlt] at hs
  rw [Option.some.inj hs]

theorem renderField_builtin (env : Env) (r : Registry) (hr : Reachable r) (tag : tagEntryInfo)
    (k : Nat) (h : k < builtinObjects.length) (rfn : fieldRenderer)
    (hrfn : (builtinObjects[k]).fdef.render = some rfn) :
    renderField env r (k : Int) (some tag) NO_PARSER_FIELD = callRenderer env rfn tag none "" := by
  obtain ⟨s, hs⟩ := (reachable_inv hr).fieldObjectAt_builtin k h
  have hneg : NO_PARSER_FIELD < 0 := by decide
  have hnn : ¬ (0 ≤ NO_PARSER_FIELD) := by decide
  simp only [renderField, renderFieldCommon, hneg, true_or, if_true, parserFieldValue, hnn,
    if_false, hs, hrfn, Bool.false_eq_true]

theorem doesFieldHaveValue_builtin (env : Env) (r : Registry) (hr : Reachable r)
    (tag : tagEntryInfo) (k : Nat) (h : k < builtinObjects.length) :
    doesFieldHaveValue env r (k : Int) (some tag)
      = .ok (match (builtinObjects[k]).fdef.isValueAvailable with
              | some fn => callValueAvailable env fn tag
              | none => true) := by
  obtain ⟨s, hs⟩ := (reachable_inv hr).getFieldObject_builtin k h
  simp only [doesFieldHaveValue, hs]
  cases (builtinObjects[k]).fdef.isValueAvailable <;> rfl

theorem builtinObjects_available_ids :
    ∀ k (h : k < builtinObjects.length),
      ((builtinObjects[k]).fdef.isValueAvailable ≠ none ↔
        k ∈ [4, 5, 6, 10, 12, 14, 19, 20, 22, 23]) := by
  decide


theorem toDigitsCore_ne_nil (b : Nat) :
    ∀ (fuel n : Nat) (ds : List Char), ds ≠ [] → Nat.toDigitsCore b fuel n ds ≠ [] := by
  intro fuel
  induction fuel with
  | zero => intro n ds h; simpa [Nat.toDigitsCore] using h
  | succ fuel ih =>
    intro n ds _
    unfold Nat.toDigitsCore
    simp only
    split_ifs
    · simp
    · exact ih _ _ (by simp)

theorem toString_int_length_pos (z : Int) : 0 < (toString z).length := by
  cases z with
  | ofNat n =>
    show 0 < (Nat.repr n).length
    have hne : Nat.toDigits 10 n ≠ [] := by
      unfold Nat.toDigits Nat.toDigitsCore
      simp only
      split_ifs
      · simp
      · exact toDigitsCore_ne_nil 10 _ _ _ (by simp)
    unfold Nat.repr
    rw [List.asString, String.length]
    exact List.length_pos.2 hne
  | negSucc n =>
    show 0 < ("-" ++ toString (Nat.succ n)).length
    rw [String.length_append]
    have : ("-" : String).length = 1 := rfl
    omega

theorem renderFieldExtrasLoop_unmarked (env : Env) (tag : tagEntryInfo)
    (h : ∀ i, env.isTagExtraBitMarked tag i = false) :
    ∀ (l : List Nat) (data : String × Bool), renderFieldExtrasLoop env tag l data = data := by
  intro l
  induction l with
  | nil => intro data; rfl
  | cons i rest ih =>
    intro data
    unfold renderFieldExtrasLoop
    cases env.getXtagName i with
    | none => exact ih data
    | some name =>
      simp only [h i, Bool.false_eq_true, if_false]
      exact ih data

/-- C11, as amended: in a reachable registry, for every tag for which the field
has no value, `renderField` with `NO_PARSER_FIELD` returns the absent result
for the built-in fields end (22) and xpath (20), and for extras (19) when
`isTagExtraBitMarked` reports a bit only for a tag whose extras are available.
For access (4), file (5) and implementation (10) it returns the placeholder
text "-", for inherits (6) and signature (12) the escaping of "-", for
typeref (14) some text, and for epoch (23) it returns the decimal text of the
epoch whether or not the field has a value.  The other built-in fields have a
value for every tag. -/
theorem C11_render_without_value (env : Env) (r : Registry) (hr : Reachable r)
    (tag : tagEntryInfo) :
    (doesFieldHaveValue env r 22 (some tag) = .ok false →
      renderField env r 22 (some tag) NO_PARSER_FIELD = .ok none) ∧
    (doesFieldHaveValue env r 20 (some tag) = .ok false →
      renderField env r 20 (some tag) NO_PARSER_FIELD = .ok none) ∧
    ((∀ i, env.isTagExtraBitMarked tag i = true → isExtrasFieldAvailable tag = true) →
      doesFieldHaveValue env r 19 (some tag) = .ok false →
      renderField env r 19 (some tag) NO_PARSER_FIELD = .ok none) ∧
    (doesFieldHaveValue env r 4 (some tag) = .ok false →
      renderField env r 4 (some tag) NO_PARSER_FIELD = .ok (some "-")) ∧
    (doesFieldHaveValue env r 5 (some tag) = .ok false →
      renderField env r 5 (some tag) NO_PARSER_FIELD = .ok (some "-")) ∧
    (doesFieldHaveValue env r 10 (some tag) = .ok false →
      renderField env r 10 (some tag) NO_PARSER_FIELD = .ok (some "-")) ∧
    (doesFieldHaveValue env r 6 (some tag) = .ok false →
      renderField env r 6 (some tag) NO_PARSER_FIELD = .ok (some (env.escape "-"))) ∧
    (doesFieldHaveValue env r 12 (some tag) = .ok false →
      renderField env r 12 (some tag) NO_PARSER_FIELD = .ok (some (env.escape "-"))) ∧
    (doesFieldHaveValue env r 14 (some tag) = .ok false →
      ∃ s, renderField env r 14 (some tag) NO_PARSER_FIELD = .ok (some s)) ∧
    renderField env r 23 (some tag) NO_PARSER_FIELD
      = .ok (some (toString tag.extensionFields.epoch)) ∧
    (∀ id : Nat, id < 24 → id ∉ [4, 5, 6, 10, 12, 14, 19, 20, 22, 23] →
      doesFieldHaveValue env r (id : Int) (some tag) = .ok true) := by
  have hv := doesFieldHaveValue_builtin env r hr tag
  have hrd := renderField_builtin env r hr tag
  refine ⟨?_, ?_, ?_, ?_, ?_, ?_, ?_, ?_, ?_, ?_, ?_⟩
  · intro h
    have h1 := hv 22 (by decide)
    have h2 := hrd 22 (by decide) _ rfl
    rw [show ((22 : Nat) : Int) = 22 from rfl] at h1 h2
    rw [h1] at h
    rw [h2]
    have h3 : isEndFieldAvailable tag = false := by
      injection h
    have h4 : tag.extensionFields.endLine = 0 := by
      simpa [isEndFieldAvailable] using h3
    simp [callRenderer, renderFieldEnd, h4]
  · intro h
    have h1 := hv 20 (by decide)
    have h2 := hrd 20 (by decide) _ rfl
    rw [show ((20 : Nat) : Int) = 20 from rfl] at h1 h2
    rw [h1] at h
    rw [h2]
    have h3 : isXpathFieldAvailable env tag = false := by
      injection h
    simp only [callRenderer, renderFieldXpath]
    unfold isXpathFieldAvailable at h3
    cases hx : env.haveLibxml with
    | false => simp
    | true =>
      rw [hx] at h3
      simp only [if_true] at h3 ⊢
      cases hxp : tag.extensionFields.xpath with
      | none => rfl
      | some x => rw [hxp] at h3; exact Bool.noConfusion h3
  · intro hcons h
    have h1 := hv 19 (by decide)
    have h2 := hrd 19 (by decide) _ rfl
    rw [show ((19 : Nat) : Int) = 19 from rfl] at h1 h2
    rw [h1] at h
    rw [h2]
    have h3 : isExtrasFieldAvailable tag = false := by
      injection h
    have hun : ∀ i, env.isTagExtraBitMarked tag i = false := by
      intro i
      cases hm : env.isTagExtraBitMarked tag i with
      | false => rfl
      | true =>
        rw [hcons i hm] at h3
        exact Bool.noConfusion h3
    simp [callRenderer, renderFieldExtras, renderFieldExtrasLoop_unmarked env tag hun]
  · intro h
    have h1 := hv 4 (by decide)
    have h2 := hrd 4 (by decide) _ rfl
    rw [show ((4 : Nat) : Int) = 4 from rfl] at h1 h2
    rw [h1] at h
    rw [h2]
    have h3 : isAccessFieldAvailable tag = false := by
      injection h
    have h4 : tag.extensionFields.access = none := by
      simpa [isAccessFieldAvailable] using h3
    simp [callRenderer, renderFieldAccess, renderAsIs, WITH_DEFUALT_VALUE, h4,
      FIELD_NULL_LETTER_STRING]
  · intro h
    have h1 := hv 5 (by decide)
    have h2 := hrd 5 (by decide) _ rfl
    rw [show ((5 : Nat) : Int) = 5 from rfl] at h1 h2
    rw [h1] at h
    rw [h2]
    have h3 : isFileFieldAvailable tag = false := by
      injection h
    have h4 : tag.isFileScope = false := h3
    simp [callRenderer, renderFieldFile, renderAsIs, h4, FIELD_NULL_LETTER_STRING]
  · intro h
    have h1 := hv 10 (by decide)
    have h2 := hrd 10 (by decide) _ rfl
    rw [show ((10 : Nat) : Int) = 10 from rfl] at h1 h2
    rw [h1] at h
    rw [h2]
    have h3 : isImplementationFieldAvailable tag = false := by
      injection h
    have h4 : tag.extensionFields.implementation = none := by
      simpa [isImplementationFieldAvailable] using h3
    simp [callRenderer, renderFieldImplementation, renderAsIs, WITH_DEFUALT_VALUE, h4,
      FIELD_NULL_LETTER_STRING]
  · intro h
    have h1 := hv 6 (by decide)
    have h2 := hrd 6 (by decide) _ rfl
    rw [show ((6 : Nat) : Int) = 6 from rfl] at h1 h2
    rw [h1] at h
    rw [h2]
    have h3 : isInheritsFieldAvailable tag = false := by
      injection h
    have h4 : tag.extensionFields.inheritance = none := by
      simpa [isInheritsFieldAvailable] using h3
    simp [callRenderer, renderFieldInherits, renderEscapedString, vStringCatSWithEscaping,
      WITH_DEFUALT_VALUE, h4, FIELD_NULL_LETTER_STRING]
  · intro h
    have h1 := hv 12 (by decide)
    have h2 := hrd 12 (by decide) _ rfl
    rw [show ((12 : Nat) : Int) = 12 from rfl] at h1 h2
    rw [h1] at h
    rw [h2]
    have h3 : isSignatureFieldAvailable tag = false := by
      injection h
    have h4 : tag.extensionFields.signature = none := by
      simpa [isSignatureFieldAvailable] using h3
    simp [callRenderer, renderFieldSignature, renderEscapedString, vStringCatSWithEscaping,
      WITH_DEFUALT_VALUE, h4, FIELD_NULL_LETTER_STRING]
  · intro _
    have h2 := hrd 14 (by decide) _ rfl
    rw [show ((14 : Nat) : Int) = 14 from rfl] at h2
    rw [h2]
    simp only [callRenderer, renderFieldTyperef, renderAsIs, renderEscapedName,
      renderEscapedString]
    split_ifs
    · exact ⟨_, rfl⟩
    · split <;> simp
  · have h2 := hrd 23 (by decide) _ rfl
    rw [show ((23 : Nat) : Int) = 23 from rfl] at h2
    rw [h2]
    have hpos := toString_int_length_pos tag.extensionFields.epoch
    simp [callRenderer, renderFieldEpoch, renderAsIs, hpos]
  · intro id hlt hnot
    have hl : id < builtinObjects.length := by rw [builtinObjects_length]; exact hlt
    rw [hv id hl]
    have hnone : (builtinObjects[id]).fdef.isValueAvailable = none := by
      by_contra hne
      exact hnot ((builtinObjects_available_ids id hl).1 hne)
    rw [hnone]

theorem C11_render_without_value_witness :
    ((doesFieldHaveValue sampleEnv noteRun.2 22 (some (sampleTag "main" false "")) = .ok false →
      renderField sampleEnv noteRun.2 22 (some (sampleTag "main" false "")) NO_PARSER_FIELD
        = .ok none) ∧
    (doesFieldHaveValue sampleEnv noteRun.2 20 (some (sampleTag "main" false "")) = .ok false →
      renderField sampleEnv noteRun.2 20 (some (sampleTag "main" false "")) NO_PARSER_FIELD
        = .ok none) ∧
    ((∀ i, sampleEnv.isTagExtraBitMarked (sampleTag "main" false "") i = true →
        isExtrasFieldAvailable (sampleTag "main" false "") = true) →
      doesFieldHaveValue sampleEnv noteRun.2 19 (some (sampleTag "main" false "")) = .ok false →
      renderField sampleEnv noteRun.2 19 (some (sampleTag "main" false "")) NO_PARSER_FIELD
        = .ok none) ∧
    (doesFieldHaveValue sampleEnv noteRun.2 4 (some (sampleTag "main" false "")) = .ok false →
      renderField sampleEnv noteRun.2 4 (some (sampleTag "main" false "")) NO_PARSER_FIELD
        = .ok (some "-")) ∧
    (doesFieldHaveValue sampleEnv noteRun.2 5 (some (sampleTag "main" false "")) = .ok false →
      renderField sampleEnv noteRun.2 5 (some (sampleTag "main" false "")) NO_PARSER_FIELD
        = .ok (some "-")) ∧
    (doesFieldHaveValue sampleEnv noteRun.2 10 (some (sampleTag "main" false "")) = .ok false →
      renderField sampleEnv noteRun.2 10 (some (sampleTag "main" false "")) NO_PARSER_FIELD
        = .ok (some "-")) ∧
    (doesFieldHaveValue sampleEnv noteRun.2 6 (some (sampleTag "main" false "")) = .ok false →
      renderField sampleEnv noteRun.2 6 (some (sampleTag "main" false "")) NO_PARSER_FIELD
        = .ok (some (sampleEnv.escape "-"))) ∧
    (doesFieldHaveValue sampleEnv noteRun.2 12 (some (sampleTag "main" false "")) = .ok false →
      renderField sampleEnv noteRun.2 12 (some (sampleTag "main" false "")) NO_PARSER_FIELD
        = .ok (some (sampleEnv.escape "-"))) ∧
    (doesFieldHaveValue sampleEnv noteRun.2 14 (some (sampleTag "main" false "")) = .ok false →
      ∃ s, renderField sampleEnv noteRun.2 14 (some (sampleTag "main" false ""))
        NO_PARSER_FIELD = .ok (some s)) ∧
    renderField sampleEnv noteRun.2 23 (some (sampleTag "main" false "")) NO_PARSER_FIELD
      = .ok (some (toString (sampleTag "main" false "").extensionFields.epoch)) ∧
    (∀ id : Nat, id < 24 → id ∉ [4, 5, 6, 10, 12, 14, 19, 20, 22, 23] →
      doesFieldHaveValue sampleEnv noteRun.2 (id : Int) (some (sampleTag "main" false ""))
        = .ok true)) ∧
    doesFieldHaveValue sampleEnv noteRun.2 22 (some (sampleTag "main" false "")) = .ok false ∧
    renderField sampleEnv noteRun.2 22 (some (sampleTag "main" false "")) NO_PARSER_FIELD
      = .ok none ∧
    doesFieldHaveValue sampleEnv noteRun.2 19 (some (sampleTag "main" false "")) = .ok false ∧
    renderField sampleEnv noteRun.2 19 (some (sampleTag "main" false "")) NO_PARSER_FIELD
      = .ok none :=
  ⟨C11_render_without_value sampleEnv noteRun.2
    (reachable_of_defineFields noteRequests builtinRegistry noteRun.2 noteRun.1
      (Reachable.init rfl) rfl) (sampleTag "main" false ""), rfl, rfl, rfl, rfl⟩

/-- C11, as stated, fails: for the built-in field access (id 4) of the freshly
initialised registry and a tag without access attribute, `doesFieldHaveValue` is
false and yet `renderField` returns the text "-", not the absent result; for
epoch (id 23) and a tag whose kind is not the file kind it returns "0". -/
theorem C11_render_without_value_counterexample :
    doesFieldHaveValue sampleEnv builtinRegistry 4 (some (sampleTag "main" false ""))
      = .ok false ∧
    renderField sampleEnv builtinRegistry 4 (some (sampleTag "main" false "")) NO_PARSER_FIELD
      = .ok (some "-") ∧
    doesFieldHaveValue sampleEnv builtinRegistry 23 (some (sampleTag "main" false ""))
      = .ok false ∧
    renderField sampleEnv builtinRegistry 23 (some (sampleTag "main" false "")) NO_PARSER_FIELD
      = .ok (some "0") ∧
    ¬ (∀ (env : Env) (r : Registry) (tag : tagEntryInfo) (id : Nat), Reachable r → id < 24 →
        doesFieldHaveValue env r (id : Int) (some tag) = .ok false →
        renderField env r (id : Int) (some tag) NO_PARSER_FIELD = .ok none) := by
  have h1 : doesFieldHaveValue sampleEnv builtinRegistry 4 (some (sampleTag "main" false ""))
      = .ok false := rfl
  have h2 : renderField sampleEnv builtinRegistry 4 (some (sampleTag "main" false ""))
      NO_PARSER_FIELD = .ok (some "-") := rfl
  refine ⟨h1, h2, rfl, rfl, ?_⟩
  intro h
  have h3 := h sampleEnv builtinRegistry (sampleTag "main" false "") 4 (Reachable.init rfl)
    (by decide) h1
  have h4 : renderField sampleEnv builtinRegistry ((4 : Nat) : Int)
      (some (sampleTag "main" false "")) NO_PARSER_FIELD = .ok (some "-") := h2
  rw [h4] at h3
  injection h3 with h5
  exact Option.noConfusion h5


theorem getFieldObject_of_getElem? (r : Registry) (k : Nat) (f : fieldObject)
    (hk : r.objs[k]? = some f) : getFieldObject r (k : Int) = .ok f := by
  obtain ⟨hlt, hf⟩ := List.getElem?_eq_some_iff.1 hk
  rw [getFieldObject_of_lt r k hlt, hf]

theorem doesFieldHaveValue_of_getElem? (env : Env) (r : Registry) (k : Nat) (f : fieldObject)
    (tag : tagEntryInfo) (hk : r.objs[k]? = some f) :
    doesFieldHaveValue env r (k : Int) (some tag)
      = .ok (match f.fdef.isValueAvailable with
              | some fn => callValueAvailable env fn tag
              | none => true) := by
  simp only [doesFieldHaveValue, getFieldObject_of_getElem? r k f hk]
  cases f.fdef.isValueAvailable <;> rfl

theorem defineFieldDefinition_isValueAvailable (d : fieldDefinition) (ftype : Nat) :
    (defineFieldDefinition d ftype).isValueAvailable = d.isValueAvailable := by
  unfold defineFieldDefinition
  simp only
  split_ifs <;> rfl

/-- C12: in a reachable registry, `doesFieldHaveValue` of a field in range is
true for every tag when the definition has no availability predicate, and is
the result of the predicate otherwise.  The built-in fields name, input,
pattern, line and kind (ids 0, 1, 2, 11, 15) have none; access, inherits,
implementation and signature (4, 6, 10, 12) are available exactly when the
attribute of the tag is present, file (5) when the tag is file-scoped,
typeref (14) when both parts of the type reference are present, end (22) when
the end line is not zero, and epoch (23) when the kind of the tag is the file
kind.  A field registered by `defineField` keeps the predicate of the
definition passed, or none. -/
theorem C12_doesFieldHaveValue (env : Env) (r : Registry) (hr : Reachable r)
    (tag : tagEntryInfo) :
    (∀ (k : Nat) (f : fieldObject), r.objs[k]? = some f → f.fdef.isValueAvailable = none →
      doesFieldHaveValue env r (k : Int) (some tag) = .ok true) ∧
    (∀ (k : Nat) (f : fieldObject) (fn : valueAvailableFn), r.objs[k]? = some f →
      f.fdef.isValueAvailable = some fn →
      doesFieldHaveValue env r (k : Int) (some tag) = .ok (callValueAvailable env fn tag)) ∧
    (∀ id : Nat, id ∈ [0, 1, 2, 11, 15] →
      doesFieldHaveValue env r (id : Int) (some tag) = .ok true) ∧
    doesFieldHaveValue env r 4 (some tag) = .ok tag.extensionFields.access.isSome ∧
    doesFieldHaveValue env r 6 (some tag) = .ok tag.extensionFields.inheritance.isSome ∧
    doesFieldHaveValue env r 10 (some tag) = .ok tag.extensionFields.implementation.isSome ∧
    doesFieldHaveValue env r 12 (some tag) = .ok tag.extensionFields.signature.isSome ∧
    doesFieldHaveValue env r 5 (some tag) = .ok tag.isFileScope ∧
    doesFieldHaveValue env r 14 (some tag)
      = .ok (tag.extensionFields.typeRef0.isSome && tag.extensionFields.typeRef1.isSome) ∧
    doesFieldHaveValue env r 22 (some tag) = .ok (tag.extensionFields.endLine != 0) ∧
    doesFieldHaveValue env r 23 (some tag) = .ok (tag.kindIndex == KIND_FILE_INDEX) ∧
    (∀ (d : fieldDefinition) (language id : Int) (r1 : Registry),
      defineField r (some d) language = .ok (id, r1) →
      doesFieldHaveValue env r1 id (some tag)
        = .ok (match d.isValueAvailable with
                | some fn => callValueAvailable env fn tag
                | none => true)) := by
  have hv := doesFieldHaveValue_builtin env r hr tag
  refine ⟨?_, ?_, ?_, hv 4 (by decide), hv 6 (by decide), hv 10 (by decide),
    hv 12 (by decide), hv 5 (by decide), hv 14 (by decide), hv 22 (by decide),
    hv 23 (by decide), ?_⟩
  · intro k f hk hnone
    rw [doesFieldHaveValue_of_getElem? env r k f tag hk, hnone]
  · intro k f fn hk hsome
    rw [doesFieldHaveValue_of_getElem? env r k f tag hk, hsome]
  · intro id hid
    simp only [List.mem_cons, List.mem_singleton, List.not_mem_nil, or_false] at hid
    rcases hid with h | h | h | h | h <;> subst h
    · exact hv 0 (by decide)
    · exact hv 1 (by decide)
    · exact hv 2 (by decide)
    · exact hv 11 (by decide)
    · exact hv 15 (by decide)
  · intro d language id r1 hdef
    obtain ⟨name, _, _, hid, hstep⟩ := defineField_inv (reachable_inv hr) hdef
    rw [hid, doesFieldHaveValue_of_getElem? env r1 _ _ tag hstep.last]
    simp only [defineFieldObject, defineFieldDefinition_isValueAvailable]

theorem C12_doesFieldHaveValue_witness :
    ((∀ (k : Nat) (f : fieldObject), noteRun.2.objs[k]? = some f →
      f.fdef.isValueAvailable = none →
      doesFieldHaveValue sampleEnv noteRun.2 (k : Int) (some (sampleTag "main" false ""))
        = .ok true) ∧
    (∀ (k : Nat) (f : fieldObject) (fn : valueAvailableFn), noteRun.2.objs[k]? = some f →
      f.fdef.isValueAvailable = some fn →
      doesFieldHaveValue sampleEnv noteRun.2 (k : Int) (some (sampleTag "main" false ""))
        = .ok (callValueAvailable sampleEnv fn (sampleTag "main" false ""))) ∧
    (∀ id : Nat, id ∈ [0, 1, 2, 11, 15] →
      doesFieldHaveValue sampleEnv noteRun.2 (id : Int) (some (sampleTag "main" false ""))
        = .ok true) ∧
    doesFieldHaveValue sampleEnv noteRun.2 4 (some (sampleTag "main" false ""))
      = .ok (sampleTag "main" false "").extensionFields.access.isSome ∧
    doesFieldHaveValue sampleEnv noteRun.2 6 (some (sampleTag "main" false ""))
      = .ok (sampleTag "main" false "").extensionFields.inheritance.isSome ∧
    doesFieldHaveValue sampleEnv noteRun.2 10 (some (sampleTag "main" false ""))
      = .ok (sampleTag "main" false "").extensionFields.implementation.isSome ∧
    doesFieldHaveValue sampleEnv noteRun.2 12 (some (sampleTag "main" false ""))
      = .ok (sampleTag "main" false "").extensionFields.signature.isSome ∧
    doesFieldHaveValue sampleEnv noteRun.2 5 (some (sampleTag "main" false ""))
      = .ok (sampleTag "main" false "").isFileScope ∧
    doesFieldHaveValue sampleEnv noteRun.2 14 (some (sampleTag "main" false ""))
      = .ok ((sampleTag "main" false "").extensionFields.typeRef0.isSome
          && (sampleTag "main" false "").extensionFields.typeRef1.isSome) ∧
    doesFieldHaveValue sampleEnv noteRun.2 22 (some (sampleTag "main" false ""))
      = .ok ((sampleTag "main" false "").extensionFields.endLine != 0) ∧
    doesFieldHaveValue sampleEnv noteRun.2 23 (some (sampleTag "main" false ""))
      = .ok ((sampleTag "main" false "").kindIndex == KIND_FILE_INDEX) ∧
    (∀ (d : fieldDefinition) (language id : Int) (r1 : Registry),
      defineField noteRun.2 (some d) language = .ok (id, r1) →
      doesFieldHaveValue sampleEnv r1 id (some (sampleTag "main" false ""))
        = .ok (match d.isValueAvailable with
                | some fn => callValueAvailable sampleEnv fn (sampleTag "main" false "")
                | none => true))) ∧
    doesFieldHaveValue sampleEnv noteRun.2 24 (some (sampleTag "main" false "")) = .ok true :=
  ⟨C12_doesFieldHaveValue sampleEnv noteRun.2
    (reachable_of_defineFields noteRequests builtinRegistry noteRun.2 noteRun.1
      (Reachable.init rfl) rfl) (sampleTag "main" false ""), rfl⟩


/-! ### The renderer-exists assertion -/

theorem parserFieldValue_valid (tag : tagEntryInfo) (index : Int)
    (hidx : index < 0 ∨ (0 ≤ index ∧ index < (tag.usedParserFields : Int))) :
    (index < 0 ∨ toUnsigned index < tag.usedParserFields) ∧
      ∃ value, parserFieldValue tag index = .ok value := by
  rcases hidx with h | ⟨h0, h1⟩
  · refine ⟨Or.inl h, none, ?_⟩
    have hnn : ¬ (0 ≤ index) := by omega
    simp only [parserFieldValue, hnn, if_false]
  · have hlt : index.toNat < tag.parserFields.length := by
      have : index.toNat < tag.usedParserFields := by omega
      exact this
    refine ⟨Or.inr ?_, some (tag.parserFields[index.toNat]).value, ?_⟩
    · unfold toUnsigned
      omega
    · simp only [parserFieldValue, h0, if_true, getParserFieldForIndex,
        List.getElem?_eq_getElem hlt]

theorem renderFieldCommon_dispatch (env : Env) (r : Registry) (k : Nat) (f : fieldObject)
    (tag : tagEntryInfo) (index : Int) (noEscaping : Bool) (hk : r.objs[k]? = some f)
    (hidx : index < 0 ∨ (0 ≤ index ∧ index < (tag.usedParserFields : Int))) :
    ∃ value, parserFieldValue tag index = .ok value ∧
      renderFieldCommon env r (k : Int) (some tag) index noEscaping
        = match (if noEscaping then f.fdef.renderNoEscaping else f.fdef.render) with
          | some rfn => callRenderer env rfn tag value ""
          | none => .error Failure.assertion := by
  obtain ⟨hassert, value, hvalue⟩ := parserFieldValue_valid tag index hidx
  refine ⟨value, hvalue, ?_⟩
  simp only [renderFieldCommon, hassert, if_true, hvalue, fieldObjectAt_of_getElem? r k f hk]
  cases (if noEscaping then f.fdef.renderNoEscaping else f.fdef.render) <;> rfl

theorem builtinObjects_render :
    ∀ k (h : k < builtinObjects.length), (builtinObjects[k]).fdef.render ≠ none := by
  decide

theorem Inv.render_ne_none {r : Registry} (hinv : Inv r) (k : Nat) (f : fieldObject)
    (hk : r.objs[k]? = some f) : f.fdef.render ≠ none := by
  by_cases hlt : k < 24
  · obtain ⟨h, hf⟩ := hinv.builtin_of_lt k f hk hlt
    rw [hf]
    exact builtinObjects_render k h
  · exact (hinv.dynamic k f (by omega) hk).2.1

/-- C13: for a field in range, a tag and an index that is negative (no extra
value) or the index of a slot of the tag, `doesFieldHaveRenderer` returns
whether the renderer selected by `noEscaping` is present; `renderField` and
`renderFieldNoEscaping` pass the renderer-exists assertion and call that
renderer when it is present, and fail with the assertion when it is absent.
In a reachable registry every field has an escaping renderer, so
`doesFieldHaveRenderer (id, false)` is true and `renderField` is the call of
that renderer. -/
theorem C13_renderer_exists (env : Env) (r : Registry) (k : Nat) (f : fieldObject)
    (tag : tagEntryInfo) (index : Int) (hk : r.objs[k]? = some f)
    (hidx : index < 0 ∨ (0 ≤ index ∧ index < (tag.usedParserFields : Int))) :
    doesFieldHaveRenderer r (k : Int) false = .ok f.fdef.render.isSome ∧
    doesFieldHaveRenderer r (k : Int) true = .ok f.fdef.renderNoEscaping.isSome ∧
    (∀ rfn, f.fdef.render = some rfn →
      ∃ value, parserFieldValue tag index = .ok value ∧
        renderField env r (k : Int) (some tag) index = callRenderer env rfn tag value "") ∧
    (f.fdef.render = none →
      renderField env r (k : Int) (some tag) index = .error Failure.assertion) ∧
    (∀ rfn, f.fdef.renderNoEscaping = some rfn →
      ∃ value, parserFieldValue tag index = .ok value ∧
        renderFieldNoEscaping env r (k : Int) (some tag) index
          = callRenderer env rfn tag value "") ∧
    (f.fdef.renderNoEscaping = none →
      renderFieldNoEscaping env r (k : Int) (some tag) index = .error Failure.assertion) ∧
    (Reachable r →
      doesFieldHaveRenderer r (k : Int) false = .ok true ∧
      ∃ rfn value, f.fdef.render = some rfn ∧ parserFieldValue tag index = .ok value ∧
        renderField env r (k : Int) (some tag) index = callRenderer env rfn tag value "") := by
  have hget := getFieldObject_of_getElem? r k f hk
  obtain ⟨v1, hv1, hd1⟩ := renderFieldCommon_dispatch env r k f tag index false hk hidx
  obtain ⟨v2, hv2, hd2⟩ := renderFieldCommon_dispatch env r k f tag index true hk hidx
  simp only [Bool.false_eq_true, if_false] at hd1
  simp only [if_true] at hd2
  have hesc : ∀ rfn, f.fdef.render = some rfn →
      ∃ value, parserFieldValue tag index = .ok value ∧
        renderField env r (k : Int) (some tag) index = callRenderer env rfn tag value "" := by
    intro rfn hrfn
    refine ⟨v1, hv1, ?_⟩
    unfold renderField
    rw [hd1, hrfn]
  refine ⟨?_, ?_, hesc, ?_, ?_, ?_, ?_⟩
  · simp only [doesFieldHaveRenderer, hget, Bool.false_eq_true, if_false]
  · simp only [doesFieldHaveRenderer, hget, if_true]
  · intro hnone
    unfold renderField
    rw [hd1, hnone]
  · intro rfn hrfn
    refine ⟨v2, hv2, ?_⟩
    unfold renderFieldNoEscaping
    rw [hd2, hrfn]
  · intro hnone
    unfold renderFieldNoEscaping
    rw [hd2, hnone]
  · intro hr
    have hne := (reachable_inv hr).render_ne_none k f hk
    cases hrender : f.fdef.render with
    | none => exact absurd hrender hne
    | some rfn =>
      refine ⟨?_, ?_⟩
      · simp only [doesFieldHaveRenderer, hget, Bool.false_eq_true, if_false, hrender,
          Option.isSome_some]
      · obtain ⟨value, h1, h2⟩ := hesc rfn hrender
        exact ⟨rfn, value, rfl, h1, h2⟩


theorem C13_renderer_exists_witness :
    doesFieldHaveRenderer noteRun.2 ((2 : Nat) : Int) false
      = .ok patternObject.fdef.render.isSome ∧
    doesFieldHaveRenderer noteRun.2 ((2 : Nat) : Int) true
      = .ok patternObject.fdef.renderNoEscaping.isSome ∧
    (∀ rfn, patternObject.fdef.render = some rfn →
      ∃ value, parserFieldValue (sampleTag "main" false "") NO_PARSER_FIELD = .ok value ∧
        renderField sampleEnv noteRun.2 ((2 : Nat) : Int) (some (sampleTag "main" false ""))
          NO_PARSER_FIELD = callRenderer sampleEnv rfn (sampleTag "main" false "") value "") ∧
    (patternObject.fdef.render = none →
      renderField sampleEnv noteRun.2 ((2 : Nat) : Int) (some (sampleTag "main" false ""))
        NO_PARSER_FIELD = .error Failure.assertion) ∧
    (∀ rfn, patternObject.fdef.renderNoEscaping = some rfn →
      ∃ value, parserFieldValue (sampleTag "main" false "") NO_PARSER_FIELD = .ok value ∧
        renderFieldNoEscaping sampleEnv noteRun.2 ((2 : Nat) : Int)
          (some (sampleTag "main" false "")) NO_PARSER_FIELD
          = callRenderer sampleEnv rfn (sampleTag "main" false "") value "") ∧
    (patternObject.fdef.renderNoEscaping = none →
      renderFieldNoEscaping sampleEnv noteRun.2 ((2 : Nat) : Int)
        (some (sampleTag "main" false "")) NO_PARSER_FIELD = .error Failure.assertion) ∧
    (Reachable noteRun.2 →
      doesFieldHaveRenderer noteRun.2 ((2 : Nat) : Int) false = .ok true ∧
      ∃ rfn value, patternObject.fdef.render = some rfn ∧
        parserFieldValue (sampleTag "main" false "") NO_PARSER_FIELD = .ok value ∧
        renderField sampleEnv noteRun.2 ((2 : Nat) : Int) (some (sampleTag "main" false ""))
          NO_PARSER_FIELD = callRenderer sampleEnv rfn (sampleTag "main" false "") value "") :=
  C13_renderer_exists sampleEnv noteRun.2 2 patternObject (sampleTag "main" false "")
    NO_PARSER_FIELD rfl (Or.inl (by decide))

/-! ### The default renderer -/

theorem defineFieldDefinition_render_none (d : fieldDefinition) (ftype : Nat)
    (h : d.render = none) :
    (defineFieldDefinition d ftype).render = some fieldRenderer.defaultRenderer ∧
    (defineFieldDefinition d ftype).renderNoEscaping = none ∧
    (defineFieldDefinition d ftype).doesContainAnyChar = none := by
  unfold defineFieldDefinition
  simp only [h, if_true]
  split_ifs <;> exact ⟨rfl, rfl, rfl⟩

theorem defineFieldDefinition_render_some (d : fieldDefinition) (ftype : Nat)
    (h : d.render ≠ none) :
    (defineFieldDefinition d ftype).render = d.render ∧
    (defineFieldDefinition d ftype).renderNoEscaping = d.renderNoEscaping ∧
    (defineFieldDefinition d ftype).doesContainAnyChar = d.doesContainAnyChar := by
  unfold defineFieldDefinition
  simp only [h, if_false]
  split_ifs <;> exact ⟨rfl, rfl, rfl⟩

/-- C14: let `defineField` succeed on a reachable registry with the definition
`d` and return `id`.  If `d` has no render function, the field stored at `id`
has the default renderer, no raw renderer and no "contains any char" predicate,
whatever `d` carried for the latter two, `doesFieldHaveRenderer (id, true)` is
false, and `renderField` with the index of a slot of the tag returns the
escaping of the raw value of that slot.  If `d` has a render function, the
stored field has that render function and the raw renderer and predicate of
`d`. -/
theorem C14_default_renderer (r r1 : Registry) (d : fieldDefinition) (language id : Int)
    (hr : Reachable r) (hdef : defineField r (some d) language = .ok (id, r1)) :
    ∃ fobj, getFieldObject r1 id = .ok fobj ∧
      (d.render = none →
        fobj.fdef.render = some fieldRenderer.defaultRenderer ∧
        fobj.fdef.renderNoEscaping = none ∧
        fobj.fdef.doesContainAnyChar = none ∧
        doesFieldHaveRenderer r1 id false = .ok true ∧
        doesFieldHaveRenderer r1 id true = .ok false ∧
        ∀ (env : Env) (tag : tagEntryInfo) (i : Nat) (slot : tagField),
          tag.parserFields[i]? = some slot →
          renderField env r1 id (some tag) (i : Int) = .ok (some (env.escape slot.value))) ∧
      (∀ rfn, d.render = some rfn →
        fobj.fdef.render = some rfn ∧
        fobj.fdef.renderNoEscaping = d.renderNoEscaping ∧
        fobj.fdef.doesContainAnyChar = d.doesContainAnyChar ∧
        doesFieldHaveRenderer r1 id true = .ok d.renderNoEscaping.isSome) := by
  obtain ⟨name, _, _, hid, hstep⟩ := defineField_inv (reachable_inv hr) hdef
  have hget := getFieldObject_of_getElem? r1 _ _ hstep.last
  rw [hid]
  refine ⟨_, hget, ?_, ?_⟩
  · intro hnone
    obtain ⟨h1, h2, h3⟩ := defineFieldDefinition_render_none d r.objs.length hnone
    refine ⟨h1, h2, h3, ?_, ?_, ?_⟩
    · simp only [doesFieldHaveRenderer, hget, Bool.false_eq_true, if_false, defineFieldObject,
        h1, Option.isSome_some]
    · simp only [doesFieldHaveRenderer, hget, if_true, defineFieldObject, h2,
        Option.isSome_none]
    · intro env tag i slot hslot
      have hlt : i < tag.parserFields.length := (List.getElem?_eq_some_iff.1 hslot).1
      have hidx : (i : Int) < 0 ∨ (0 ≤ (i : Int) ∧ (i : Int) < (tag.usedParserFields : Int)) := by
        right
        exact ⟨Int.ofNat_nonneg i, by exact_mod_cast hlt⟩
      obtain ⟨value, hvalue, hd⟩ := renderFieldCommon_dispatch env r1 _ _ tag (i : Int) false
        hstep.last hidx
      have hv : value = some slot.value := by
        have h0 : (0 : Int) ≤ (i : Int) := Int.ofNat_nonneg i
        simp only [parserFieldValue, h0, if_true, getParserFieldForIndex, Int.toNat_ofNat,
          hslot] at hvalue
        injection hvalue with hvalue
        exact hvalue.symm
      unfold renderField
      rw [hd]
      simp only [Bool.false_eq_true, if_false, defineFieldObject, h1, hv, callRenderer,
        defaultRenderer, renderEscapedString, vStringCatSWithEscaping, String.empty_append]
  · intro rfn hsome
    have hne : d.render ≠ none := by rw [hsome]; simp
    obtain ⟨h1, h2, h3⟩ := defineFieldDefinition_render_some d r.objs.length hne
    refine ⟨by rw [← hsome]; exact h1, h2, h3, ?_⟩
    simp only [doesFieldHaveRenderer, hget, if_true, defineFieldObject, h2]

theorem C14_default_renderer_witness :
    ∃ fobj, getFieldObject mixedRun.2 26 = .ok fobj ∧
      ((parserDef "note" "an annotation").render = none →
        fobj.fdef.render = some fieldRenderer.defaultRenderer ∧
        fobj.fdef.renderNoEscaping = none ∧
        fobj.fdef.doesContainAnyChar = none ∧
        doesFieldHaveRenderer mixedRun.2 26 false = .ok true ∧
        doesFieldHaveRenderer mixedRun.2 26 true = .ok false ∧
        ∀ (env : Env) (tag : tagEntryInfo) (i : Nat) (slot : tagField),
          tag.parserFields[i]? = some slot →
          renderField env mixedRun.2 26 (some tag) (i : Int)
            = .ok (some (env.escape slot.value))) ∧
      (∀ rfn, (parserDef "note" "an annotation").render = some rfn →
        fobj.fdef.render = some rfn ∧
        fobj.fdef.renderNoEscaping = (parserDef "note" "an annotation").renderNoEscaping ∧
        fobj.fdef.doesContainAnyChar = (parserDef "note" "an annotation").doesContainAnyChar ∧
        doesFieldHaveRenderer mixedRun.2 26 true
          = .ok (parserDef "note" "an annotation").renderNoEscaping.isSome) :=
  C14_default_renderer
    (okOr (defineFields builtinRegistry
      [(parserDef "note" "a note", 3), (parserDef "kind" "a kind", 5)])
      ([], Registry.start)).2
    mixedRun.2 (parserDef "note" "an annotation") 7 26
    (reachable_of_defineFields
      [(parserDef "note" "a note", 3), (parserDef "kind" "a kind", 5)] builtinRegistry _ [24, 25]
      (Reachable.init rfl) rfl) rfl


/-! ### Letters of the registered fields -/

theorem getFieldLetter_of_nul (r : Registry) (k : Nat) (f : fieldObject)
    (hk : r.objs[k]? = some f) (hl : f.fdef.letter = NUL_FIELD_LETTER) :
    getFieldLetter r (k : Int) = .ok FIELD_NULL_LETTER_CHAR := by
  have h0 : f.fdef.letter = Char.ofNat 0 := hl
  simp only [getFieldLetter, getFieldObject_of_getElem? r k f hk, h0, if_true]

/-- C15: after a successful `defineField` on a reachable registry, whatever
letter the definition passed carried, the definition stored at the returned id
has the no-letter sentinel as letter and `getFieldLetter` of the returned id is
the placeholder character `-`; this holds for every field with an id from 24
on in every reachable registry. -/
theorem C15_dynamic_letter (r r1 : Registry) (d : fieldDefinition) (language id : Int)
    (hr : Reachable r) (hdef : defineField r (some d) language = .ok (id, r1)) :
    (∃ fobj, getFieldObject r1 id = .ok fobj ∧ fobj.fdef.letter = NUL_FIELD_LETTER) ∧
    getFieldLetter r1 id = .ok '-' ∧
    (∀ (k : Nat) (f : fieldObject), 24 ≤ k → r1.objs[k]? = some f →
      f.fdef.letter = NUL_FIELD_LETTER ∧ getFieldLetter r1 (k : Int) = .ok '-') := by
  obtain ⟨name, hname, halpha, hid, hstep⟩ := defineField_inv (reachable_inv hr) hdef
  have hinv1 := inv_define (reachable_inv hr) hname halpha hstep
  have hl : (defineFieldObject d name r.objs.length language).fdef.letter = NUL_FIELD_LETTER :=
    defineFieldDefinition_letter d _
  rw [hid]
  refine ⟨⟨_, getFieldObject_of_getElem? r1 _ _ hstep.last, hl⟩,
    getFieldLetter_of_nul r1 _ _ hstep.last hl, ?_⟩
  intro k f h24 hk
  have hnul := (hinv1.dynamic k f h24 hk).1
  exact ⟨hnul, getFieldLetter_of_nul r1 k f hk hnul⟩

theorem C15_dynamic_letter_witness :
    (∃ fobj, getFieldObject shadowRun.2 24 = .ok fobj ∧ fobj.fdef.letter = NUL_FIELD_LETTER) ∧
    getFieldLetter shadowRun.2 24 = .ok '-' ∧
    (∀ (k : Nat) (f : fieldObject), 24 ≤ k → shadowRun.2.objs[k]? = some f →
      f.fdef.letter = NUL_FIELD_LETTER ∧ getFieldLetter shadowRun.2 (k : Int) = .ok '-') :=
  C15_dynamic_letter builtinRegistry shadowRun.2 shadowDef LANG_AUTO 24 (Reachable.init rfl) rfl

/-- C16, as amended: in every reachable registry, for every character other
than the no-letter sentinel `getFieldTypeForOption` returns `FIELD_UNKNOWN` or
the id of a built-in field (below 24), never the id of a field registered by
`defineField`.  For the sentinel character itself it returns 24, the id of the
first field registered by `defineField`, when there is one, and
`FIELD_UNKNOWN` otherwise. -/
theorem C16_letter_addressable (r : Registry) (hr : Reachable r) :
    (∀ c : Char, c ≠ NUL_FIELD_LETTER →
      getFieldTypeForOption r c = FIELD_UNKNOWN ∨
        (0 ≤ getFieldTypeForOption r c ∧ getFieldTypeForOption r c < 24)) ∧
    (24 < r.objs.length → getFieldTypeForOption r NUL_FIELD_LETTER = 24) ∧
    (r.objs.length ≤ 24 → getFieldTypeForOption r NUL_FIELD_LETTER = FIELD_UNKNOWN) := by
  have hinv := reachable_inv hr
  have hbuiltin : ∀ (j : Nat) (g : fieldObject), j < 24 → r.objs[j]? = some g →
      g.fdef.letter ≠ NUL_FIELD_LETTER := by
    intro j g hj hg
    obtain ⟨h, hge⟩ := hinv.builtin_of_lt j g hg hj
    rw [hge]
    exact builtinObjects_letter_ne j h
  refine ⟨?_, ?_, ?_⟩
  · intro c hc
    by_cases hunk : getFieldTypeForOption r c = FIELD_UNKNOWN
    · exact Or.inl hunk
    · right
      unfold getFieldTypeForOption at hunk ⊢
      rw [getFieldTypeForOptionLoop_eq] at hunk ⊢
      obtain ⟨k, f, h1, h2, h3, _⟩ := findFrom_found _ r.objs 0 hunk
      have hl : f.fdef.letter = c := by simpa using h3
      have hk24 : k < 24 := hinv.letter_lt k f h2 (by rw [hl]; exact hc)
      rw [h1]
      constructor
      · exact Int.ofNat_nonneg _
      · have : 0 + k < 24 := by omega
        exact_mod_cast this
  · intro hlen
    unfold getFieldTypeForOption
    rw [getFieldTypeForOptionLoop_eq,
      findFrom_first _ r.objs 0 24 r.objs[24] (List.getElem?_eq_getElem hlen)]
    · rfl
    · have := (hinv.dynamic 24 r.objs[24] (Nat.le_refl 24) (List.getElem?_eq_getElem hlen)).1
      simpa using this
    · intro j g hj hg
      simpa using hbuiltin j g hj hg
  · intro hlen
    unfold getFieldTypeForOption
    rw [getFieldTypeForOptionLoop_eq, findFrom_eq_unknown_iff]
    intro f hf
    obtain ⟨k, hk⟩ := List.mem_iff_getElem?.1 hf
    have hklt : k < r.objs.length := (List.getElem?_eq_some_iff.1 hk).1
    simpa using hbuiltin k f (by omega) hk

theorem C16_letter_addressable_witness :
    (∀ c : Char, c ≠ NUL_FIELD_LETTER →
      getFieldTypeForOption noteRun.2 c = FIELD_UNKNOWN ∨
        (0 ≤ getFieldTypeForOption noteRun.2 c ∧ getFieldTypeForOption noteRun.2 c < 24)) ∧
    (24 < noteRun.2.objs.length → getFieldTypeForOption noteRun.2 NUL_FIELD_LETTER = 24) ∧
    (noteRun.2.objs.length ≤ 24 →
      getFieldTypeForOption noteRun.2 NUL_FIELD_LETTER = FIELD_UNKNOWN) :=
  C16_letter_addressable noteRun.2
    (reachable_of_defineFields noteRequests builtinRegistry noteRun.2 noteRun.1
      (Reachable.init rfl) rfl)

/-- C16, as stated, fails for the sentinel character: after `initFieldObjects`
and the three registrations of "note" (ids 24, 25, 26), `getFieldTypeForOption`
applied to the NUL character returns 24, the id of a field registered by
`defineField`. -/
theorem C16_letter_addressable_counterexample :
    defineFields builtinRegistry noteRequests = .ok ([24, 25, 26], noteRun.2) ∧
    getFieldTypeForOption noteRun.2 (Char.ofNat 0) = 24 ∧
    ¬ (∀ (r : Registry) (c : Char), Reachable r →
        getFieldTypeForOption r c = FIELD_UNKNOWN ∨
          (0 ≤ getFieldTypeForOption r c ∧ getFieldTypeForOption r c < 24)) := by
  have h1 : getFieldTypeForOption noteRun.2 (Char.ofNat 0) = 24 := by decide
  refine ⟨rfl, h1, ?_⟩
  intro h
  have h2 := h noteRun.2 (Char.ofNat 0)
    (reachable_of_defineFields noteRequests builtinRegistry noteRun.2 noteRun.1
      (Reachable.init rfl) rfl)
  rw [h1] at h2
  revert h2
  decide


/-! ### Lookup by name alone -/

theorem getFieldTypeForName_eq (initializeParser : Int → Registry → Registry) (r : Registry)
    (n : String) :
    getFieldTypeForName initializeParser r (some n)
      = (findFrom (nameMatches n LANG_IGNORE) r.objs 0, r) := by
  have h1 : ¬ (LANG_IGNORE = LANG_AUTO) := by decide
  simp only [getFieldTypeForName, getFieldTypeForNameAndLanguage, h1, false_and, if_false,
    ne_eq, not_true_eq_false, getFieldTypeForNameAndLanguageLoop_eq]

theorem builtinObjects_name_inj :
    ∀ j (hj : j < builtinObjects.length) k (hk : k < builtinObjects.length),
      (builtinObjects[j]).fdef.name ≠ none →
      (builtinObjects[j]).fdef.name = (builtinObjects[k]).fdef.name → j = k := by
  decide

theorem nameMatches_ignore (n : String) (f : fieldObject) :
    nameMatches n LANG_IGNORE f = true ↔ (f.fdef.name = some n ∧ f.language = LANG_IGNORE) := by
  have h1 : ¬ (LANG_IGNORE = LANG_AUTO) := by decide
  simp [nameMatches, h1]

/-- C17, as amended: for every registry, every parser initialisation and every
name, `getFieldTypeForName` leaves the registry unchanged and returns the
lowest id whose field has that name and has no owning language
(`LANG_IGNORE`, as the built-in fields have); it returns `FIELD_UNKNOWN` when
there is no such field, also when fields owned by a language carry the name.
In a reachable registry the name of a built-in field is looked up to the id of
that built-in field. -/
theorem C17_lookup_name_only (initializeParser : Int → Registry → Registry) (r : Registry)
    (n : String) :
    (getFieldTypeForName initializeParser r (some n)).2 = r ∧
    (getFieldTypeForName initializeParser r (some n)).1 = lookupByName r.objs (some n) LANG_IGNORE ∧
    ((getFieldTypeForName initializeParser r (some n)).1 = FIELD_UNKNOWN ↔
      ∀ f ∈ r.objs, ¬ (f.fdef.name = some n ∧ f.language = LANG_IGNORE)) ∧
    (∀ k : Nat, (getFieldTypeForName initializeParser r (some n)).1 = (k : Int) →
      ∃ f, r.objs[k]? = some f ∧ f.fdef.name = some n ∧ f.language = LANG_IGNORE ∧
        ∀ (j : Nat) (g : fieldObject), j < k → r.objs[j]? = some g →
          ¬ (g.fdef.name = some n ∧ g.language = LANG_IGNORE)) ∧
    (Reachable r → ∀ (k : Nat) (f : fieldObject), k < 24 → r.objs[k]? = some f →
      f.fdef.name = some n → (getFieldTypeForName initializeParser r (some n)).1 = (k : Int)) := by
  rw [getFieldTypeForName_eq]
  refine ⟨rfl, findFrom_eq_lookupByName r.objs n LANG_IGNORE, ?_, ?_, ?_⟩
  · simp only
    rw [findFrom_eq_unknown_iff]
    constructor
    · intro h f hf hcon
      have := h f hf
      rw [(nameMatches_ignore n f).2 hcon] at this
      exact Bool.noConfusion this
    · intro h f hf
      cases hm : nameMatches n LANG_IGNORE f with
      | false => rfl
      | true => exact absurd ((nameMatches_ignore n f).1 hm) (h f hf)
  · intro k hk
    simp only at hk
    have hne : findFrom (nameMatches n LANG_IGNORE) r.objs 0 ≠ FIELD_UNKNOWN := by
      rw [hk]
      simp [FIELD_UNKNOWN]
    obtain ⟨k1, f, h1, h2, h3, h4⟩ := findFrom_found _ r.objs 0 hne
    have hkk : k1 = k := by
      rw [hk] at h1
      simp at h1
      omega
    subst hkk
    obtain ⟨hn, hl⟩ := (nameMatches_ignore n f).1 h3
    refine ⟨f, h2, hn, hl, ?_⟩
    intro j g hj hg hcon
    have := h4 j g hj hg
    rw [(nameMatches_ignore n g).2 hcon] at this
    exact Bool.noConfusion this
  · intro hr k f hk24 hk hname
    have hinv := reachable_inv hr
    simp only
    obtain ⟨h, hfe⟩ := hinv.builtin_of_lt k f hk hk24
    have hlang : f.language = LANG_IGNORE := by
      rw [hfe]
      exact (show ∀ k (h : k < builtinObjects.length), (builtinObjects[k]).language = LANG_IGNORE
        by decide) k h
    rw [findFrom_first _ r.objs 0 k f hk ((nameMatches_ignore n f).2 ⟨hname, hlang⟩)]
    · simp
    · intro j g hj hg
      cases hm : nameMatches n LANG_IGNORE g with
      | false => rfl
      | true =>
        exfalso
        obtain ⟨hn, _⟩ := (nameMatches_ignore n g).1 hm
        obtain ⟨h1, hge⟩ := hinv.builtin_of_lt j g hg (by omega)
        have hjk := builtinObjects_name_inj j h1 k h (by
          have : g.fdef.name ≠ none := by rw [hn]; simp
          rw [hge] at this
          exact this) (by
          have h5 : g.fdef.name = f.fdef.name := by rw [hn, hname]
          rw [hge, hfe] at h5
          exact h5)
        omega

/-- C17, as stated, fails: after `initFieldObjects` and the three registrations
of "note" for the languages 3, 5 and 7, the field 24 carries the name "note",
and `getFieldTypeForName` of "note" returns `FIELD_UNKNOWN`, not 24. -/
theorem C17_lookup_name_only_counterexample :
    defineFields builtinRegistry noteRequests = .ok ([24, 25, 26], noteRun.2) ∧
    (∃ f, noteRun.2.objs[24]? = some f ∧ f.fdef.name = some "note") ∧
    (getFieldTypeForName noParserInit noteRun.2 (some "note")).1 = FIELD_UNKNOWN ∧
    ¬ (∀ (r : Registry) (n : String) (k : Nat) (f : fieldObject), Reachable r →
        r.objs[k]? = some f → f.fdef.name = some n →
        (∀ (j : Nat) (g : fieldObject), j < k → r.objs[j]? = some g → g.fdef.name ≠ some n) →
        (getFieldTypeForName noParserInit r (some n)).1 = (k : Int)) := by
  have h1 : (getFieldTypeForName noParserInit noteRun.2 (some "note")).1 = FIELD_UNKNOWN := by
    decide
  refine ⟨rfl, ⟨_, rfl, rfl⟩, h1, ?_⟩
  intro h
  have h2 := h noteRun.2 "note" 24 _
    (reachable_of_defineFields noteRequests builtinRegistry noteRun.2 noteRun.1
      (Reachable.init rfl) rfl) rfl rfl (by
      intro j g hj hg
      have hall : ∀ j (_ : j < 24), ∀ g, noteRun.2.objs[j]? = some g →
          g.fdef.name ≠ some "note" := by
        decide
      exact hall j hj g hg)
  rw [h1] at h2
  revert h2
  decide


/-! ### The empty name -/

theorem builtinObjects_name_nonempty :
    ∀ k (h : k < builtinObjects.length), (builtinObjects[k]).fdef.name ≠ some "" := by
  decide

/-- C18, as amended: in every reachable registry and for every language
argument, the lookup of an absent name returns `FIELD_UNKNOWN`, and the lookup
of the empty name returns `FIELD_UNKNOWN` provided no field carries the empty
name; that is so in every registry reached from `initFieldObjects` by
registrations of non-empty names (the built-in names are not empty). -/
theorem C18_empty_name_lookup (r : Registry) (hr : Reachable r) (language : Int) :
    (getFieldTypeForNameAndLanguage noParserInit r none language).1 = FIELD_UNKNOWN ∧
    ((∀ f ∈ r.objs, f.fdef.name ≠ some "") →
      (getFieldTypeForNameAndLanguage noParserInit r (some "") language).1 = FIELD_UNKNOWN) ∧
    (∀ (reqs : List Request) (ids : List Int),
      defineFields builtinRegistry reqs = .ok (ids, r) →
      (∀ q ∈ reqs, q.1.name ≠ some "") →
      (getFieldTypeForNameAndLanguage noParserInit r (some "") language).1
        = FIELD_UNKNOWN) := by
  have hmain : (∀ f ∈ r.objs, f.fdef.name ≠ some "") →
      (getFieldTypeForNameAndLanguage noParserInit r (some "") language).1
        = FIELD_UNKNOWN := by
    intro h
    rw [lookup_noParserInit, findFrom_eq_unknown_iff]
    intro f hf
    have := h f hf
    simp [nameMatches, this]
  refine ⟨rfl, hmain, ?_⟩
  intro reqs ids hrun hnames
  apply hmain
  intro f hf
  obtain ⟨k, hk⟩ := List.mem_iff_getElem?.1 hf
  by_cases hk24 : k < 24
  · obtain ⟨h, hfe⟩ := (reachable_inv hr).builtin_of_lt k f hk hk24
    rw [hfe]
    exact builtinObjects_name_nonempty k h
  · obtain ⟨q, hq, hname⟩ := defineFields_entry_name inv_init hrun k f hk (by
      have : builtinRegistry.objs.length = 24 := rfl
      omega)
    rw [hname]
    exact hnames q hq

theorem C18_empty_name_lookup_witness :
    (getFieldTypeForNameAndLanguage noParserInit noteRun.2 none 3).1 = FIELD_UNKNOWN ∧
    ((∀ f ∈ noteRun.2.objs, f.fdef.name ≠ some "") →
      (getFieldTypeForNameAndLanguage noParserInit noteRun.2 (some "") 3).1 = FIELD_UNKNOWN) ∧
    (∀ (reqs : List Request) (ids : List Int),
      defineFields builtinRegistry reqs = .ok (ids, noteRun.2) →
      (∀ q ∈ reqs, q.1.name ≠ some "") →
      (getFieldTypeForNameAndLanguage noParserInit noteRun.2 (some "") 3).1
        = FIELD_UNKNOWN) :=
  C18_empty_name_lookup noteRun.2
    (reachable_of_defineFields noteRequests builtinRegistry noteRun.2 noteRun.1
      (Reachable.init rfl) rfl) 3

/-- C18, as stated, fails: `defineField` accepts the definition whose name is
the empty string (it has no character that is not alphabetic) and returns 24,
and the lookup of the empty name for the language 3 then returns 24, not
`FIELD_UNKNOWN`. -/
theorem C18_empty_name_lookup_counterexample :
    defineFields builtinRegistry [(parserDef "" "a field without name text", 3)]
      = .ok ([24], emptyNameRun.2) ∧
    (getFieldTypeForNameAndLanguage noParserInit emptyNameRun.2 (some "") 3).1 = 24 ∧
    ¬ (∀ (r : Registry) (language : Int), Reachable r →
        (getFieldTypeForNameAndLanguage noParserInit r (some "") language).1
          = FIELD_UNKNOWN) := by
  have h1 : (getFieldTypeForNameAndLanguage noParserInit emptyNameRun.2 (some "") 3).1 = 24 := by
    decide
  refine ⟨rfl, h1, ?_⟩
  intro h
  have h2 := h emptyNameRun.2 3
    (reachable_of_defineFields [(parserDef "" "a field without name text", 3)] builtinRegistry
      emptyNameRun.2 emptyNameRun.1 (Reachable.init rfl) rfl)
  rw [h1] at h2
  revert h2
  decide


/-! ### Uniqueness of the pair of name and owning language -/

theorem uniquePairs_builtin : UniquePairs builtinRegistry.objs := by
  intro j k f g hj hk hne heq _
  obtain ⟨h1, hf⟩ := List.getElem?_eq_some_iff.1 (show builtinObjects[j]? = some f from hj)
  obtain ⟨h2, hg⟩ := List.getElem?_eq_some_iff.1 (show builtinObjects[k]? = some g from hk)
  subst hf
  subst hg
  exact builtinObjects_name_inj j h1 k h2 hne heq

/-- C19, as amended: `defineField` does not reject a pair of name and owning
language that is already registered.  The built-in fields that have a name have
pairwise different names; a successful `defineField` on a reachable registry
whose named fields are identified by the pair of name and owning language keeps
that property when no field of the registry has both the name of the new
definition and the new owning language, and breaks it when some field has. -/
theorem C19_unique_pairs (r r1 : Registry) (d : fieldDefinition) (language id : Int)
    (hr : Reachable r) (hdef : defineField r (some d) language = .ok (id, r1)) :
    UniquePairs builtinRegistry.objs ∧
    ((∀ f ∈ r.objs, ¬ (f.fdef.name = d.name ∧ f.language = language)) →
      UniquePairs r.objs → UniquePairs r1.objs) ∧
    ((∃ f ∈ r.objs, f.fdef.name = d.name ∧ f.language = language) →
      ¬ UniquePairs r1.objs) := by
  obtain ⟨name, hname, _, _, hstep⟩ := defineField_inv (reachable_inv hr) hdef
  have hnew : (defineFieldObject d name r.objs.length language).fdef.name = d.name := by
    simp [defineFieldObject, defineFieldDefinition_name]
  refine ⟨uniquePairs_builtin, ?_, ?_⟩
  · intro hfresh huniq j k f1 g1 hj hk hne heq hlang
    rcases hstep.cases j f1 hj with ⟨_, f, s, t0, hf, hf1, _, _, _, _⟩ | ⟨hjn, hf1⟩
    · rcases hstep.cases k g1 hk with ⟨_, g, t, t1, hg, hg1, _, _, _, _⟩ | ⟨_, hg1⟩
      · subst hf1
        subst hg1
        exact huniq j k f g hf hg hne heq hlang
      · exfalso
        subst hf1
        subst hg1
        exact hfresh f (List.getElem?_mem hf) ⟨heq.trans hnew, hlang⟩
    · rcases hstep.cases k g1 hk with ⟨_, g, t, t1, hg, hg1, _, _, _, _⟩ | ⟨hkn, _⟩
      · exfalso
        subst hf1
        subst hg1
        exact hfresh g (List.getElem?_mem hg) ⟨heq.symm.trans hnew, hlang.symm⟩
      · rw [hjn, hkn]
  · rintro ⟨f, hf, hfn, hfl⟩ huniq
    obtain ⟨j, hj⟩ := List.mem_iff_getElem?.1 hf
    have hjlt : j < r.objs.length := (List.getElem?_eq_some_iff.1 hj).1
    obtain ⟨s, t, hs, _, _⟩ := hstep.old j f hj
    have := huniq j r.objs.length _ _ hs hstep.last (by
      show f.fdef.name ≠ none
      rw [hfn, hname]
      simp) (by
      show f.fdef.name = (defineFieldObject d name r.objs.length language).fdef.name
      rw [hnew]
      exact hfn) hfl
    omega

theorem C19_unique_pairs_witness :
    UniquePairs builtinRegistry.objs ∧
    ((∀ f ∈ builtinRegistry.objs,
        ¬ (f.fdef.name = shadowDef.name ∧ f.language = LANG_AUTO)) →
      UniquePairs builtinRegistry.objs → UniquePairs shadowRun.2.objs) ∧
    ((∃ f ∈ builtinRegistry.objs, f.fdef.name = shadowDef.name ∧ f.language = LANG_AUTO) →
      ¬ UniquePairs shadowRun.2.objs) :=
  C19_unique_pairs builtinRegistry shadowRun.2 shadowDef LANG_AUTO 24 (Reachable.init rfl) rfl

/-- C19, as stated, fails: after `initFieldObjects`, registering "note" for the
language 3 twice succeeds both times (ids 24 and 25), and the two fields have
the same name and the same owning language. -/
theorem C19_unique_pairs_counterexample :
    defineFields builtinRegistry
      [(parserDef "note" "a note", 3), (parserDef "note" "a note again", 3)]
      = .ok ([24, 25], twiceRun.2) ∧
    (∃ f g, twiceRun.2.objs[24]? = some f ∧ twiceRun.2.objs[25]? = some g ∧
      f.fdef.name = some "note" ∧ g.fdef.name = some "note" ∧
      f.language = 3 ∧ g.language = 3) ∧
    ¬ (∀ r : Registry, Reachable r → UniquePairs r.objs) := by
  refine ⟨rfl, ⟨_, _, rfl, rfl, rfl, rfl, rfl, rfl⟩, ?_⟩
  intro h
  have h1 := h twiceRun.2
    (reachable_of_defineFields
      [(parserDef "note" "a note", 3), (parserDef "note" "a note again", 3)] builtinRegistry
      twiceRun.2 twiceRun.1 (Reachable.init rfl) rfl)
  have h2 := h1 24 25 _ _ rfl rfl (by decide) rfl rfl
  exact absurd h2 (by decide)

/-! ### The frame of a registration -/

theorem Inv.coherent {r : Registry} (hinv : Inv r) : Coherent r.objs := by
  intro f hf g hg ha
  obtain ⟨j, hj⟩ := List.getElem?_of_mem hf
  obtain ⟨k, hk⟩ := List.getElem?_of_mem hg
  exact hinv.shared j k f g hj hk ha

theorem builtinObjects_coherent : Coherent builtinObjects :=
  inv_init.coherent

theorem coherent_of_map_eq (objs objs1 : List fieldObject)
    (h : objs1.map (fun f => (f.defAddr, f.fdef)) = objs.map (fun f => (f.defAddr, f.fdef)))
    (hc : Coherent objs) : Coherent objs1 := by
  have hmem : ∀ f ∈ objs1, ∃ f0 ∈ objs, f0.defAddr = f.defAddr ∧ f0.fdef = f.fdef := by
    intro f hf
    have h1 : (f.defAddr, f.fdef) ∈ objs1.map (fun f => (f.defAddr, f.fdef)) :=
      List.mem_map.2 ⟨f, hf, rfl⟩
    rw [h] at h1
    obtain ⟨f0, hf0, he⟩ := List.mem_map.1 h1
    simp only [Prod.mk.injEq] at he
    exact ⟨f0, hf0, he.1, he.2⟩
  intro f hf g hg ha
  obtain ⟨f0, hf0, hfa, hfd⟩ := hmem f hf
  obtain ⟨g0, hg0, hga, hgd⟩ := hmem g hg
  rw [← hfd, ← hgd]
  exact hc f0 hf0 g0 hg0 (by rw [hfa, hga, ha])

theorem writeDefinition_coherent (a : defAddress) (w : fieldDefinition)
    (objs : List fieldObject) (extra : List fieldObject)
    (hextra : ∀ f ∈ extra, f.defAddr = a ∧ f.fdef = w) (hc : Coherent objs) :
    Coherent (writeDefinition a w objs ++ extra) := by
  have hmem : ∀ f ∈ writeDefinition a w objs ++ extra,
      (f.defAddr = a ∧ f.fdef = w) ∨ (f.defAddr ≠ a ∧ ∃ f0 ∈ objs, f0.defAddr = f.defAddr ∧
        f0.fdef = f.fdef) := by
    intro f hf
    rcases List.mem_append.1 hf with hf | hf
    · unfold writeDefinition at hf
      obtain ⟨f0, hf0, he⟩ := List.mem_map.1 hf
      by_cases h : f0.defAddr = a
      · rw [if_pos h] at he
        left
        rw [← he]
        exact ⟨h, rfl⟩
      · rw [if_neg h] at he
        right
        rw [← he]
        exact ⟨h, f0, hf0, rfl, rfl⟩
    · exact Or.inl (hextra f hf)
  intro f hf g hg ha
  rcases hmem f hf with ⟨hfa, hfd⟩ | ⟨hfa, f0, hf0, hfa0, hfd0⟩
  · rcases hmem g hg with ⟨hga, hgd⟩ | ⟨hga, _⟩
    · rw [hfd, hgd]
    · exact absurd (ha ▸ hfa) hga
  · rcases hmem g hg with ⟨hga, hgd⟩ | ⟨hga, g0, hg0, hga0, hgd0⟩
    · exact absurd (ha.trans hga) hfa
    · rw [← hfd0, ← hgd0]
      exact hc f0 hf0 g0 hg0 (by rw [hfa0, hga0, ha])

theorem updateSiblingFieldLoop_definitions (type : Nat) (name : String) :
    ∀ (i : Nat) (objs objs1 : List fieldObject),
      updateSiblingFieldLoop type name i objs = .ok objs1 →
      objs1.map (fun f => (f.defAddr, f.fdef)) = objs.map (fun f => (f.defAddr, f.fdef)) := by
  intro i
  induction i with
  | zero =>
    intro objs objs1 h
    simp only [updateSiblingFieldLoop, Except.ok.injEq] at h
    rw [h]
  | succ i ih =>
    intro objs objs1 h
    unfold updateSiblingFieldLoop at h
    cases hget : objs[i]? with
    | none =>
      rw [hget] at h
      exact Except.noConfusion h
    | some fobj =>
      rw [hget] at h
      dsimp only at h
      split_ifs at h with h1 h2
      · simp only [Except.ok.injEq] at h
        rw [← h]
        apply List.ext_getElem?
        intro j
        simp only [List.getElem?_map]
        by_cases hj : j = i
        · subst hj
          rw [List.getElem?_set_self (List.getElem?_eq_some_iff.1 hget).1, hget]
          rfl
        · rw [List.getElem?_set_ne (Ne.symm hj)]
      · exact ih objs objs1 h

theorem defineField_coherent (r r1 : Registry) (d : fieldDefinition) (language id : Int)
    (hc : Coherent r.objs) (h : defineField r (some d) language = .ok (id, r1)) :
    Coherent r1.objs := by
  unfold defineField at h
  dsimp only at h
  cases hname : (currentDefinition r.objs d).name with
  | none =>
    rw [hname] at h
    exact Except.noConfusion h
  | some name =>
    rw [hname] at h
    dsimp only at h
    split_ifs at h with halpha
    cases hobjs : r.fieldObjects with
    | none =>
      rw [hobjs] at h
      exact Except.noConfusion h
    | some objs =>
      rw [hobjs] at h
      dsimp only at h
      have hro : r.objs = objs := by
        unfold Registry.objs
        rw [hobjs]
      rw [hro] at hc h
      cases hupd : updateSiblingField objs.length name
          (writeDefinition (.parser d) (defineFieldDefinition (currentDefinition objs d) objs.length)
            objs ++ [{ defineFieldObject d name objs.length language with
              fdef := defineFieldDefinition (currentDefinition objs d) objs.length }]) with
      | error e =>
        rw [hupd] at h
        exact Except.noConfusion h
      | ok objs1 =>
        rw [hupd] at h
        simp only [Except.ok.injEq, Prod.mk.injEq] at h
        rw [← h.2]
        show Coherent objs1
        refine coherent_of_map_eq _ objs1
          (updateSiblingFieldLoop_definitions _ _ _ _ _ hupd) ?_
        apply writeDefinition_coherent _ _ _ _ _ hc
        intro f hf
        rw [List.mem_singleton] at hf
        rw [hf]
        exact ⟨rfl, rfl⟩

theorem writeDefinition_enabled (objs : List fieldObject) (f : fieldObject) (state : Bool)
    (hc : Coherent objs) (hf : f ∈ objs) :
    writeDefinition f.defAddr { f.fdef with enabled := state } objs
      = objs.map (withEnabled f.defAddr state) := by
  unfold writeDefinition
  apply List.map_congr_left
  intro g hg
  unfold withEnabled
  by_cases h : g.defAddr = f.defAddr
  · rw [if_pos h, if_pos h, hc g hg f hf h]
  · rw [if_neg h, if_neg h]

theorem map_withEnabled {β : Type} (objs : List fieldObject) (a : defAddress) (state : Bool)
    (p : fieldObject → β)
    (hp : ∀ g : fieldObject, p { g with fdef := { g.fdef with enabled := state } } = p g) :
    (objs.map (withEnabled a state)).map p = objs.map p := by
  rw [List.map_map]
  apply List.map_congr_left
  intro g _
  simp only [Function.comp, withEnabled]
  split_ifs
  · exact hp g
  · rfl

theorem enableField_of_getElem? (r : Registry) (k : Nat) (f : fieldObject) (state : Bool)
    (hc : Coherent r.objs) (hk : r.objs[k]? = some f) :
    enableField r (k : Int) state
      = .ok (f.fdef.enabled,
          { r with fieldObjects := some (r.objs.map (withEnabled f.defAddr state)) }) := by
  unfold enableField
  rw [getFieldObject_of_getElem? r k f hk]
  dsimp only
  rw [writeDefinition_enabled r.objs f state hc (List.mem_iff_getElem?.2 ⟨_, hk⟩)]

theorem enableField_objs (r : Registry) (type : Int) (state old : Bool) (r1 : Registry)
    (hc : Coherent r.objs) (h : enableField r type state = .ok (old, r1)) :
    ∃ f, f ∈ r.objs ∧ r1.objs = r.objs.map (withEnabled f.defAddr state) := by
  unfold enableField at h
  cases hg : getFieldObject r type with
  | error e =>
    rw [hg] at h
    exact Except.noConfusion h
  | ok fobj =>
    rw [hg] at h
    simp only [Except.ok.injEq, Prod.mk.injEq] at h
    have hk : r.objs[type.toNat]? = some fobj := by
      unfold getFieldObject at hg
      split_ifs at hg
      cases hget : r.objs[type.toNat]? with
      | none =>
        rw [hget] at hg
        exact Except.noConfusion hg
      | some g =>
        rw [hget] at hg
        simp only [Except.ok.injEq] at hg
        rw [hg]
    refine ⟨fobj, List.mem_iff_getElem?.2 ⟨_, hk⟩, ?_⟩
    rw [← h.2]
    exact writeDefinition_enabled r.objs fobj state hc (List.mem_iff_getElem?.2 ⟨_, hk⟩)

theorem withEnabled_coherent (objs : List fieldObject) (a : defAddress) (state : Bool)
    (hc : Coherent objs) : Coherent (objs.map (withEnabled a state)) := by
  intro f1 hf1 g1 hg1 ha
  obtain ⟨f, hf, rfl⟩ := List.mem_map.1 hf1
  obtain ⟨g, hg, rfl⟩ := List.mem_map.1 hg1
  unfold withEnabled at ha ⊢
  by_cases h1 : f.defAddr = a
  · rw [if_pos h1] at ha ⊢
    by_cases h2 : g.defAddr = a
    · rw [if_pos h2]
      show ({ f.fdef with enabled := state } : fieldDefinition) = { g.fdef with enabled := state }
      rw [hc f hf g hg (h1.trans h2.symm)]
    · rw [if_neg h2] at ha
      exact absurd (ha.symm.trans h1) h2
  · rw [if_neg h1] at ha ⊢
    by_cases h2 : g.defAddr = a
    · rw [if_pos h2] at ha
      exact absurd (ha.trans h2) h1
    · rw [if_neg h2] at ha ⊢
      exact hc f hf g hg ha

theorem enableField_withoutEnablement (r : Registry) (type : Int) (state old : Bool)
    (r2 : Registry) (hc : Coherent r.objs) (h : enableField r type state = .ok (old, r2)) :
    r2.objs.map withoutEnablement = r.objs.map withoutEnablement ∧ Coherent r2.objs := by
  obtain ⟨f, _, hobjs⟩ := enableField_objs r type state old r2 hc h
  rw [hobjs]
  exact ⟨map_withEnabled r.objs f.defAddr state withoutEnablement (fun _ => rfl),
    withEnabled_coherent r.objs f.defAddr state hc⟩

theorem enableFields_withoutEnablement :
    ∀ (toggles : List (Int × Bool)) (r r2 : Registry), Coherent r.objs →
      enableFields r toggles = .ok r2 →
      r2.objs.map withoutEnablement = r.objs.map withoutEnablement := by
  intro toggles
  induction toggles with
  | nil =>
    intro r r2 _ h
    simp only [enableFields, Except.ok.injEq] at h
    rw [h]
  | cons t rest ih =>
    intro r r2 hc h
    obtain ⟨type, state⟩ := t
    unfold enableFields at h
    cases he : enableField r type state with
    | error e =>
      rw [he] at h
      exact Except.noConfusion h
    | ok p =>
      obtain ⟨old, r1⟩ := p
      rw [he] at h
      have h1 := enableField_withoutEnablement r type state old r1 hc he
      exact (ih r1 r2 h1.2 h).trans h1.1

/-- C21, as stated, fails: when one definition object is registered for the
languages 3 and 5 (ids 24 and 25), enabling the field 25 returns the old flag
and also enables the field 24, which holds the same object. -/
theorem C21_enableField_frame_counterexample :
    isFieldEnabled sharedRun.2 24 = .ok false ∧
    (∃ r1, enableField sharedRun.2 25 true = .ok (false, r1) ∧
      isFieldEnabled r1 25 = .ok true ∧ isFieldEnabled r1 24 = .ok true) ∧
    ¬ (∀ (r r1 : Registry) (k j : Nat) (state old : Bool), Reachable r →
        enableField r (k : Int) state = .ok (old, r1) → j ≠ k →
        isFieldEnabled r1 (j : Int) = isFieldEnabled r (j : Int)) := by
  refine ⟨rfl, ⟨_, rfl, rfl, rfl⟩, ?_⟩
  intro h
  have h1 := h sharedRun.2 (okOr (enableField sharedRun.2 25 true) (false, Registry.start)).2
    25 24 true false
    (reachable_of_defineFields sharedRequests builtinRegistry sharedRun.2 sharedRun.1
      (Reachable.init rfl) rfl) rfl (by decide)
  have h2 : isFieldEnabled (okOr (enableField sharedRun.2 25 true) (false, Registry.start)).2
      ((24 : Nat) : Int) = .ok true := rfl
  have h3 : isFieldEnabled sharedRun.2 ((24 : Nat) : Int) = .ok false := rfl
  rw [h2, h3] at h1
  injection h1 with h1
  exact Bool.noConfusion h1

/-- C21, amended: for a field in range (the entry `f` at the id `k`) and every
state, `enableField` returns the value `isFieldEnabled` had before the call and
yields a registry in which `isFieldEnabled` is the state for `k` and for every
field whose entry holds the same definition object as `f`; these entries differ
from the ones before in the enabled flag only, and every entry that holds
another object is the same, with the same `isFieldEnabled`.  So when no other
entry holds the object of `f`, no other entry changes.  `countFields`, the
lookups by letter and by name and `doesFieldHaveValue` of every id give the
same results as before, and the entries still agree on the objects they
share. -/
theorem C21_enableField_frame (env : Env) (r : Registry) (k : Nat) (f : fieldObject)
    (state : Bool) (hc : Coherent r.objs) (hk : r.objs[k]? = some f) :
    isFieldEnabled r (k : Int) = .ok f.fdef.enabled ∧
    ∃ r1, enableField r (k : Int) state = .ok (f.fdef.enabled, r1) ∧
      isFieldEnabled r1 (k : Int) = .ok state ∧
      r1.objs[k]? = some { f with fdef := { f.fdef with enabled := state } } ∧
      (∀ (j : Nat) (g : fieldObject), r.objs[j]? = some g → g.defAddr = f.defAddr →
        r1.objs[j]? = some { g with fdef := { g.fdef with enabled := state } } ∧
        isFieldEnabled r1 (j : Int) = .ok state) ∧
      (∀ (j : Nat) (g : fieldObject), r.objs[j]? = some g → g.defAddr ≠ f.defAddr →
        r1.objs[j]? = some g ∧
        isFieldEnabled r1 (j : Int) = isFieldEnabled r (j : Int)) ∧
      ((∀ (j : Nat) (g : fieldObject), j ≠ k → r.objs[j]? = some g → g.defAddr ≠ f.defAddr) →
        (∀ j : Nat, j ≠ k → r1.objs[j]? = r.objs[j]?) ∧
        (∀ j : Nat, j ≠ k → isFieldEnabled r1 (j : Int) = isFieldEnabled r (j : Int))) ∧
      Coherent r1.objs ∧
      countFields r1 = countFields r ∧
      (∀ c : Char, getFieldTypeForOption r1 c = getFieldTypeForOption r c) ∧
      (∀ (n : Option String) (language : Int),
        (getFieldTypeForNameAndLanguage noParserInit r1 n language).1
          = (getFieldTypeForNameAndLanguage noParserInit r n language).1) ∧
      (∀ (j : Int) (tag : Option tagEntryInfo),
        doesFieldHaveValue env r1 j tag = doesFieldHaveValue env r j tag) := by
  have hget := getFieldObject_of_getElem? r k f hk
  refine ⟨by simp only [isFieldEnabled, hget], ?_⟩
  refine ⟨{ r with fieldObjects := some (r.objs.map (withEnabled f.defAddr state)) },
    enableField_of_getElem? r k f state hc hk, ?_⟩
  have hobjs : Registry.objs
      { r with fieldObjects := some (r.objs.map (withEnabled f.defAddr state)) }
      = r.objs.map (withEnabled f.defAddr state) := rfl
  have hlen : (r.objs.map (withEnabled f.defAddr state)).length = r.objs.length :=
    List.length_map _ _
  have hsame : ∀ (j : Nat) (g : fieldObject), r.objs[j]? = some g → g.defAddr = f.defAddr →
      (r.objs.map (withEnabled f.defAddr state))[j]?
        = some { g with fdef := { g.fdef with enabled := state } } := by
    intro j g hj ha
    rw [List.getElem?_map, hj]
    simp only [Option.map_some', withEnabled, if_pos ha]
  have hother : ∀ (j : Nat) (g : fieldObject), r.objs[j]? = some g → g.defAddr ≠ f.defAddr →
      (r.objs.map (withEnabled f.defAddr state))[j]? = some g := by
    intro j g hj ha
    rw [List.getElem?_map, hj]
    simp only [Option.map_some', withEnabled, if_neg ha]
  have henabled : ∀ (j : Nat) (g : fieldObject), r.objs[j]? = some g → g.defAddr ≠ f.defAddr →
      isFieldEnabled { r with fieldObjects := some (r.objs.map (withEnabled f.defAddr state)) }
        (j : Int) = isFieldEnabled r (j : Int) := by
    intro j g hj ha
    rw [isFieldEnabled, isFieldEnabled, getFieldObject_of_getElem? _ j g (by
      rw [hobjs]
      exact hother j g hj ha), getFieldObject_of_getElem? r j g hj]
  have hgetany : ∀ (j : Int) (g : fieldObject),
      getFieldObject r j = .ok g →
      ∃ g1, getFieldObject
          { r with fieldObjects := some (r.objs.map (withEnabled f.defAddr state)) } j = .ok g1 ∧
        g1.fdef.isValueAvailable = g.fdef.isValueAvailable := by
    intro j g hg
    unfold getFieldObject at hg ⊢
    simp only [Registry.fieldObjectUsed, hobjs, hlen] at hg ⊢
    split_ifs at hg ⊢ with hc1
    rw [List.getElem?_map]
    cases hj : r.objs[j.toNat]? with
    | none =>
      rw [hj] at hg
      exact Except.noConfusion hg
    | some g0 =>
      rw [hj] at hg
      simp only [Except.ok.injEq] at hg
      subst hg
      refine ⟨withEnabled f.defAddr state g0, rfl, ?_⟩
      unfold withEnabled
      split_ifs <;> rfl
  have hgeterr : ∀ (j : Int) (e : Failure),
      getFieldObject r j = .error e →
      getFieldObject
        { r with fieldObjects := some (r.objs.map (withEnabled f.defAddr state)) } j
        = .error e := by
    intro j e hg
    unfold getFieldObject at hg ⊢
    simp only [Registry.fieldObjectUsed, hobjs, hlen] at hg ⊢
    split_ifs at hg ⊢ with hc1
    · rw [List.getElem?_map]
      cases hj : r.objs[j.toNat]? with
      | none =>
        rw [hj] at hg
        exact hg
      | some g0 =>
        rw [hj] at hg
        exact Except.noConfusion hg
    · exact hg
  refine ⟨?_, ?_, ?_, ?_, ?_, ?_, ?_, ?_, ?_, ?_⟩
  · rw [isFieldEnabled, getFieldObject_of_getElem? _ k _ (by
      rw [hobjs]
      exact hsame k f hk rfl)]
  · rw [hobjs]
    exact hsame k f hk rfl
  · intro j g hj ha
    refine ⟨by rw [hobjs]; exact hsame j g hj ha, ?_⟩
    rw [isFieldEnabled, getFieldObject_of_getElem? _ j _ (by
      rw [hobjs]
      exact hsame j g hj ha)]
  · intro j g hj ha
    exact ⟨by rw [hobjs]; exact hother j g hj ha, henabled j g hj ha⟩
  · intro hsole
    have hrest : ∀ j : Nat, j ≠ k →
        (r.objs.map (withEnabled f.defAddr state))[j]? = r.objs[j]? := by
      intro j hj
      cases hg : r.objs[j]? with
      | none => rw [List.getElem?_map, hg]; rfl
      | some g => exact hother j g hg (hsole j g hj hg)
    refine ⟨fun j hj => by rw [hobjs]; exact hrest j hj, ?_⟩
    intro j hj
    unfold isFieldEnabled getFieldObject
    simp only [Registry.fieldObjectUsed, hobjs, hlen, Int.toNat_ofNat, hrest j hj]
  · rw [hobjs]
    exact withEnabled_coherent r.objs f.defAddr state hc
  · simp only [countFields, Registry.fieldObjectUsed, hobjs, hlen]
  · intro c
    unfold getFieldTypeForOption
    rw [hobjs, getFieldTypeForOptionLoop_eq, getFieldTypeForOptionLoop_eq]
    exact findFrom_congr _ _ _ 0
      (map_withEnabled r.objs f.defAddr state (fun g => decide (g.fdef.letter = c))
        (fun _ => rfl))
  · intro n language
    cases n with
    | none => rfl
    | some n =>
      rw [lookup_noParserInit, lookup_noParserInit, hobjs]
      exact findFrom_congr _ _ _ 0
        (map_withEnabled r.objs f.defAddr state (nameMatches n language) (fun _ => rfl))
  · intro j tag
    cases hg : getFieldObject r j with
    | error e =>
      simp only [doesFieldHaveValue, hg, hgeterr j e hg]
    | ok g =>
      obtain ⟨g1, hg1, hav⟩ := hgetany j g hg
      simp only [doesFieldHaveValue, hg, hg1, hav]

theorem C21_enableField_frame_witness :
    isFieldEnabled sharedRun.2 ((25 : Nat) : Int) = .ok sharedRun.2.objs[25].fdef.enabled ∧
    ∃ r1, enableField sharedRun.2 ((25 : Nat) : Int) true
        = .ok (sharedRun.2.objs[25].fdef.enabled, r1) ∧
      isFieldEnabled r1 ((25 : Nat) : Int) = .ok true ∧
      r1.objs[25]? = some { sharedRun.2.objs[25] with
        fdef := { sharedRun.2.objs[25].fdef with enabled := true } } ∧
      (∀ (j : Nat) (g : fieldObject), sharedRun.2.objs[j]? = some g →
        g.defAddr = sharedRun.2.objs[25].defAddr →
        r1.objs[j]? = some { g with fdef := { g.fdef with enabled := true } } ∧
        isFieldEnabled r1 (j : Int) = .ok true) ∧
      (∀ (j : Nat) (g : fieldObject), sharedRun.2.objs[j]? = some g →
        g.defAddr ≠ sharedRun.2.objs[25].defAddr →
        r1.objs[j]? = some g ∧
        isFieldEnabled r1 (j : Int) = isFieldEnabled sharedRun.2 (j : Int)) ∧
      ((∀ (j : Nat) (g : fieldObject), j ≠ 25 → sharedRun.2.objs[j]? = some g →
          g.defAddr ≠ sharedRun.2.objs[25].defAddr) →
        (∀ j : Nat, j ≠ 25 → r1.objs[j]? = sharedRun.2.objs[j]?) ∧
        (∀ j : Nat, j ≠ 25 →
          isFieldEnabled r1 (j : Int) = isFieldEnabled sharedRun.2 (j : Int))) ∧
      Coherent r1.objs ∧
      countFields r1 = countFields sharedRun.2 ∧
      (∀ c : Char, getFieldTypeForOption r1 c = getFieldTypeForOption sharedRun.2 c) ∧
      (∀ (n : Option String) (language : Int),
        (getFieldTypeForNameAndLanguage noParserInit r1 n language).1
          = (getFieldTypeForNameAndLanguage noParserInit sharedRun.2 n language).1) ∧
      (∀ (j : Int) (tag : Option tagEntryInfo),
        doesFieldHaveValue sampleEnv r1 j tag = doesFieldHaveValue sampleEnv sharedRun.2 j tag) :=
  C21_enableField_frame sampleEnv sharedRun.2 25 sharedRun.2.objs[25] true
    (reachable_inv (reachable_of_defineFields sharedRequests builtinRegistry sharedRun.2
      sharedRun.1 (Reachable.init rfl) rfl)).coherent rfl


/-! ### Initialisation and the range assertion -/

theorem getFieldObject_out_of_range (r : Registry) (type : Int)
    (h : type < 0 ∨ countFields r ≤ type) : getFieldObject r type = .error .assertion := by
  unfold getFieldObject
  have hc : ¬ (0 ≤ type ∧ type.toNat < r.fieldObjectUsed) := by
    unfold countFields at h
    omega
  rw [if_neg hc]

theorem fieldObjectAt_out_of_range (r : Registry) (type : Int)
    (h : type < 0 ∨ countFields r ≤ type) : fieldObjectAt r type = .error .invalidAccess := by
  unfold fieldObjectAt
  by_cases h0 : 0 ≤ type
  · have hlen : r.objs.length ≤ type.toNat := by
      unfold countFields Registry.fieldObjectUsed at h
      omega
    rw [if_pos h0, List.getElem?_eq_none hlen]
  · rw [if_neg h0]

/-- C22: on every registry that is not initialised yet, whatever its other
state, `initFieldObjects` succeeds and leaves exactly the 24 entries
`builtinObjects`: their definitions are, in order and up to the id stored in
them, the 3 entries of the fixed table, the 13 of the legacy table and the 8 of
the universal table; the entry at index `k` stores the id `k`; ids 0, 1, 2 are
name 'N', input 'F' and pattern 'P'; every entry has the language `LANG_IGNORE`
and the sibling `FIELD_UNKNOWN`.  The function reads nothing but the tables,
and whatever `enableField` calls follow, the entries stay the same apart from
their enabled flags. -/
theorem C22_builtin_table (r : Registry) (h : r.fieldObjects = none) :
    ∃ r1, initFieldObjects r = .ok r1 ∧
      r1.objs = builtinObjects ∧
      countFields r1 = 24 ∧
      r1.objs.map (fun f => ({ f.fdef with ftype := 0 } : fieldDefinition))
        = fieldDefinitionsFixed ++ fieldDefinitionsExuberant ++ fieldDefinitionsUniversal ∧
      fieldDefinitionsFixed.length = 3 ∧ fieldDefinitionsExuberant.length = 13 ∧
      fieldDefinitionsUniversal.length = 8 ∧
      r1.objs.map (fun f => f.fdef.ftype) = List.range 24 ∧
      (r1.objs.take 3).map (fun f => (f.fdef.letter, f.fdef.name))
        = [('N', some "name"), ('F', some "input"), ('P', some "pattern")] ∧
      (∀ f ∈ r1.objs, f.language = LANG_IGNORE ∧ f.sibling = FIELD_UNKNOWN) ∧
      r1.initialized = r.initialized ∧
      (∀ (toggles : List (Int × Bool)) (r2 : Registry), enableFields r1 toggles = .ok r2 →
        r2.objs.map withoutEnablement = builtinObjects.map withoutEnablement) := by
  refine ⟨{ r with fieldObjects := some builtinObjects, fieldObjectAllocated := 24 }, ?_,
    rfl, rfl, ?_, rfl, rfl, rfl, ?_, ?_, ?_, rfl,
    fun toggles r2 h2 =>
      enableFields_withoutEnablement toggles
        { r with fieldObjects := some builtinObjects, fieldObjectAllocated := 24 } r2
        builtinObjects_coherent h2⟩
  · unfold initFieldObjects
    rw [h]
    rfl
  · show builtinObjects.map (fun f => ({ f.fdef with ftype := 0 } : fieldDefinition))
      = fieldDefinitionsFixed ++ fieldDefinitionsExuberant ++ fieldDefinitionsUniversal
    rfl
  · show builtinObjects.map (fun f => f.fdef.ftype) = List.range 24
    rfl
  · show (builtinObjects.take 3).map (fun f => (f.fdef.letter, f.fdef.name))
      = [('N', some "name"), ('F', some "input"), ('P', some "pattern")]
    rfl
  · show ∀ f ∈ builtinObjects, f.language = LANG_IGNORE ∧ f.sibling = FIELD_UNKNOWN
    decide

theorem C22_builtin_table_witness :
    ∃ r1, initFieldObjects Registry.start = .ok r1 ∧
      r1.objs = builtinObjects ∧
      countFields r1 = 24 ∧
      r1.objs.map (fun f => ({ f.fdef with ftype := 0 } : fieldDefinition))
        = fieldDefinitionsFixed ++ fieldDefinitionsExuberant ++ fieldDefinitionsUniversal ∧
      fieldDefinitionsFixed.length = 3 ∧ fieldDefinitionsExuberant.length = 13 ∧
      fieldDefinitionsUniversal.length = 8 ∧
      r1.objs.map (fun f => f.fdef.ftype) = List.range 24 ∧
      (r1.objs.take 3).map (fun f => (f.fdef.letter, f.fdef.name))
        = [('N', some "name"), ('F', some "input"), ('P', some "pattern")] ∧
      (∀ f ∈ r1.objs, f.language = LANG_IGNORE ∧ f.sibling = FIELD_UNKNOWN) ∧
      r1.initialized = Registry.start.initialized ∧
      (∀ (toggles : List (Int × Bool)) (r2 : Registry), enableFields r1 toggles = .ok r2 →
        r2.objs.map withoutEnablement = builtinObjects.map withoutEnablement) :=
  C22_builtin_table Registry.start rfl

/-- C23: on a registry that is already initialised (one whose array exists, in
particular every state reached from program start and the state a successful
`initFieldObjects` returns) `initFieldObjects` fails with the assertion; the
failure is raised by the first statement, before any write, and yields no new
registry, so no built-in is registered a second time. -/
theorem C23_double_init (r : Registry) (h : Reachable r ∨ r.fieldObjects ≠ none) :
    initFieldObjects r = .error .assertion ∧
    ∀ r1, initFieldObjects r = .ok r1 → False := by
  have hsome : r.fieldObjects.isSome = true := by
    rcases h with h | h
    · rw [(reachable_inv h).objs_some]
      rfl
    · cases hf : r.fieldObjects with
      | none => exact absurd hf h
      | some l => rfl
  have herr : initFieldObjects r = .error .assertion := by
    unfold initFieldObjects
    rw [if_pos hsome]
  refine ⟨herr, ?_⟩
  intro r1 h1
  rw [herr] at h1
  exact Except.noConfusion h1

theorem C23_double_init_witness :
    initFieldObjects Registry.start = .ok builtinRegistry ∧
    initFieldObjects builtinRegistry = .error .assertion ∧
    ∀ r1, initFieldObjects builtinRegistry = .ok r1 → False :=
  ⟨rfl, C23_double_init builtinRegistry (Or.inl (Reachable.init rfl))⟩

/-- C24, as stated, fails: at program start, before `initFieldObjects`, the
lookup by the letter 'N' and the lookup by the name "name" (for the languages
`LANG_IGNORE` and `LANG_AUTO`) return `FIELD_UNKNOWN`; they do not fail. -/
theorem C24_lookup_before_init_counterexample :
    getFieldTypeForOption Registry.start 'N' = FIELD_UNKNOWN ∧
    (getFieldTypeForNameAndLanguage noParserInit Registry.start (some "name") LANG_IGNORE).1
      = FIELD_UNKNOWN ∧
    (getFieldTypeForNameAndLanguage noParserInit Registry.start (some "name") LANG_AUTO).1
      = FIELD_UNKNOWN ∧
    ¬ (∀ (r : Registry) (c : Char), r.fieldObjects = none →
        ∀ v : Int, getFieldTypeForOption r c ≠ v) := by
  refine ⟨rfl, rfl, rfl, ?_⟩
  intro h
  exact h Registry.start 'N' rfl FIELD_UNKNOWN rfl

/-- C24, amended: on a registry that is not initialised yet the lookups return
a result, and the result is `FIELD_UNKNOWN`: for every letter by
`getFieldTypeForOption`; for every name and any parser initialisation by
`getFieldTypeForNameAndLanguage` with the language `LANG_IGNORE` (and
`getFieldTypeForName`), which also leaves the registry as it is; and for every
name and language when the parser initialisation registers nothing. -/
theorem C24_lookup_before_init (r : Registry) (h : r.fieldObjects = none) :
    (∀ c : Char, getFieldTypeForOption r c = FIELD_UNKNOWN) ∧
    (∀ (ip : Int → Registry → Registry) (n : Option String),
      getFieldTypeForNameAndLanguage ip r n LANG_IGNORE = (FIELD_UNKNOWN, r) ∧
      getFieldTypeForName ip r n = (FIELD_UNKNOWN, r)) ∧
    (∀ (n : Option String) (language : Int),
      (getFieldTypeForNameAndLanguage noParserInit r n language).1 = FIELD_UNKNOWN) := by
  have hobjs : r.objs = [] := by
    unfold Registry.objs
    rw [h]
  have h2 : ∀ (ip : Int → Registry → Registry) (n : Option String),
      getFieldTypeForNameAndLanguage ip r n LANG_IGNORE = (FIELD_UNKNOWN, r) := by
    intro ip n
    cases n with
    | none => rfl
    | some n =>
      have hne : ¬ (LANG_IGNORE = LANG_AUTO ∧ r.initialized = false) := by
        intro hc
        exact absurd hc.1 (by decide)
      have hne2 : ¬ (LANG_IGNORE ≠ LANG_IGNORE ∧ r.initialized = false) := by
        intro hc
        exact hc.1 rfl
      simp only [getFieldTypeForNameAndLanguage, if_neg hne, if_neg hne2, hobjs,
        getFieldTypeForNameAndLanguageLoop]
  refine ⟨?_, ?_, ?_⟩
  · intro c
    simp only [getFieldTypeForOption, hobjs, getFieldTypeForOptionLoop]
  · intro ip n
    exact ⟨h2 ip n, h2 ip n⟩
  · intro n language
    cases n with
    | none => rfl
    | some n =>
      rw [lookup_noParserInit, hobjs]
      rfl

theorem C24_lookup_before_init_witness :
    (∀ c : Char, getFieldTypeForOption Registry.start c = FIELD_UNKNOWN) ∧
    (∀ (ip : Int → Registry → Registry) (n : Option String),
      getFieldTypeForNameAndLanguage ip Registry.start n LANG_IGNORE
        = (FIELD_UNKNOWN, Registry.start) ∧
      getFieldTypeForName ip Registry.start n = (FIELD_UNKNOWN, Registry.start)) ∧
    (∀ (n : Option String) (language : Int),
      (getFieldTypeForNameAndLanguage noParserInit Registry.start n language).1
        = FIELD_UNKNOWN) :=
  C24_lookup_before_init Registry.start rfl


/-- C25, on the code: for an id that is negative or not below `countFields`, the
nine operations that reach the entry through `getFieldObject` fail with the
range assertion, whereas `nextSiblingField`, `renderField`,
`renderFieldNoEscaping` (given a tag and no parser-field index) and
`doesFieldHaveTabOrNewlineChar` compute `fieldObjects + type` themselves and
read outside the initialised entries without any range assertion. -/
theorem C25_range_assertion (env : Env) (r : Registry) (type : Int)
    (h : type < 0 ∨ countFields r ≤ type) (tag : tagEntryInfo) (state noEscaping : Bool)
    (otag : Option tagEntryInfo) (index : Int) :
    getFieldName env r type = .error .assertion ∧
    getFieldLetter r type = .error .assertion ∧
    getFieldDescription r type = .error .assertion ∧
    getFieldOwner r type = .error .assertion ∧
    getFieldDataType r type = .error .assertion ∧
    isFieldEnabled r type = .error .assertion ∧
    enableField r type state = .error .assertion ∧
    doesFieldHaveValue env r type otag = .error .assertion ∧
    doesFieldHaveRenderer r type noEscaping = .error .assertion ∧
    nextSiblingField r type = .error .invalidAccess ∧
    renderField env r type (some tag) NO_PARSER_FIELD = .error .invalidAccess ∧
    renderFieldNoEscaping env r type (some tag) NO_PARSER_FIELD = .error .invalidAccess ∧
    doesFieldHaveTabOrNewlineChar env r type otag index = .error .invalidAccess := by
  have hg := getFieldObject_out_of_range r type h
  have ha := fieldObjectAt_out_of_range r type h
  have hneg : NO_PARSER_FIELD < 0 := by decide
  have hnn : ¬ (0 ≤ NO_PARSER_FIELD) := by decide
  refine ⟨?_, ?_, ?_, ?_, ?_, ?_, ?_, ?_, ?_, ?_, ?_, ?_, ?_⟩
  · simp only [getFieldName, hg]
  · simp only [getFieldLetter, hg]
  · simp only [getFieldDescription, hg]
  · simp only [getFieldOwner, hg]
  · simp only [getFieldDataType, hg]
  · simp only [isFieldEnabled, hg]
  · simp only [enableField, hg]
  · simp only [doesFieldHaveValue, hg]
  · simp only [doesFieldHaveRenderer, hg]
  · simp only [nextSiblingField, ha]
  · simp only [renderField, renderFieldCommon, hneg, true_or, if_true, parserFieldValue, hnn,
      if_false, ha]
  · simp only [renderFieldNoEscaping, renderFieldCommon, hneg, true_or, if_true,
      parserFieldValue, hnn, if_false, ha]
  · simp only [doesFieldHaveTabOrNewlineChar, ha]

theorem C25_range_assertion_witness :
    getFieldName sampleEnv builtinRegistry 24 = .error .assertion ∧
    getFieldLetter builtinRegistry 24 = .error .assertion ∧
    getFieldDescription builtinRegistry 24 = .error .assertion ∧
    getFieldOwner builtinRegistry 24 = .error .assertion ∧
    getFieldDataType builtinRegistry 24 = .error .assertion ∧
    isFieldEnabled builtinRegistry 24 = .error .assertion ∧
    enableField builtinRegistry 24 true = .error .assertion ∧
    doesFieldHaveValue sampleEnv builtinRegistry 24 none = .error .assertion ∧
    doesFieldHaveRenderer builtinRegistry 24 false = .error .assertion ∧
    nextSiblingField builtinRegistry 24 = .error .invalidAccess ∧
    renderField sampleEnv builtinRegistry 24 (some (sampleTag "main" false "v")) NO_PARSER_FIELD
      = .error .invalidAccess ∧
    renderFieldNoEscaping sampleEnv builtinRegistry 24 (some (sampleTag "main" false "v"))
      NO_PARSER_FIELD = .error .invalidAccess ∧
    doesFieldHaveTabOrNewlineChar sampleEnv builtinRegistry 24 none 0 = .error .invalidAccess :=
  C25_range_assertion sampleEnv builtinRegistry 24 (Or.inr (by decide))
    (sampleTag "main" false "v") true false none 0

/-! ### The typeref renderer -/

/-- C28: for every tag, the typeref renderer on an empty buffer returns "-"
when both parts of the type reference are absent, and otherwise the first part
(or "-" if absent), a colon, and the escaped form of the second part (or of "-"
if absent), which is "-" itself when escaping leaves "-" alone; `renderField`
of the typeref field (id 14) of a registry reached from program start returns
the same. -/
theorem C28_typeref (env : Env) (r : Registry) (hr : Reachable r) (tag : tagEntryInfo)
    (value : Option String) :
    renderFieldTyperef env tag value ""
      = .ok (some (if tag.extensionFields.typeRef0 = none ∧ tag.extensionFields.typeRef1 = none
          then "-"
          else WITH_DEFUALT_VALUE tag.extensionFields.typeRef0 ++ ":"
            ++ env.escape (WITH_DEFUALT_VALUE tag.extensionFields.typeRef1))) ∧
    renderField env r 14 (some tag) NO_PARSER_FIELD = renderFieldTyperef env tag none "" ∧
    (tag.extensionFields.typeRef0 = none → tag.extensionFields.typeRef1 = none →
      renderFieldTyperef env tag value "" = .ok (some "-")) ∧
    (∀ t1, tag.extensionFields.typeRef0 = none → tag.extensionFields.typeRef1 = some t1 →
      renderFieldTyperef env tag value "" = .ok (some ("-:" ++ env.escape t1))) ∧
    (∀ t0, tag.extensionFields.typeRef0 = some t0 → tag.extensionFields.typeRef1 = none →
      env.escape "-" = "-" →
      renderFieldTyperef env tag value "" = .ok (some (t0 ++ ":-"))) ∧
    (∀ t0 t1, tag.extensionFields.typeRef0 = some t0 → tag.extensionFields.typeRef1 = some t1 →
      renderFieldTyperef env tag value "" = .ok (some (t0 ++ ":" ++ env.escape t1))) := by
  have hmain : renderFieldTyperef env tag value ""
      = .ok (some (if tag.extensionFields.typeRef0 = none ∧ tag.extensionFields.typeRef1 = none
          then "-"
          else WITH_DEFUALT_VALUE tag.extensionFields.typeRef0 ++ ":"
            ++ env.escape (WITH_DEFUALT_VALUE tag.extensionFields.typeRef1))) := by
    unfold renderFieldTyperef
    by_cases hc : tag.extensionFields.typeRef0 = none ∧ tag.extensionFields.typeRef1 = none
    · rw [if_pos hc, if_pos hc]
      rfl
    · rw [if_neg hc, if_neg hc]
      have hpush : ∀ s : String, ("" ++ s).push ':' = s ++ ":" := by
        intro s
        apply String.ext
        simp
      have hesc : ∀ (s : String) (b : String),
          renderEscapedName env false s tag b = .ok (some (b ++ env.escape s)) := by
        intro s b
        unfold renderEscapedName
        cases s.data <;>
          simp [renderEscapedString, vStringCatSWithEscaping]
      simp only [hpush, hesc]
  refine ⟨hmain, ?_, ?_, ?_, ?_, ?_⟩
  · have h14 := renderField_builtin env r hr tag 14 (by decide) .renderFieldTyperef rfl
    rw [show ((14 : Nat) : Int) = 14 from rfl] at h14
    rw [h14]
    rfl
  · intro h0 h1
    rw [hmain, if_pos ⟨h0, h1⟩]
  · intro t1 h0 h1
    rw [hmain, h0, h1]
    rfl
  · intro t0 h0 h1 hesc
    rw [hmain, h0, h1]
    simp only [WITH_DEFUALT_VALUE, FIELD_NULL_LETTER_STRING, hesc]
    simp [String.append_assoc]
  · intro t0 t1 h0 h1
    rw [hmain, h0, h1]
    rfl

theorem C28_typeref_witness :
    renderFieldTyperef sampleEnv
        { sampleTag "main" false "v" with
          extensionFields := { (sampleTag "main" false "v").extensionFields with
            typeRef0 := some "struct", typeRef1 := some "po\tint" } } none ""
      = .ok (some "struct:po\\x09int") ∧
    renderField sampleEnv noteRun.2 14
        (some { sampleTag "main" false "v" with
          extensionFields := { (sampleTag "main" false "v").extensionFields with
            typeRef0 := some "struct", typeRef1 := some "po\tint" } }) NO_PARSER_FIELD
      = .ok (some "struct:po\\x09int") :=
  ⟨rfl,
   ((C28_typeref sampleEnv noteRun.2 noteRun_reachable
      { sampleTag "main" false "v" with
        extensionFields := { (sampleTag "main" false "v").extensionFields with
          typeRef0 := some "struct", typeRef1 := some "po\tint" } } none).2.1).trans rfl⟩

/-! ### The assertion of `updateSiblingField` -/

/-- C29: in every registry reached from program start by successful
`defineField` calls, and for every name, the last entry carrying the name has
the sibling `FIELD_UNKNOWN`; hence `updateSiblingField`, called by `defineField`
on the array extended by the new entry, returns without failing, and a
`defineField` call whose definition has that name, made of letters only,
succeeds. -/
theorem C29_sibling_assertion (r : Registry) (hr : Reachable r) (d : fieldDefinition)
    (language : Int) (name : String) :
    (∀ k f, r.objs[k]? = some f → LastNamed r.objs name r.objs.length k f →
      f.sibling = FIELD_UNKNOWN) ∧
    (∃ objs1, updateSiblingField r.objs.length name
      (r.objs ++ [defineFieldObject d name r.objs.length language]) = .ok objs1) ∧
    (d.name = some name → name.data.all isalpha = true →
      ∃ r1, defineField r (some d) language = .ok ((r.objs.length : Int), r1)) := by
  have hinv := reachable_inv hr
  have h1 : ∀ k f, r.objs[k]? = some f → LastNamed r.objs name r.objs.length k f →
      f.sibling = FIELD_UNKNOWN :=
    fun k f hk hlast => lastNamed_sibling r.objs name k f hk (hinv.sibling k f hk) hlast
  refine ⟨h1, ?_, ?_⟩
  · have hsib : ∀ k f,
        (r.objs ++ [defineFieldObject d name r.objs.length language])[k]? = some f →
        LastNamed (r.objs ++ [defineFieldObject d name r.objs.length language]) name
          r.objs.length k f →
        f.sibling = FIELD_UNKNOWN := by
      intro k f hk hlast
      have hlt : k < r.objs.length := hlast.1
      rw [List.getElem?_append_left hlt] at hk
      rw [lastNamed_append] at hlast
      exact h1 k f hk hlast
    obtain ⟨objs1, hok, _⟩ := updateSiblingFieldLoop_spec r.objs.length name r.objs.length
      (r.objs ++ [defineFieldObject d name r.objs.length language]) (by simp) hsib
    exact ⟨objs1, hok⟩
  · intro hname halpha
    obtain ⟨r1, hrun, _⟩ := defineField_run hinv d language name hname halpha
    exact ⟨r1, hrun⟩


theorem C29_sibling_assertion_witness :
    (∀ k f, noteRun.2.objs[k]? = some f →
      LastNamed noteRun.2.objs "note" noteRun.2.objs.length k f → f.sibling = FIELD_UNKNOWN) ∧
    (∃ objs1, updateSiblingField noteRun.2.objs.length "note"
      (noteRun.2.objs ++ [defineFieldObject (parserDef "note" "a note") "note"
        noteRun.2.objs.length 3]) = .ok objs1) ∧
    ((parserDef "note" "a note").name = some "note" → "note".data.all isalpha = true →
      ∃ r1, defineField noteRun.2 (some (parserDef "note" "a note")) 3
        = .ok ((noteRun.2.objs.length : Int), r1)) :=
  C29_sibling_assertion noteRun.2 noteRun_reachable (parserDef "note" "a note") 3 "note"


/-! ### The compact input line -/

theorem isspace_space : isspace ' ' = true := by decide

theorem isspace_cr : isspace '\r' = true := by decide

theorem isspace_newline : isspace '\n' = true := by decide

theorem isspace_tab : isspace '\t' = true := by decide

theorem isspace_nul : isspace (Char.ofNat 0) = false := by decide

theorem collapseRuns_cons_of_not_space (c : Char) (l : List Char) (hc : isspace c = false) :
    collapseRuns (c :: l) = c :: collapseRuns l := by
  cases l with
  | nil => simp [collapseRuns, hc]
  | cons d rest => simp [collapseRuns, hc]

theorem upToNewline_cons (c : Char) (l : List Char) (h1 : c ≠ '\n') (h2 : c ≠ Char.ofNat 0) :
    upToNewline (c :: l) = c :: upToNewline l := by
  simp [upToNewline, List.takeWhile_cons, h1, h2]

theorem upToNewline_stop (c : Char) (l : List Char) (h : c = '\n' ∨ c = Char.ofNat 0) :
    upToNewline (c :: l) = [] := by
  rcases h with h | h <;> subst h <;> rfl

theorem consumeWhiteSpace_length (l : List Char) : (consumeWhiteSpace l).length ≤ l.length := by
  induction l with
  | nil => exact Nat.le_refl _
  | cons d rest ih =>
    unfold consumeWhiteSpace
    split_ifs
    · exact Nat.le_succ_of_le ih
    · exact Nat.le_refl _

/-- A run of whitespace at the head of the cut line is written as one space, and
the rendering goes on after the characters that `consumeWhiteSpace` skips. -/
theorem collapseRuns_consume (rest : List Char) :
    ∀ c : Char, isspace c = true →
      collapseRuns (c :: upToNewline rest)
        = ' ' :: collapseRuns (upToNewline (consumeWhiteSpace rest)) := by
  induction rest with
  | nil =>
    intro c hc
    simp [upToNewline, consumeWhiteSpace, collapseRuns, hc]
  | cons d rest ih =>
    intro c hc
    by_cases hd : isspace d = true ∧ d ≠ '\n'
    · have hnul : d ≠ Char.ofNat 0 := by
        intro h0
        rw [h0, isspace_nul] at hd
        exact Bool.false_ne_true hd.1
      have hcw : consumeWhiteSpace (d :: rest) = consumeWhiteSpace rest := by
        rw [consumeWhiteSpace, if_pos hd]
      rw [hcw, upToNewline_cons d rest hd.2 hnul, ← ih d hd.1]
      simp [collapseRuns, hc, hd.1]
    · have hcw : consumeWhiteSpace (d :: rest) = d :: rest := by
        rw [consumeWhiteSpace, if_neg hd]
      rw [hcw]
      by_cases hstop : d = '\n' ∨ d = Char.ofNat 0
      · rw [upToNewline_stop d rest hstop]
        simp [collapseRuns, hc]
      · have h1 : d ≠ '\n' := fun h => hstop (Or.inl h)
        have h2 : d ≠ Char.ofNat 0 := fun h => hstop (Or.inr h)
        have hds : isspace d = false := by
          cases hsp : isspace d with
          | false => rfl
          | true => exact absurd ⟨hsp, h1⟩ hd
        rw [upToNewline_cons d rest h1 h2]
        simp [collapseRuns, hc, hds]

theorem renderCompactInputLineLoop_started :
    ∀ (fuel : Nat) (l : List Char) (b : String), l.length ≤ fuel →
      (renderCompactInputLineLoop fuel l true b).data
        = b.data ++ collapseRuns (upToNewline l) := by
  intro fuel
  induction fuel with
  | zero =>
    intro l b hl
    have hnil : l = [] := List.length_eq_zero.1 (Nat.le_zero.1 hl)
    subst hnil
    simp [renderCompactInputLineLoop, upToNewline, collapseRuns]
  | succ fuel ih =>
    intro l b hl
    cases l with
    | nil => simp [renderCompactInputLineLoop, upToNewline, collapseRuns]
    | cons c rest =>
      have hrest : rest.length ≤ fuel := Nat.le_of_succ_le_succ hl
      by_cases hstop : c = '\n' ∨ c = Char.ofNat 0
      · rw [upToNewline_stop c rest hstop]
        simp [renderCompactInputLineLoop, hstop, collapseRuns]
      · have h1 : c ≠ '\n' := fun h => hstop (Or.inl h)
        have h2 : c ≠ Char.ofNat 0 := fun h => hstop (Or.inr h)
        rw [upToNewline_cons c rest h1 h2]
        cases hsp : isspace c with
        | true =>
          have hgo : renderCompactInputLineLoop (fuel + 1) (c :: rest) true b
              = renderCompactInputLineLoop fuel (consumeWhiteSpace rest) true (b.push ' ') := by
            simp [renderCompactInputLineLoop, hstop, hsp]
          rw [hgo, ih _ _ (Nat.le_trans (consumeWhiteSpace_length rest) hrest),
            collapseRuns_consume rest c hsp, String.data_push]
          simp
        | false =>
          have hcr : c ≠ '\r' := by
            intro h
            rw [h, isspace_cr] at hsp
            exact Bool.noConfusion hsp
          have hgo : renderCompactInputLineLoop (fuel + 1) (c :: rest) true b
              = renderCompactInputLineLoop fuel rest true (b.push c) := by
            simp [renderCompactInputLineLoop, hstop, hsp, hcr]
          rw [hgo, ih _ _ hrest, collapseRuns_cons_of_not_space c _ hsp, String.data_push]
          simp

theorem renderCompactInputLineLoop_not_started :
    ∀ (l : List Char) (fuel : Nat) (b : String), l.length ≤ fuel →
      (renderCompactInputLineLoop fuel l false b).data = b.data ++ compactLine l := by
  intro l
  induction l with
  | nil =>
    intro fuel b _
    cases fuel <;> simp [renderCompactInputLineLoop, compactLine, upToNewline, collapseRuns]
  | cons c rest ih =>
    intro fuel b hl
    cases fuel with
    | zero => exact absurd hl (Nat.not_succ_le_zero _)
    | succ fuel =>
      have hrest : rest.length ≤ fuel := Nat.le_of_succ_le_succ hl
      by_cases hstop : c = '\n' ∨ c = Char.ofNat 0
      · unfold compactLine
        rw [upToNewline_stop c rest hstop]
        simp [renderCompactInputLineLoop, hstop, collapseRuns]
      · have h1 : c ≠ '\n' := fun h => hstop (Or.inl h)
        have h2 : c ≠ Char.ofNat 0 := fun h => hstop (Or.inr h)
        cases hsp : isspace c with
        | true =>
          have hgo : renderCompactInputLineLoop (fuel + 1) (c :: rest) false b
              = renderCompactInputLineLoop fuel rest false b := by
            simp [renderCompactInputLineLoop, hstop, hsp]
          rw [hgo, ih fuel b hrest]
          unfold compactLine
          rw [upToNewline_cons c rest h1 h2, List.dropWhile_cons, if_pos hsp]
        | false =>
          have hgo : renderCompactInputLineLoop (fuel + 1) (c :: rest) false b
              = renderCompactInputLineLoop (fuel + 1) (c :: rest) true b := by
            simp [renderCompactInputLineLoop, hstop, hsp]
          rw [hgo, renderCompactInputLineLoop_started (fuel + 1) (c :: rest) b hl]
          unfold compactLine
          rw [upToNewline_cons c rest h1 h2, List.dropWhile_cons, hsp]
          simp

theorem collapseRuns_mem (l : List Char) :
    ∀ c ∈ collapseRuns l, c = ' ' ∨ (c ∈ l ∧ isspace c = false) := by
  induction l with
  | nil =>
    intro c hc
    simp [collapseRuns] at hc
  | cons a rest ih =>
    intro c hc
    cases hsp : isspace a with
    | false =>
      rw [collapseRuns_cons_of_not_space a rest hsp] at hc
      rcases List.mem_cons.1 hc with h | h
      · subst h
        exact Or.inr ⟨List.mem_cons_self _ _, hsp⟩
      · rcases ih c h with h3 | h3
        · exact Or.inl h3
        · exact Or.inr ⟨List.mem_cons_of_mem _ h3.1, h3.2⟩
    | true =>
      have hsub : ∀ x ∈ collapseRuns (a :: rest), x = ' ' ∨ x ∈ collapseRuns rest := by
        intro x hx
        cases rest with
        | nil =>
          simp [collapseRuns, hsp] at hx
          exact Or.inl hx
        | cons d rest1 =>
          cases hd : isspace d with
          | true =>
            simp only [collapseRuns, hsp, hd, if_true] at hx
            exact Or.inr hx
          | false =>
            simp only [collapseRuns, hsp, hd, if_true, Bool.false_eq_true, if_false] at hx
            rcases List.mem_cons.1 hx with h | h
            · exact Or.inl h
            · exact Or.inr h
      rcases hsub c hc with h | h
      · exact Or.inl h
      · rcases ih c h with h3 | h3
        · exact Or.inl h3
        · exact Or.inr ⟨List.mem_cons_of_mem _ h3.1, h3.2⟩

theorem collapseRuns_chain (l : List Char) :
    List.Chain' (fun x y : Char => ¬ (x = ' ' ∧ y = ' ')) (collapseRuns l) := by
  induction l with
  | nil => simp [collapseRuns]
  | cons a rest ih =>
    cases rest with
    | nil =>
      by_cases hsp : isspace a = true <;> simp [collapseRuns, hsp]
    | cons d rest1 =>
      cases hsp : isspace a with
      | false =>
        rw [collapseRuns_cons_of_not_space a _ hsp]
        have hne : a ≠ ' ' := by
          intro h
          rw [h, isspace_space] at hsp
          exact Bool.noConfusion hsp
        refine List.Chain'.cons' ih ?_
        intro y _ hc
        exact hne hc.1
      | true =>
        cases hd : isspace d with
        | true =>
          simp only [collapseRuns, hsp, hd, if_true]
          exact ih
        | false =>
          have hne : d ≠ ' ' := by
            intro h
            rw [h, isspace_space] at hd
            exact Bool.noConfusion hd
          simp only [collapseRuns, hsp, hd, if_true, Bool.false_eq_true, if_false]
          refine List.Chain'.cons' ih ?_
          intro y hy hc
          rw [collapseRuns_cons_of_not_space d rest1 hd] at hy
          simp only [List.head?_cons, Option.mem_def, Option.some.injEq] at hy
          exact hne (hy.trans hc.2)

theorem compactLine_head (l : List Char) (c : Char) (h : (compactLine l).head? = some c) :
    isspace c = false := by
  unfold compactLine at h
  cases hd : (upToNewline l).dropWhile isspace with
  | nil =>
    rw [hd] at h
    simp [collapseRuns] at h
  | cons a rest =>
    have ha : isspace a = false := by
      have := List.head_dropWhile_not isspace (upToNewline l) (by rw [hd]; simp)
      simpa [hd] using this
    rw [hd, collapseRuns_cons_of_not_space a rest ha] at h
    simp only [List.head?_cons, Option.some.injEq] at h
    rw [← h]
    exact ha


theorem collapseRuns_filter (l : List Char) :
    (collapseRuns l).filter (fun c => !isspace c) = l.filter (fun c => !isspace c) := by
  induction l with
  | nil => rfl
  | cons a rest ih =>
    cases hsp : isspace a with
    | false =>
      rw [collapseRuns_cons_of_not_space a rest hsp]
      simp [List.filter_cons, hsp, ih]
    | true =>
      cases rest with
      | nil => simp [collapseRuns, hsp, List.filter_cons, isspace_space]
      | cons d rest1 =>
        cases hd : isspace d with
        | true =>
          simp only [collapseRuns, hsp, hd, if_true]
          rw [ih]
          simp [List.filter_cons, hsp]
        | false =>
          simp only [collapseRuns, hsp, hd, if_true, Bool.false_eq_true, if_false]
          rw [List.filter_cons, List.filter_cons]
          simp only [isspace_space, hsp, Bool.not_true, Bool.false_eq_true, if_false]
          exact ih

theorem compactLine_filter (l : List Char) :
    (compactLine l).filter (fun c => !isspace c)
      = (upToNewline l).filter (fun c => !isspace c) := by
  unfold compactLine
  rw [collapseRuns_filter]
  generalize upToNewline l = m
  induction m with
  | nil => rfl
  | cons a rest ih =>
    cases hsp : isspace a with
    | true =>
      rw [List.dropWhile_cons, if_pos hsp, ih, List.filter_cons]
      simp [hsp]
    | false =>
      rw [List.dropWhile_cons]
      simp [hsp]

/-- A maximal run of whitespace, one that is followed by the end of the text or
by a character that is not whitespace, is rendered as a single space. -/
theorem collapseRuns_run (ws l : List Char) (hne : ws ≠ [])
    (hws : ∀ c ∈ ws, isspace c = true) (hl : ∀ c, l.head? = some c → isspace c = false) :
    collapseRuns (ws ++ l) = ' ' :: collapseRuns l := by
  induction ws with
  | nil => exact absurd rfl hne
  | cons a rest ih =>
    have ha : isspace a = true := hws a (List.mem_cons_self _ _)
    cases rest with
    | nil =>
      cases l with
      | nil => simp [collapseRuns, ha]
      | cons d l1 =>
        have hd : isspace d = false := hl d rfl
        simp [collapseRuns, ha, hd]
    | cons d rest1 =>
      have hd : isspace d = true := hws d (List.mem_cons_of_mem _ (List.mem_cons_self _ _))
      have ih1 := ih (List.cons_ne_nil _ _) (fun c hc => hws c (List.mem_cons_of_mem _ hc))
      rw [← ih1]
      simp [collapseRuns, ha, hd]

/-- C27: for every line and buffer, `renderCompactInputLine` appends to the
buffer exactly `compactLine` of the line: the characters before the first
newline (or the end of the string), without the leading whitespace, every
maximal run of whitespace that follows replaced by one space and every other
character kept in order.  Hence the text written never starts with whitespace
and never contains a newline, a tab or two adjacent spaces. -/
theorem C27_compact_line (b line : String) :
    renderCompactInputLine b line = b ++ String.mk (compactLine line.data) ∧
    (∀ c, (compactLine line.data).head? = some c → isspace c = false) ∧
    '\n' ∉ compactLine line.data ∧
    '\t' ∉ compactLine line.data ∧
    (∀ l1 l2 : List Char, compactLine line.data ≠ l1 ++ ' ' :: ' ' :: l2) ∧
    (∀ c ∈ compactLine line.data, c = ' ' ∨ (c ∈ upToNewline line.data ∧ isspace c = false)) ∧
    (compactLine line.data).filter (fun c => !isspace c)
      = (upToNewline line.data).filter (fun c => !isspace c) ∧
    (∀ ws l : List Char, ws ≠ [] → (∀ c ∈ ws, isspace c = true) →
      (∀ c, l.head? = some c → isspace c = false) →
      collapseRuns (ws ++ l) = ' ' :: collapseRuns l) ∧
    (∀ (c : Char) (l : List Char), isspace c = false →
      collapseRuns (c :: l) = c :: collapseRuns l) := by
  have hmem := collapseRuns_mem ((upToNewline line.data).dropWhile isspace)
  refine ⟨?_, compactLine_head line.data, ?_, ?_, ?_, ?_, ?_, collapseRuns_run,
    collapseRuns_cons_of_not_space⟩
  · apply String.ext
    rw [String.data_append]
    exact renderCompactInputLineLoop_not_started line.data line.length b (Nat.le_refl _)
  · intro h
    rcases hmem _ h with h1 | h1
    · exact absurd h1 (by decide)
    · rw [isspace_newline] at h1
      exact Bool.noConfusion h1.2
  · intro h
    rcases hmem _ h with h1 | h1
    · exact absurd h1 (by decide)
    · rw [isspace_tab] at h1
      exact Bool.noConfusion h1.2
  · intro l1 l2 h
    have hchain := collapseRuns_chain ((upToNewline line.data).dropWhile isspace)
    unfold compactLine at h
    rw [h, List.chain'_split] at hchain
    have h2 := hchain.2
    rw [List.chain'_cons] at h2
    exact h2.1 ⟨rfl, rfl⟩
  · intro c hc
    rcases hmem c hc with h1 | h1
    · exact Or.inl h1
    · exact Or.inr ⟨(List.dropWhile_sublist _).subset h1.1, h1.2⟩
  · exact compactLine_filter line.data

theorem C27_compact_line_witness :
    renderCompactInputLine "" "  \t int   main (void)\t\t\x7b \r\n next" = "int main (void) \x7b " :=
  (C27_compact_line "" "  \t int   main (void)\t\t\x7b \r\n next").1.trans (by decide)


/-! ### The order of the listing -/

theorem strcmpList_neg_iff : ∀ l1 l2 : List Char, strcmpList l1 l2 < 0 ↔ l1 < l2 := by
  intro l1
  induction l1 with
  | nil =>
    intro l2
    cases l2 with
    | nil => simp [strcmpList]
    | cons d ds =>
      simp only [strcmpList]
      exact iff_of_true (by decide) (List.nil_lt_cons d ds)
  | cons c cs ih =>
    intro l2
    cases l2 with
    | nil =>
      simp only [strcmpList]
      exact iff_of_false (by decide) (by simp)
    | cons d ds =>
      simp only [strcmpList]
      by_cases hcd : c = d
      · subst hcd
        rw [if_pos rfl, ih ds]
        exact List.Lex.cons_iff.symm
      · rw [if_neg hcd]
        by_cases hlt : c.toNat < d.toNat
        · rw [if_pos hlt]
          exact iff_of_true (by decide) (List.Lex.rel hlt)
        · rw [if_neg hlt]
          refine iff_of_false (by decide) ?_
          intro h
          cases h with
          | cons h1 => exact hcd rfl
          | rel h1 => exact hlt h1

theorem strcmpList_eq_zero_iff : ∀ l1 l2 : List Char, strcmpList l1 l2 = 0 ↔ l1 = l2 := by
  intro l1
  induction l1 with
  | nil =>
    intro l2
    cases l2 <;> simp [strcmpList]
  | cons c cs ih =>
    intro l2
    cases l2 with
    | nil => simp [strcmpList]
    | cons d ds =>
      simp only [strcmpList]
      by_cases hcd : c = d
      · subst hcd
        rw [if_pos rfl, ih ds]
        simp
      · rw [if_neg hcd]
        have hne : ¬ (c :: cs = d :: ds) := fun h => hcd (List.cons.inj h).1
        by_cases hlt : c.toNat < d.toNat
        · rw [if_pos hlt]
          exact iff_of_false (by decide) hne
        · rw [if_neg hlt]
          exact iff_of_false (by decide) hne

theorem char_toNat_inj (c d : Char) (h : c.toNat = d.toNat) : c = d :=
  Char.ofNat_toNat c ▸ Char.ofNat_toNat d ▸ congrArg Char.ofNat h

theorem strcmpList_swap : ∀ l1 l2 : List Char, strcmpList l2 l1 = - strcmpList l1 l2 := by
  intro l1
  induction l1 with
  | nil =>
    intro l2
    cases l2 <;> simp [strcmpList]
  | cons c cs ih =>
    intro l2
    cases l2 with
    | nil => simp [strcmpList]
    | cons d ds =>
      simp only [strcmpList]
      by_cases hcd : c = d
      · subst hcd
        rw [if_pos rfl, if_pos rfl, ih ds]
      · have hdc : ¬ d = c := fun h => hcd h.symm
        have hne : c.toNat ≠ d.toNat := fun h => hcd (char_toNat_inj c d h)
        rw [if_neg hcd, if_neg hdc]
        by_cases hlt : c.toNat < d.toNat
        · have hgt : ¬ d.toNat < c.toNat := by omega
          rw [if_pos hlt, if_neg hgt]
          rfl
        · have hgt : d.toNat < c.toNat := by omega
          rw [if_neg hlt, if_pos hgt]

theorem strcmp_neg_iff (a b : String) : strcmp a b < 0 ↔ a < b := by
  rw [String.lt_iff_toList_lt]
  exact strcmpList_neg_iff a.data b.data

theorem strcmp_eq_zero_iff (a b : String) : strcmp a b = 0 ↔ a = b := by
  unfold strcmp
  rw [strcmpList_eq_zero_iff]
  exact ⟨fun h => String.ext h, fun h => congrArg String.data h⟩

theorem strcmp_pos_iff (a b : String) : 0 < strcmp a b ↔ b < a := by
  rw [← strcmp_neg_iff b a]
  unfold strcmp
  rw [strcmpList_swap a.data b.data]
  omega

theorem strcmp_self (a : String) : strcmp a a = 0 := (strcmp_eq_zero_iff a a).2 rfl


theorem some_beq_some_string (t s : String) : (some t == some s) = decide (s = t) := by
  by_cases h : s = t
  · subst h
    rw [decide_eq_true rfl]
    exact beq_self_eq_true _
  · rw [decide_eq_false h]
    apply beq_eq_false_iff_ne.2
    intro h1
    exact h (Option.some.inj h1).symm

theorem fixedPosition_eq (s : String) :
    fixedPosition s
      = if s = "name" then 0 else if s = "input" then 1 else if s = "pattern" then 2 else 3 := by
  simp only [fixedPosition, fieldDefinitionsFixed, mkDef, List.map_cons, List.map_nil,
    List.indexOf_cons, List.indexOf_nil, some_beq_some_string]
  by_cases hn : s = "name"
  · simp only [hn, decide_True, cond_true, if_true]
  · by_cases hi : s = "input"
    · simp only [hi, decide_True, cond_true, if_true]
      decide
    · by_cases hp : s = "pattern"
      · simp only [hp, decide_True, cond_true, if_true]
        decide
      · simp only [hn, hi, hp, decide_False, cond_false, if_false]

theorem fieldColprintCompareLinesLoop_fixed (a b : String) :
    ∃ p : Nat × Nat,
      fieldColprintCompareLinesLoop a b fieldDefinitionsFixed 0 NO_INDEX NO_INDEX = .ok p ∧
      (p.1 < p.2 ↔ fixedPosition a < fixedPosition b) ∧
      (p.2 < p.1 ↔ fixedPosition b < fixedPosition a) := by
  rw [fixedPosition_eq a, fixedPosition_eq b]
  simp only [fieldDefinitionsFixed, mkDef, fieldColprintCompareLinesLoop, strcmp_eq_zero_iff]
  by_cases ha0 : a = "name"
  · subst ha0
    by_cases hb0 : b = "name"
    · subst hb0
      exact ⟨_, rfl, by decide⟩
    · simp only [hb0, if_false, if_true]
      refine ⟨_, rfl, ?_⟩
      split_ifs <;> decide
  · by_cases hb0 : b = "name"
    · subst hb0
      simp only [ha0, if_false, if_true]
      refine ⟨_, rfl, ?_⟩
      split_ifs <;> decide
    · simp only [ha0, hb0, if_false]
      by_cases ha1 : a = "input"
      · subst ha1
        by_cases hb1 : b = "input"
        · subst hb1
          exact ⟨_, rfl, by decide⟩
        · simp only [hb1, if_false, if_true]
          refine ⟨_, rfl, ?_⟩
          split_ifs <;> decide
      · by_cases hb1 : b = "input"
        · subst hb1
          simp only [ha1, if_false, if_true]
          refine ⟨_, rfl, ?_⟩
          split_ifs <;> decide
        · simp only [ha1, hb1, if_false]
          by_cases ha2 : a = "pattern"
          · subst ha2
            by_cases hb2 : b = "pattern"
            · subst hb2
              exact ⟨_, rfl, by decide⟩
            · simp only [hb2, if_false, if_true]
              exact ⟨_, rfl, by decide⟩
          · by_cases hb2 : b = "pattern"
            · subst hb2
              simp only [ha2, if_false, if_true]
              exact ⟨_, rfl, by decide⟩
            · simp only [ha2, hb2, if_false]
              exact ⟨_, rfl, by decide⟩


/-- The comparator returns a value for every pair of rows; the value is
negative exactly when the first row precedes the second and positive exactly
when the second precedes the first. -/
theorem fieldColprintCompareLines_spec (a b : colprintLine) :
    ∃ v, fieldColprintCompareLines a b = .ok v ∧
      (v < 0 ↔ rowPrecedes a b) ∧ (0 < v ↔ rowPrecedes b a) := by
  unfold fieldColprintCompareLines rowPrecedes
  dsimp only
  simp only [ne_eq, strcmp_eq_zero_iff]
  by_cases hfa : a.fixed = "yes"
  · by_cases hfb : b.fixed = "yes"
    · obtain ⟨⟨ai, bi⟩, hp, h1, h2⟩ := fieldColprintCompareLinesLoop_fixed a.name b.name
      simp only [hfa, hfb, and_self, if_true, hp]
      simp only at h1 h2
      by_cases hlt : ai < bi
      · refine ⟨-1, by rw [if_pos hlt], ?_, ?_⟩
        · exact iff_of_true (by decide) (h1.1 hlt)
        · exact iff_of_false (by decide) (fun h => by have := h2.2 h; omega)
      · by_cases heq : ai = bi
        · refine ⟨0, by rw [if_neg hlt, if_pos heq], ?_, ?_⟩
          · exact iff_of_false (by decide) (fun h => hlt (h1.2 h))
          · exact iff_of_false (by decide) (fun h => by have := h2.2 h; omega)
        · refine ⟨1, by rw [if_neg hlt, if_neg heq], ?_, ?_⟩
          · exact iff_of_false (by decide) (fun h => hlt (h1.2 h))
          · exact iff_of_true (by decide) (h2.1 (by omega))
    · refine ⟨-1, by simp [hfa, hfb], ?_, ?_⟩
      · simp [hfa, hfb]
      · simp [hfa, hfb]
  · by_cases hfb : b.fixed = "yes"
    · refine ⟨1, by simp [hfa, hfb], ?_, ?_⟩
      · simp [hfa, hfb]
      · simp [hfa, hfb]
    · by_cases hna : a.language = RSV_NONE
      · by_cases hnb : b.language = RSV_NONE
        · refine ⟨strcmp a.letter b.letter, by simp [hfa, hfb, hna, hnb], ?_, ?_⟩
          · simp [hfa, hfb, hna, hnb, strcmp_neg_iff]
          · simp [hfa, hfb, hna, hnb, strcmp_pos_iff]
        · refine ⟨-1, by simp [hfa, hfb, hna, hnb], ?_, ?_⟩
          · simp [hfa, hfb, hna, hnb]
          · simp [hfa, hfb, hna, hnb]
      · by_cases hnb : b.language = RSV_NONE
        · refine ⟨1, by simp [hfa, hfb, hna, hnb], ?_, ?_⟩
          · simp [hfa, hfb, hna, hnb]
          · simp [hfa, hfb, hna, hnb]
        · by_cases hl : a.language = b.language
          · refine ⟨strcmp a.name b.name, ?_, ?_, ?_⟩
            · simp [hfa, hfb, hna, hnb, hl]
            · rw [strcmp_neg_iff]
              simp [hfa, hfb, hnb, hl]
            · rw [strcmp_pos_iff]
              simp [hfa, hfb, hnb, hl]
          · have hl1 : ¬ b.language = a.language := fun h => hl h.symm
            refine ⟨strcmp a.language b.language, ?_, ?_, ?_⟩
            · simp [hfa, hfb, hna, hnb, hl]
            · rw [strcmp_neg_iff]
              simp [hfa, hfb, hna, hnb, hl]
            · rw [strcmp_pos_iff]
              simp [hfa, hfb, hna, hnb, hl1]


theorem rowPrecedes_neg_trans (a b c : colprintLine)
    (h1 : ¬ rowPrecedes b a) (h2 : ¬ rowPrecedes c b) : ¬ rowPrecedes c a := by
  unfold rowPrecedes at h1 h2 ⊢
  by_cases hfa : a.fixed = "yes" <;> by_cases hfb : b.fixed = "yes" <;>
  by_cases hfc : c.fixed = "yes" <;>
  simp only [hfa, hfb, hfc, and_self, and_true, and_false, true_and, false_and, if_true,
    if_false, not_true_eq_false, not_false_eq_true] at h1 h2 ⊢
  · omega
  · by_cases hna : a.language = RSV_NONE <;> by_cases hnb : b.language = RSV_NONE <;>
    by_cases hnc : c.language = RSV_NONE <;>
    simp only [hna, hnb, hnc, ne_eq, and_self, and_true, and_false, true_and, false_and,
      if_true, if_false, not_true_eq_false, not_false_eq_true] at h1 h2 ⊢
    · exact not_lt.2 (le_trans (not_lt.1 h1) (not_lt.1 h2))
    · have h1a : a.language ≤ b.language := not_lt.1 (fun h => h1 (Or.inl h))
      have h2a : b.language ≤ c.language := not_lt.1 (fun h => h2 (Or.inl h))
      rintro (h | ⟨h, hn⟩)
      · exact absurd (le_trans h1a h2a) (not_le.2 h)
      · have hba : b.language = a.language := le_antisymm (h ▸ h2a) h1a
        have hcb : c.language = b.language := h.trans hba.symm
        have h1b : a.name ≤ b.name := not_lt.1 (fun hlt => h1 (Or.inr ⟨hba, hlt⟩))
        have h2b : b.name ≤ c.name := not_lt.1 (fun hlt => h2 (Or.inr ⟨hcb, hlt⟩))
        exact absurd (le_trans h1b h2b) (not_le.2 hn)

/-- C26: for every two rows the comparator returns a value, and the value is
negative exactly when the first row precedes the second in the listing order
`rowPrecedes`: a fixed row before one that is not, fixed rows by the position of
their name in the fixed table (name 0, input 1, pattern 2), rows that are not
fixed without language before those with one, rows with a language by language
name and then field name, rows without language by letter. -/
theorem C26_listing_order (a b : colprintLine) :
    (∃ v, fieldColprintCompareLines a b = .ok v ∧ (v < 0 ↔ rowPrecedes a b)) ∧
    fixedPosition "name" = 0 ∧ fixedPosition "input" = 1 ∧ fixedPosition "pattern" = 2 ∧
    (∀ s : String, s ≠ "name" → s ≠ "input" → s ≠ "pattern" → fixedPosition s = 3) := by
  refine ⟨?_, by decide, by decide, by decide, ?_⟩
  · obtain ⟨v, hv, h1, _⟩ := fieldColprintCompareLines_spec a b
    exact ⟨v, hv, h1⟩
  · intro s h0 h1 h2
    rw [fixedPosition_eq, if_neg h0, if_neg h1, if_neg h2]

theorem C26_listing_order_witness :
    fieldColprintCompareLines (fixedRow "F" "input") (fixedRow "P" "pattern") = .ok (-1) ∧
    rowPrecedes (fixedRow "F" "input") (fixedRow "P" "pattern") ∧
    fieldColprintCompareLines (sampleRow "-" "note" "C") (sampleRow "a" "access" RSV_NONE)
      = .ok 1 ∧
    ¬ rowPrecedes (sampleRow "-" "note" "C") (sampleRow "a" "access" RSV_NONE) ∧
    ∃ v, fieldColprintCompareLines (sampleRow "-" "alpha" "C") (sampleRow "-" "note" "C") = .ok v ∧
      (v < 0 ↔ rowPrecedes (sampleRow "-" "alpha" "C") (sampleRow "-" "note" "C")) :=
  ⟨rfl, by decide, rfl, by decide,
   (C26_listing_order (sampleRow "-" "alpha" "C") (sampleRow "-" "note" "C")).1⟩

/-- C30: the comparator is a consistent sort comparator: a row compared with
itself gives 0; comparing two rows in the two orders gives values of opposite
sign; and when the comparison of `a` with `b` and that of `b` with `c` are both
at most 0, so is the comparison of `a` with `c`.  All comparisons return a
value. -/
theorem C30_consistent_comparator (a b c : colprintLine) :
    fieldColprintCompareLines a a = .ok 0 ∧
    (∃ v w, fieldColprintCompareLines a b = .ok v ∧ fieldColprintCompareLines b a = .ok w ∧
      Int.sign v = - Int.sign w) ∧
    (∃ u v w, fieldColprintCompareLines a b = .ok u ∧ fieldColprintCompareLines b c = .ok v ∧
      fieldColprintCompareLines a c = .ok w ∧ (u ≤ 0 → v ≤ 0 → w ≤ 0)) := by
  refine ⟨?_, ?_, ?_⟩
  · obtain ⟨v, hv, h1, h2⟩ := fieldColprintCompareLines_spec a a
    have hv0 : v = 0 := by
      by_cases hp : rowPrecedes a a
      · have := h1.2 hp
        have := h2.2 hp
        omega
      · have hn1 : ¬ v < 0 := fun h => hp (h1.1 h)
        have hn2 : ¬ 0 < v := fun h => hp (h2.1 h)
        omega
    rw [hv, hv0]
  · obtain ⟨v, hv, h1, h2⟩ := fieldColprintCompareLines_spec a b
    obtain ⟨w, hw, h3, h4⟩ := fieldColprintCompareLines_spec b a
    refine ⟨v, w, hv, hw, ?_⟩
    rcases lt_trichotomy v 0 with hneg | hzero | hpos
    · have hwpos : 0 < w := h4.2 (h1.1 hneg)
      rw [Int.sign_eq_neg_one_of_neg hneg, Int.sign_eq_one_of_pos hwpos]
    · have hw0 : w = 0 := by
        have hn1 : ¬ w < 0 := fun h => by have := h2.2 (h3.1 h); omega
        have hn2 : ¬ 0 < w := fun h => by have := h1.2 (h4.1 h); omega
        omega
      rw [hzero, hw0]
      rfl
    · have hwneg : w < 0 := h3.2 (h2.1 hpos)
      rw [Int.sign_eq_one_of_pos hpos, Int.sign_eq_neg_one_of_neg hwneg]
      rfl
  · obtain ⟨u, hu, _, hu2⟩ := fieldColprintCompareLines_spec a b
    obtain ⟨v, hv, _, hv2⟩ := fieldColprintCompareLines_spec b c
    obtain ⟨w, hw, _, hw2⟩ := fieldColprintCompareLines_spec a c
    refine ⟨u, v, w, hu, hv, hw, ?_⟩
    intro hu0 hv0
    have h1 : ¬ rowPrecedes b a := fun h => by have := hu2.2 h; omega
    have h2 : ¬ rowPrecedes c b := fun h => by have := hv2.2 h; omega
    have h3 := rowPrecedes_neg_trans a b c h1 h2
    exact not_lt.1 (fun h => h3 (hw2.1 h))

theorem C30_consistent_comparator_witness :
    fieldColprintCompareLines (fixedRow "N" "name") (fixedRow "N" "name") = .ok 0 ∧
    fieldColprintCompareLines (fixedRow "N" "name") (sampleRow "a" "access" RSV_NONE)
      = .ok (-1) ∧
    fieldColprintCompareLines (sampleRow "a" "access" RSV_NONE) (fixedRow "N" "name") = .ok 1 ∧
    fieldColprintCompareLines (sampleRow "a" "access" RSV_NONE) (sampleRow "-" "note" "C")
      = .ok (-1) ∧
    fieldColprintCompareLines (fixedRow "N" "name") (sampleRow "-" "note" "C") = .ok (-1) :=
  ⟨(C30_consistent_comparator (fixedRow "N" "name") (fixedRow "N" "name")
      (fixedRow "N" "name")).1, rfl, rfl, rfl, rfl⟩


/-! ### Whitespace at the end of the compact input line -/

theorem collapseRuns_cons_space (a : Char) (m : List Char) (ha : isspace a = true)
    (hm : m ≠ []) :
    collapseRuns (a :: m) = collapseRuns m ∨ collapseRuns (a :: m) = ' ' :: collapseRuns m := by
  cases m with
  | nil => exact absurd rfl hm
  | cons d rest =>
    cases hd : isspace d with
    | true =>
      left
      simp only [collapseRuns, ha, hd, if_true]
    | false =>
      right
      simp only [collapseRuns, ha, hd, if_true, Bool.false_eq_true, if_false]

/-- A text that has a character other than whitespace and is followed by one
whitespace character is rendered with one space at its end, after a character
that is not whitespace. -/
theorem collapseRuns_end (w : Char) (hw : isspace w = true) :
    ∀ l : List Char, (∃ c ∈ l, isspace c = false) →
      ∃ out x, isspace x = false ∧ collapseRuns (l ++ [w]) = out ++ [x, ' '] := by
  intro l
  induction l with
  | nil =>
    intro h
    obtain ⟨c, hc, _⟩ := h
    exact absurd hc (List.not_mem_nil c)
  | cons a rest ih =>
    intro h
    by_cases hrest : ∃ c ∈ rest, isspace c = false
    · obtain ⟨out, x, hx, hout⟩ := ih hrest
      cases ha : isspace a with
      | false =>
        refine ⟨a :: out, x, hx, ?_⟩
        rw [List.cons_append, collapseRuns_cons_of_not_space a _ ha, hout]
        rfl
      | true =>
        have hne : rest ++ [w] ≠ [] := by simp
        rcases collapseRuns_cons_space a (rest ++ [w]) ha hne with h1 | h1
        · exact ⟨out, x, hx, by rw [List.cons_append, h1, hout]⟩
        · refine ⟨' ' :: out, x, hx, ?_⟩
          rw [List.cons_append, h1, hout]
          rfl
    · have hall : ∀ c ∈ rest ++ [w], isspace c = true := by
        intro c hc
        rcases List.mem_append.1 hc with h1 | h1
        · cases hs : isspace c with
          | true => rfl
          | false => exact absurd ⟨c, h1, hs⟩ hrest
        · rw [List.mem_singleton.1 h1]
          exact hw
      have ha : isspace a = false := by
        obtain ⟨c, hc, hs⟩ := h
        rcases List.mem_cons.1 hc with h1 | h1
        · rw [← h1]
          exact hs
        · exact absurd ⟨c, h1, hs⟩ hrest
      have hrun := collapseRuns_run (rest ++ [w]) [] (by simp) hall
        (fun c hc => by simp at hc)
      rw [List.append_nil] at hrun
      refine ⟨[], a, ha, ?_⟩
      rw [List.cons_append, collapseRuns_cons_of_not_space a _ ha, hrun]
      rfl

theorem dropWhile_isspace_append (w : Char) :
    ∀ l : List Char, (∃ c ∈ l, isspace c = false) →
      ∃ l1 : List Char, (∃ c ∈ l1, isspace c = false) ∧
        (l ++ [w]).dropWhile isspace = l1 ++ [w] := by
  intro l
  induction l with
  | nil =>
    intro h
    obtain ⟨c, hc, _⟩ := h
    exact absurd hc (List.not_mem_nil c)
  | cons a rest ih =>
    intro h
    cases ha : isspace a with
    | true =>
      have hrest : ∃ c ∈ rest, isspace c = false := by
        obtain ⟨c, hc, hs⟩ := h
        rcases List.mem_cons.1 hc with h1 | h1
        · rw [h1, ha] at hs
          exact Bool.noConfusion hs
        · exact ⟨c, h1, hs⟩
      obtain ⟨l1, hl1, hdrop⟩ := ih hrest
      refine ⟨l1, hl1, ?_⟩
      rw [List.cons_append, List.dropWhile_cons, if_pos ha, hdrop]
    | false =>
      refine ⟨a :: rest, h, ?_⟩
      rw [List.cons_append, List.dropWhile_cons, ha]
      rfl

theorem upToNewline_crlf (rest : List Char) :
    ∀ p : List Char, (∀ c ∈ p, c ≠ '\n' ∧ c ≠ Char.ofNat 0) →
      upToNewline (p ++ '\r' :: '\n' :: rest) = p ++ ['\r'] := by
  intro p
  induction p with
  | nil =>
    intro _
    rfl
  | cons a p1 ih =>
    intro h
    have ha := h a (List.mem_cons_self _ _)
    rw [List.cons_append, upToNewline_cons a _ ha.1 ha.2,
      ih (fun c hc => h c (List.mem_cons_of_mem _ hc))]
    rfl

/-- C31: when the text of the line before the newline has a character that is
not whitespace and ends in a whitespace character, what `renderCompactInputLine`
appends to the buffer ends with a space that follows a character other than
whitespace, so with exactly one space.  The carriage return of a CRLF line
ending is such a last character: it counts as whitespace, the loop replaces it
by a space before the carriage-return test, and the space is written. -/
theorem C31_trailing_space (b line : String) (pre : List Char) (w : Char)
    (hseg : upToNewline line.data = pre ++ [w]) (hw : isspace w = true)
    (hns : ∃ c ∈ pre, isspace c = false) :
    (∃ out x, isspace x = false ∧ x ≠ ' ' ∧
      (renderCompactInputLine b line).data = b.data ++ out ++ [x, ' ']) ∧
    (∀ p rest : List Char, (∀ c ∈ p, c ≠ '\n' ∧ c ≠ Char.ofNat 0) →
      upToNewline (p ++ '\r' :: '\n' :: rest) = p ++ ['\r']) ∧
    isspace '\r' = true ∧
    (∀ (fuel : Nat) (rest : List Char) (b1 : String),
      renderCompactInputLineLoop (fuel + 1) ('\r' :: '\n' :: rest) true b1 = b1.push ' ') := by
  refine ⟨?_, fun p rest hp => upToNewline_crlf rest p hp, isspace_cr, ?_⟩
  · obtain ⟨l1, hl1, hdrop⟩ := dropWhile_isspace_append w pre hns
    obtain ⟨out, x, hx, hout⟩ := collapseRuns_end w hw l1 hl1
    have hne : x ≠ ' ' := by
      intro h
      rw [h, isspace_space] at hx
      exact Bool.noConfusion hx
    refine ⟨out, x, hx, hne, ?_⟩
    have hrun := renderCompactInputLineLoop_not_started line.data line.length b (Nat.le_refl _)
    unfold renderCompactInputLine
    rw [hrun]
    unfold compactLine
    rw [hseg, hdrop, hout, List.append_assoc]
  · intro fuel rest b1
    cases fuel with
    | zero => simp [renderCompactInputLineLoop, consumeWhiteSpace, isspace_cr]
    | succ n => simp [renderCompactInputLineLoop, consumeWhiteSpace, isspace_cr]

theorem C31_trailing_space_witness :
    renderCompactInputLine "" "int x;\r\nnext" = "int x; " ∧
    ∃ out x, isspace x = false ∧ x ≠ ' ' ∧
      (renderCompactInputLine "" "int x;\r\nnext").data = "".data ++ out ++ [x, ' '] :=
  ⟨by decide,
   (C31_trailing_space "" "int x;\r\nnext" "int x;".data '\r' (by decide) (by decide)
      ⟨'i', by decide, by decide⟩).1⟩

end Field
